import Mathlib

/-!
# dbx: dynamic multi-row insert builder, query logging and paging

A shallow embedding of the insert-statement builder of the `dbx` package
(`util.go`, `common.go`, `errors.go`), of its logged query operations
(`common.go`, `dbx.go`, `tx.go`, `logger.go`) and of its paging options
(`query_options.go`), and theorems about them.

* Go strings are Lean `String`s, `+` is `++`.
* A `map[string]interface{}` is an association list read with `mapGet` and
  written with `mapSet`; the newest binding of a key shadows older ones, so
  `m[k] = v` is `mapSet m k v`.
* A function that mutates the map it is given returns the map it leaves
  behind next to its result.
* A regular expression is a syntax tree run by a backtracking matcher that
  prefers the first alternative and the longest repetition, as Go's `regexp`
  does; `ReplaceAllString` replaces the successive non-overlapping matches.
* A handle (`DBX`, `Tx`) is the record of the fields logging reads; a logging
  invocation returns the handle it leaves behind and the lines it printed.
* A Go `int` is an `Int` wrapped to 64 bits after each arithmetic operation.
-/

namespace Dbx

/-! ## Data model -/

/-- Dynamic Go values travelling as `interface{}`: the values of record fields,
of the override map and of the bound argument list. -/
inductive GoVal where
  | nil
  | bool (b : Bool)
  | int (n : Int)
  | str (s : String)
  deriving DecidableEq, Repr

/-- A `map[string]interface{}`: newest binding first. -/
abbrev GoMap := List (String × GoVal)

/-- The lookup `v, ok := m[k]`. -/
def mapGet : GoMap → String → Option GoVal
  | [], _ => none
  | (k', v) :: rest, k => if k' = k then some v else mapGet rest k

/-- The assignment `m[k] = v`. -/
def mapSet (m : GoMap) (k : String) (v : GoVal) : GoMap := (k, v) :: m

/-- The decimal text of an `int`, as `strconv.Itoa` prints it. -/
def Itoa : Int → String
  | Int.ofNat n => Nat.repr n
  | Int.negSucc n => "-" ++ Nat.repr (n + 1)

/-! ## util.go -/

/-- The `for pi, p := range params` loop of `BuildInsertParams`: `pi` is the
position of the head of the remaining parameters, `values` the whole value
slice (indexed by `pi`, an index out of range is a run-time panic: `none`). -/
def BuildInsertParams.loop (it : String) (values : List GoVal) :
    Nat → List String → String → GoMap → Option (String × GoMap)
  | _, [], out, m => some (out, m)
  | pi, p :: ps, out, m =>
    let out := if pi > 0 then out ++ "," else out
    let p := p ++ ("_" ++ it)
    let out := out ++ (":" ++ p)
    match values[pi]? with
    | none => none
    | some v => BuildInsertParams.loop it values (pi + 1) ps out (mapSet m p v)

/-- `BuildInsertParams(m, rowIt, params, values)`: the placeholder group of one
row and the map after the registrations; `none` is the index-out-of-range
panic of `values[pi]`. -/
def BuildInsertParams (m : GoMap) (rowIt : Int) (params : List String)
    (values : List GoVal) : Option (String × GoMap) :=
  let out := "("
  let it := Itoa rowIt
  match BuildInsertParams.loop it values 0 params out m with
  | none => none
  | some (out, m) =>
    let out := out ++ ")"
    let out := if rowIt > 0 then "," ++ out else out
    some (out, m)

/-! ## errors.go -/

/-- The ways a build can fail: the four error kinds of `errors.go`, each with
its message; `NamedErr`, an error reported by the rebind step; and `panic`, a
Go run-time panic (no error value is returned). -/
inductive Failure where
  | MissingParamErr (error : String)
  | WrongTypeErr (error : String)
  | NilPointerErr (error : String)
  | EmptySliceErr (error : String)
  | NamedErr (error : String)
  | panic (msg : String)
  deriving DecidableEq, Repr

/-! ## Targets, as `reflect` sees them -/

/-- One exported, non-embedded field of a record: its declared name, the value
of its `db` tag when it has one (`field.Tag.Lookup("db")`) and its value. -/
structure Field where
  name : String
  tag : Option String
  value : GoVal
  deriving DecidableEq, Repr

/-- The `target interface{}` of `namedInsert`, by `reflect.Kind`: a record with
its fields in declaration order, a pointer (`none` is nil), a slice whose
element type is a concrete type, or a value of any other kind. -/
inductive Target where
  | struct (fields : List Field)
  | ptr (elem : Option Target)
  | slice (elems : List Target)
  | other (v : GoVal)

/-- `value.FieldByName(name)`: the field of that declared name; `none` is the
invalid `reflect.Value` (kind `Invalid`). -/
def FieldByName (value : Target) (name : String) : Option Field :=
  match value with
  | Target.struct fields => fields.find? fun f => f.name = name
  | _ => none

/-! ## common.go -/

/-- One turn of the field loop of `mapTypeFieldsTag`: `m[v] = field` when the
field has a `db` tag `v`. -/
def tagStep (m : List (String × Field)) (field : Field) : List (String × Field) :=
  match field.tag with
  | some v => (v, field) :: m
  | none => m

/-- `mapTypeFieldsTag("db", t)`: the map from `db` tag value to field, filled in
declaration order (`m[v] = field`, a later field with the same tag replaces an
earlier one); newest binding first. -/
def mapTypeFieldsTag (t : Target) : Except Failure (List (String × Field)) :=
  match t with
  | Target.struct fields => Except.ok (fields.foldl tagStep [])
  | _ => Except.error (Failure.WrongTypeErr "not a struct")

/-- The lookup `field, ok := tagMap[param]`. -/
def tagGet : List (String × Field) → String → Option Field
  | [], _ => none
  | (k, f) :: rest, param => if k = param then some f else tagGet rest param

/-- The `for _, param := range paramNames` loop of `buildInsertQueryValues`:
override map first, then the field of that declared name, then the field of
that `db` tag, else `MissingParamErr`. `values` is the slice appended to. -/
def buildInsertQueryValues.loop (value : Target) (tagMap : List (String × Field))
    (m : GoMap) : List String → List GoVal → Except Failure (List GoVal)
  | [], values => Except.ok values
  | param :: rest, values =>
    match mapGet m param with
    | some v => buildInsertQueryValues.loop value tagMap m rest (values ++ [v])
    | none =>
      match FieldByName value param with
      | some f => buildInsertQueryValues.loop value tagMap m rest (values ++ [f.value])
      | none =>
        match tagGet tagMap param with
        | some field =>
          match FieldByName value field.name with
          | some f => buildInsertQueryValues.loop value tagMap m rest (values ++ [f.value])
          | none => Except.error (Failure.panic "reflect: call of Interface on zero Value")
        | none => Except.error (Failure.MissingParamErr ("param '" ++ param ++ "' not found"))

/-- `buildInsertQueryValues(index, target, paramNames, m)`: the placeholder
group of one row, or the error, and the map it leaves behind. -/
def buildInsertQueryValues (index : Int) (target : Target) (paramNames : List String)
    (m : GoMap) : Except Failure String × GoMap :=
  match target with
  | Target.ptr none =>
    (Except.error (Failure.NilPointerErr "nil pointer passed to buildInsertValues target"), m)
  | _ =>
    let value := match target with
      | Target.ptr (some v) => v
      | v => v
    match mapTypeFieldsTag value with
    | Except.error e => (Except.error e, m)
    | Except.ok tagMap =>
      match buildInsertQueryValues.loop value tagMap m paramNames [] with
      | Except.error e => (Except.error e, m)
      | Except.ok values =>
        match BuildInsertParams m index paramNames values with
        | none => (Except.error (Failure.panic "index out of range"), m)
        | some (out, m') => (Except.ok out, m')

/-- The `for i := 0; i < sliceValue.Len(); i++` loop of `namedInsertSlice`:
`i` is the position of the head of the remaining elements. -/
def namedInsertSlice.loop (paramNames : List String) :
    Nat → List Target → String → GoMap → Except Failure String × GoMap
  | _, [], valuesPart, m => (Except.ok valuesPart, m)
  | i, item :: rest, valuesPart, m =>
    match item with
    | Target.ptr none =>
      (Except.error (Failure.NilPointerErr "nil pointer passed to namedInsertSlice target"), m)
    | _ =>
      let itemValue := match item with
        | Target.ptr (some v) => v
        | v => v
      match buildInsertQueryValues (Int.ofNat i) itemValue paramNames m with
      | (Except.error e, m') => (Except.error e, m')
      | (Except.ok qValues, m') =>
        namedInsertSlice.loop paramNames (i + 1) rest (valuesPart ++ qValues) m'

/-- `namedInsertSlice(sliceValue, paramNames, m)` on the elements of the slice. -/
def namedInsertSlice (sliceValue : List Target) (paramNames : List String) (m : GoMap) :
    Except Failure String × GoMap :=
  if sliceValue.length = 0 then
    (Except.error (Failure.EmptySliceErr "target slice is empty"), m)
  else
    namedInsertSlice.loop paramNames 0 sliceValue "" m

/-- Lines 86 to 116 of `namedInsert`, on the non-nil map `valueMapper`: the
statement text `q` handed to the rebind step, or the error, and the map left
behind. -/
def namedInsert.build (target : Target) (tableName : String) (params : List String)
    (valueMapper : GoMap) : Except Failure String × GoMap :=
  match target with
  | Target.ptr none =>
    (Except.error (Failure.NilPointerErr "nil pointer passed to namedInsert target"), valueMapper)
  | _ =>
    let value := match target with
      | Target.ptr (some v) => v
      | v => v
    let built : Except Failure String × GoMap :=
      match value with
      | Target.struct _ => buildInsertQueryValues 0 value params valueMapper
      | Target.slice elems => namedInsertSlice elems params valueMapper
      | _ => (Except.error (Failure.WrongTypeErr "target type not accepted"), valueMapper)
    match built with
    | (Except.error e, m) => (Except.error e, m)
    | (Except.ok valuesPart, m) =>
      (Except.ok ("Insert into " ++ tableName ++ " (" ++ ",".intercalate params ++ ") Values "
        ++ valuesPart), m)

/-! ## The rebind step -/

/-- Modelled from the spec: the letters and digits a named placeholder may be
made of (the library behind the rebind step, `sqlx`, is outside the sources);
the scanner accepts the underscore and the dot next to them. -/
def allowedBindRune (c : Char) : Bool := c.isAlphanum

/-- Modelled from the spec: the scanner of the rebind step (`sqlx.Named` for the
`?` bind type, a library outside the sources), which "rewrites named
placeholders into the concrete driver's positional/bound syntax". It reads the
statement left to right; `i` is the position of the head of the remaining
text, `prev` the character before it, `inName` whether a placeholder name is
being read, `name` the name read so far, `rebound` the rewritten text and
`names` the placeholder names met so far. A `:` opens a name, `::` stands for a
literal `:`, and a name ends at the first character that may not be part of
one, where a `?` is written in its place. -/
def compileNamedQuery.loop :
    List Char → Nat → Option Char → Bool → List Char → List Char → List String →
      Except String (List Char × List String)
  | [], _, _, _, _, rebound, names => Except.ok (rebound, names)
  | b :: rest, i, prev, inName, name, rebound, names =>
    if b = ':' then
      if inName && prev == some ':' then
        compileNamedQuery.loop rest (i + 1) (some b) false name (rebound ++ [':']) names
      else if inName then
        Except.error ("unexpected `:` while reading named param at " ++ Nat.repr i)
      else
        compileNamedQuery.loop rest (i + 1) (some b) true [] rebound names
    else if inName && (allowedBindRune b || b == '_' || b == '.') && !rest.isEmpty then
      compileNamedQuery.loop rest (i + 1) (some b) true (name ++ [b]) rebound names
    else if inName then
      let name := if rest.isEmpty && allowedBindRune b then name ++ [b] else name
      let names := names ++ [String.mk name]
      let rebound := rebound ++ ['?']
      let rebound :=
        if !rest.isEmpty then rebound ++ [b]
        else if !allowedBindRune b then rebound ++ [b]
        else rebound
      compileNamedQuery.loop rest (i + 1) (some b) false name rebound names
    else
      compileNamedQuery.loop rest (i + 1) (some b) false name (rebound ++ [b]) names

/-- Modelled from the spec: the rewritten statement and the placeholder names
in order of appearance (the scanner of `sqlx.Named`, outside the sources). -/
def compileNamedQuery (qs : String) : Except String (String × List String) :=
  match compileNamedQuery.loop qs.data 0 none false [] [] [] with
  | Except.error e => Except.error e
  | Except.ok (rebound, names) => Except.ok (String.mk rebound, names)

/-- Modelled from the spec: the "matching ordered argument list" of the rebind
step, the value of each placeholder name in order; a name the map does not hold
is an error, returned with the arguments bound so far (`sqlx`, outside the
sources). -/
def bindMapArgs (arg : GoMap) : List String → List GoVal → List GoVal × Option Failure
  | [], arglist => (arglist, none)
  | name :: rest, arglist =>
    match mapGet arg name with
    | none => (arglist, some (Failure.NamedErr ("could not find name " ++ name)))
    | some val => bindMapArgs arg rest (arglist ++ [val])

/-- Modelled from the spec: the rebind step `sqlx.Named(q, valueMapper)` on a
map argument (a library outside the sources): the statement with every named
placeholder rewritten to `?`, the ordered argument list (`none` is the nil
slice) and the error, if any. -/
def Named (query : String) (arg : GoMap) : String × Option (List GoVal) × Option Failure :=
  match compileNamedQuery query with
  | Except.error e => ("", some [], some (Failure.NamedErr e))
  | Except.ok (bound, names) =>
    match bindMapArgs arg names [] with
    | (arglist, err) => (bound, some arglist, err)

/-- What a call of `namedInsert` leaves behind: the three results (`args = none`
is the nil slice, `err = none` the nil error) and the caller's override map
after the call (`none` when the caller passed a nil map). -/
structure InsertResult where
  query : String
  args : Option (List GoVal)
  err : Option Failure
  valueMapper : Option GoMap
  deriving DecidableEq, Repr

/-- `namedInsert(target, tableName, params, valueMapper)`. A nil `valueMapper`
is replaced by a fresh map local to the call; a non-nil one is the map the
build writes to. -/
def namedInsert (target : Target) (tableName : String) (params : List String)
    (valueMapper : Option GoMap) : InsertResult :=
  let m : GoMap := match valueMapper with
    | none => []
    | some m => m
  match namedInsert.build target tableName params m with
  | (Except.error e, m') =>
    { query := "", args := none, err := some e, valueMapper := valueMapper.map fun _ => m' }
  | (Except.ok q, m') =>
    match Named q m' with
    | (bound, args, err) =>
      { query := bound, args := args, err := err, valueMapper := valueMapper.map fun _ => m' }

/-! ## Notions the statements below are written with -/

/-- The parameter name `<p>_<i>` registered for column `p` of row `i`. -/
def paramName (p : String) (i : Int) : String := p ++ ("_" ++ Itoa i)

/-- The placeholder group `(:c1_i,...,:cn_i)` of row `i`, as the specification
writes it. -/
def groupText (params : List String) (i : Int) : String :=
  "(" ++ ",".intercalate (params.map fun p => ":" ++ paramName p i) ++ ")"

/-- The value one requested column gets in one row when the map holds `m`: what
one turn of the loop of `buildInsertQueryValues` appends, `none` when it stops
with `MissingParamErr`. -/
def resolveColumn (m : GoMap) (fields : List Field) (c : String) : Option GoVal :=
  match mapGet m c with
  | some v => some v
  | none =>
    match fields.find? fun f => f.name = c with
    | some f => some f.value
    | none =>
      match fields.reverse.find? fun f => f.tag = some c with
      | some field => (fields.find? fun f => f.name = field.name).map fun f => f.value
      | none => none

/-- The map after the parameters of row `i` were registered with values `vs`. -/
def registered (m : GoMap) (i : Int) (ps : List String) (vs : List GoVal) : GoMap :=
  ((ps.map fun p => paramName p i).zip vs).reverse ++ m

/-- The text one row adds to the VALUES clause: its group, after a `,` for
every row but the first. -/
def rowText (ps : List String) (i : Int) : String :=
  (if i > 0 then "," else "") ++ groupText ps i

/-- The record behind one element of a sequence: the element itself, or what a
non-nil pointer element points to (the build removes up to two levels of
pointer from an element). -/
def rowOf : Target → Option (List Field)
  | Target.struct fields => some fields
  | Target.ptr (some (Target.struct fields)) => some fields
  | Target.ptr (some (Target.ptr (some (Target.struct fields)))) => some fields
  | _ => none

/-- The records behind the elements of a sequence, in order. -/
def rowsOfElems : List Target → Option (List (List Field))
  | [] => some []
  | e :: rest =>
    match rowOf e, rowsOfElems rest with
    | some r, some rs => some (r :: rs)
    | _, _ => none

/-- The rows a target normalises to: a record or a pointer to a record is one
row; a sequence or a pointer to a sequence has one row per element. -/
def rowsOf : Target → Option (List (List Field))
  | Target.struct fields => some [fields]
  | Target.ptr (some (Target.struct fields)) => some [fields]
  | Target.slice elems => rowsOfElems elems
  | Target.ptr (some (Target.slice elems)) => rowsOfElems elems
  | _ => none

/-- The first row of a target, when it is a record. -/
def firstRow : Target → Option (List Field)
  | Target.struct fields => some fields
  | Target.ptr (some (Target.struct fields)) => some fields
  | Target.slice (e :: _) => rowOf e
  | Target.ptr (some (Target.slice (e :: _))) => rowOf e
  | _ => none

/-- The map as the rows `rows`, the first of them at position `i`, leave it. -/
def mapAfterRows (ps : List String) : Nat → List (List Field) → GoMap → GoMap
  | _, [], m => m
  | i, row :: rest, m =>
    mapAfterRows ps (i + 1) rest
      (registered m (Int.ofNat i) ps (ps.filterMap (resolveColumn m row)))

/-- Whether every requested column of every row resolves, each row read with
the map the rows before it left behind. -/
def rowsResolve (ps : List String) : Nat → List (List Field) → GoMap → Bool
  | _, [], _ => true
  | i, row :: rest, m =>
    ps.all (fun c => (resolveColumn m row c).isSome)
      && rowsResolve ps (i + 1) rest
          (registered m (Int.ofNat i) ps (ps.filterMap (resolveColumn m row)))

/-- The statement text of a build whose rows all resolve. -/
def insertText (tableName : String) (ps : List String) (k : Nat) : String :=
  "Insert into " ++ tableName ++ " (" ++ ",".intercalate ps ++ ") Values "
    ++ ",".intercalate ((List.range k).map fun j => groupText ps (Int.ofNat j))

/-- One level of pointer indirection removed; `none` for a nil pointer. -/
def indirect : Target → Option Target
  | Target.ptr none => none
  | Target.ptr (some v) => some v
  | v => some v

/-- Whether a value is record-shaped (`reflect.Struct`). -/
def isStruct : Target → Bool
  | Target.struct _ => true
  | _ => false

/-- Whether a value is sequence-shaped (`reflect.Slice`). -/
def isSlice : Target → Bool
  | Target.slice _ => true
  | _ => false

/-- The element of a sequence after the pointer removal of the build: one
level by `namedInsertSlice`, one more by `buildInsertQueryValues`; `none` when
a nil pointer is met. -/
def elemValue (item : Target) : Option Target :=
  match indirect item with
  | none => none
  | some v => indirect v

/-- The number a run of decimal digits stands for, read left to right. -/
def decodeDigits (l : List Char) : Nat :=
  l.foldl (fun a c => a * 10 + (c.toNat - 48)) 0

/-- The characters of the pieces `l` joined by `sep`. -/
def joinChars (sep : List Char) : List (List Char) → List Char
  | [] => []
  | a :: as => a ++ as.flatMap fun x => sep ++ x

/-- The characters of the group `(?,...,?)` of `n` rebound placeholders. -/
def questionGroup (n : Nat) : List Char :=
  '(' :: joinChars [','] (List.replicate n ['?']) ++ [')']

/-- The characters of the group `(:c1_j,...,:cn_j)` of row `j`. -/
def groupChars (ps : List String) (j : Nat) : List Char :=
  '(' :: joinChars [','] (ps.map fun p => ':' :: (paramName p (Int.ofNat j)).data) ++ [')']

/-! ## The inputs of the tests -/

/-- The fields of the record type of `common_test.go`: `ID`, `Name`, `Location`,
`IsAlive`, tagged `id`, `name`, `location`, `is_alive`. -/
def personFields (id : Int) (name location : String) (isAlive : Bool) : List Field :=
  [⟨"ID", some "id", GoVal.int id⟩, ⟨"Name", some "name", GoVal.str name⟩,
   ⟨"Location", some "location", GoVal.str location⟩,
   ⟨"IsAlive", some "is_alive", GoVal.bool isAlive⟩]

/-- A record of the tests. -/
def person (id : Int) (name location : String) (isAlive : Bool) : Target :=
  Target.struct (personFields id name location isAlive)

/-- The two rows of "Test with multiple rows". -/
def twoRows : List (List Field) :=
  [personFields 1 "Alpha" "Australia" true, personFields 2 "Beta" "France" false]

/-- The target of "Test with multiple rows", a sequence of two records. -/
def twoPersons : Target :=
  Target.slice [person 1 "Alpha" "Australia" true, person 2 "Beta" "France" false]

/-- A record with fields `Score` and `Score0`, tagged `score` and `score_0`. -/
def scoreFields (score score0 : Int) : List Field :=
  [⟨"Score", some "score", GoVal.int score⟩, ⟨"Score0", some "score_0", GoVal.int score0⟩]

/-- A sequence of two such records. -/
def twoScores : Target :=
  Target.slice [Target.struct (scoreFields 1 10), Target.struct (scoreFields 2 20)]

/-! ## Regular expressions (package `regexp`)

The three patterns of the sources are kept as syntax trees and run by a
backtracking matcher with the leftmost-first rule of Go: at the first position
where the pattern matches, alternatives are tried in order and repetitions are
greedy. -/

/-- The syntax of the patterns: a literal character, a character class, a
concatenation, an alternation, the repetitions `*` and `+`, a capturing group
and the end of the text (`$` without the `m` flag). -/
inductive Regex where
  | lit (c : Char)
  | cls (p : Char → Bool)
  | seq (a b : Regex)
  | alt (a b : Regex)
  | star (a : Regex)
  | plus (a : Regex)
  | group (a : Regex)
  | endText

/-- The greedy loop of a repetition: `step` matches the repeated pattern once;
one more turn is tried before the rest of the pattern `k`, and a turn that
consumes nothing ends the loop. `fuel` bounds the number of turns. -/
def Regex.starLoop (step : List Char → (List Char → Option (List Char)) → Option (List Char)) :
    Nat → List Char → (List Char → Option (List Char)) → Option (List Char)
  | 0, s, k => k s
  | fuel + 1, s, k =>
    match step s (fun r => if r.length < s.length then Regex.starLoop step fuel r k else none) with
    | some r => some r
    | none => k s

/-- The backtracking matcher: `re.run s k` matches `re` against a prefix of `s`
and hands the remaining text to the rest of the pattern `k`; the result is the
text left after the whole match, `none` when there is no match at this
position. -/
def Regex.run : Regex → List Char → (List Char → Option (List Char)) → Option (List Char)
  | Regex.lit c, s, k =>
    match s with
    | x :: xs => if x = c then k xs else none
    | [] => none
  | Regex.cls p, s, k =>
    match s with
    | x :: xs => if p x then k xs else none
    | [] => none
  | Regex.seq a b, s, k => a.run s (fun r => b.run r k)
  | Regex.alt a b, s, k =>
    match a.run s k with
    | some r => some r
    | none => b.run s k
  | Regex.star a, s, k => Regex.starLoop (fun s' k' => a.run s' k') s.length s k
  | Regex.plus a, s, k =>
    a.run s (fun r => Regex.starLoop (fun s' k' => a.run s' k') r.length r k)
  | Regex.group a, s, k => a.run s k
  | Regex.endText, s, k =>
    match s with
    | [] => k []
    | _ :: _ => none

/-- The match of `re` that starts at the head of `s`: the text left after it. -/
def Regex.matchAt (re : Regex) (s : List Char) : Option (List Char) := re.run s some

/-- The loop of `ReplaceAllString` for a replacement text without `$`: the
leftmost match is replaced and the search goes on after it; where the pattern
does not match, one character is copied. An empty match is replaced unless it
comes right after the previous match (`afterMatch`). -/
def Regex.replaceLoop (re : Regex) (repl : List Char) : Nat → Bool → List Char → List Char
  | 0, _, s => s
  | fuel + 1, afterMatch, s =>
    match re.matchAt s with
    | some rest =>
      if rest.length < s.length then
        repl ++ Regex.replaceLoop re repl fuel true rest
      else
        (if afterMatch then [] else repl) ++
          (match s with
            | [] => []
            | c :: cs => c :: Regex.replaceLoop re repl fuel false cs)
    | none =>
      match s with
      | [] => []
      | c :: cs => c :: Regex.replaceLoop re repl fuel false cs

/-- The loop of `ReplaceAllString` run over the whole text `s`: every turn
consumes a character, so `s.length + 1` turns reach the end of the text. -/
def Regex.replaceAll (re : Regex) (repl s : List Char) : List Char :=
  re.replaceLoop repl (s.length + 1) false s

/-- `re.ReplaceAllString(src, repl)` for a replacement text without `$`. -/
def Regex.ReplaceAllString (re : Regex) (src repl : String) : String :=
  String.mk (re.replaceAll repl.data src.data)

/-- The class `\s` of the package: `[\t\n\f\r ]`. -/
def isSpace (c : Char) : Bool :=
  c == '\t' || c == '\n' || c == Char.ofNat 12 || c == '\r' || c == ' '

/-- The class `.` without the `s` flag: any character but the newline. -/
def notNewline (c : Char) : Bool := c != '\n'

/-- `regCmts = regexp.MustCompile("(--.*)(\\n)")` of `common.go`. -/
def regCmts : Regex :=
  Regex.seq
    (Regex.group (Regex.seq (Regex.lit '-') (Regex.seq (Regex.lit '-')
      (Regex.star (Regex.cls notNewline)))))
    (Regex.group (Regex.lit '\n'))

/-- `regSpaceTrim = regexp.MustCompile("(\n)|(\\s+)|(\t+)")`, set by `init` in
`dbx.go`. -/
def regSpaceTrim : Regex :=
  Regex.alt (Regex.group (Regex.lit '\n'))
    (Regex.alt (Regex.group (Regex.plus (Regex.cls isSpace)))
      (Regex.group (Regex.plus (Regex.lit '\t'))))

/-- `regEndSemiCol = regexp.MustCompile("(;\\s*)$")` of `query_options.go`. -/
def regEndSemiCol : Regex :=
  Regex.seq (Regex.group (Regex.seq (Regex.lit ';') (Regex.star (Regex.cls isSpace))))
    Regex.endText

/-- `removeComments(query)` of `common.go`. -/
def removeComments (query : String) : String :=
  regCmts.ReplaceAllString query ""

/-- `trimSemiColumn(query)` of `query_options.go`. -/
def trimSemiColumn (query : String) : String :=
  regEndSemiCol.ReplaceAllString query ""

/-! ## logger.go -/

/-- The record `qLog` of one log line. `Time` and `ExecTime` are in
nanoseconds. -/
structure qLog where
  Level : String
  Time : Int
  Query : String
  ExecTime : Int
  Error : String
  Trace : String
  Args : List GoVal
  deriving DecidableEq, Repr

/-- `LevelSlowQuery` of `dbx.go`. -/
def LevelSlowQuery : String := "SLOW_QUERY"

/-- `LevelDebug` of `dbx.go`. -/
def LevelDebug : String := "DEBUG"

/-- `LevelError` of `dbx.go`. -/
def LevelError : String := "ERROR"

/-- `DefaultSlowLogMin`, one second. -/
def DefaultSlowLogMin : Int := 1000000000

/-- A `*log.Logger`, known by the sink it writes to. -/
abbrev Logger := Nat

/-- What one logging invocation meets outside the package: `now k` is the
`k`-th reading of `time.Now()` during the invocation, `frames` the call stack
`errors.Wrap` captures (each frame as `%+s` prints it), and `marshalErr l` the
error of `json.Marshal(l)`, `none` when the record serialises. -/
structure LogEnv where
  now : Nat → Int
  frames : List String
  marshalErr : qLog → Option String

/-- The trace text of `parseQuery`: `fmt.Sprintf("%+s:%d", f, i)` for each frame
`f` at position `i`, appended in order. -/
def traceText : Nat → List String → String
  | _, [] => ""
  | i, f :: rest => (f ++ ":" ++ Nat.repr i) ++ traceText (i + 1) rest

/-- The record `l` that `parseQuery` builds: comments removed from the query,
`regSpaceTrim` replaced by a space, the message of `errors.Wrap(err, "")`
(`": "` before the message of `err`) and its stack trace when `err` is not
nil. `tick` counts the readings of the clock before this one. -/
def parseQuery.record (env : LogEnv) (tick : Nat) (level query : String) (dur : Int)
    (err : Option String) (args : List GoVal) : qLog :=
  let query := removeComments query
  let query := regSpaceTrim.ReplaceAllString query " "
  let errMsg := match err with
    | some e => "" ++ ": " ++ e
    | none => ""
  let trace := match err with
    | some _ => traceText 0 env.frames
    | none => ""
  { Level := level, Time := env.now tick, Query := query, ExecTime := dur, Error := errMsg,
    Trace := trace, Args := args }

/-- `parseQuery(level, query, dur, err, args...)`: the record whose JSON text is
returned, or the error of `json.Marshal`. -/
def parseQuery (env : LogEnv) (tick : Nat) (level query : String) (dur : Int)
    (err : Option String) (args : List GoVal) : Except String qLog :=
  let l := parseQuery.record env tick level query dur err args
  match env.marshalErr l with
  | some e => Except.error e
  | none => Except.ok l

/-- `logMsg(logger, level, query, execTime, err, args...)`: the error returned
and the lines printed, each line given by the logger and the record it is the
JSON text of. -/
def logMsg (env : LogEnv) (tick : Nat) (logger : Logger) (level query : String)
    (execTime : Int) (err : Option String) (args : List GoVal) :
    Option String × List (Logger × qLog) :=
  match parseQuery env tick level query execTime err args with
  | Except.error parseErr => (some parseErr, [])
  | Except.ok msg => (none, [(logger, msg)])

/-! ## dbx.go and tx.go: handles and their logging -/

/-- The fields of `DBX` that logging reads and writes (the connection `db` is
the `Querier` handed to the operations). `none` is a nil logger. -/
structure DBX where
  errorLog : Option Logger
  debugLog : Option Logger
  slowLog : Option Logger
  slowLogMin : Int
  logAsync : Bool
  skipLog : Bool
  deriving DecidableEq, Repr

/-- The fields of `Tx` that logging reads and writes (the transaction `tx` is
the `Querier` handed to the operations). -/
structure Tx where
  errorLog : Option Logger
  debugLog : Option Logger
  slowLog : Option Logger
  slowLogMin : Int
  logAsync : Bool
  skipLog : Bool
  deriving DecidableEq, Repr

/-- The arguments of one call of `log`. -/
structure LogCall where
  query : String
  execTime : Int
  err : Option String
  args : List GoVal
  deriving DecidableEq, Repr

/-- What a logging invocation leaves behind: the error it returns, the handle
after it, the lines printed in order, and the calls of `log` handed to a new
goroutine (`go h.log(...)`, not run here). -/
structure LogOutcome (σ : Type) where
  err : Option String
  handle : σ
  writes : List (Logger × qLog)
  spawned : List LogCall

/-- `dbx.SkipLog()`. -/
def DBX.SkipLog (dbx : DBX) : DBX := { dbx with skipLog := true }

/-- `tx.SkipLog()`. -/
def Tx.SkipLog (tx : Tx) : Tx := { tx with skipLog := true }

/-- `dbx.SetSlowLogMin(minDur)`. -/
def DBX.SetSlowLogMin (dbx : DBX) (minDur : Int) : DBX := { dbx with slowLogMin := minDur }

/-- `dbx.SetLoggerAsync(async)`. -/
def DBX.SetLoggerAsync (dbx : DBX) (async : Bool) : DBX := { dbx with logAsync := async }

/-- `dbx.MustBegin()`: the transaction handle shares the loggers and starts
with the skip flag clear. -/
def DBX.MustBegin (dbx : DBX) : Tx :=
  { errorLog := dbx.errorLog, debugLog := dbx.debugLog, slowLog := dbx.slowLog,
    slowLogMin := dbx.slowLogMin, logAsync := dbx.logAsync, skipLog := false }

/-- `dbx.log(query, execTime, err, args...)`. The clock has been read once for
every line printed before. -/
def DBX.log (env : LogEnv) (dbx : DBX) (query : String) (execTime : Int) (err : Option String)
    (args : List GoVal) : LogOutcome DBX :=
  if dbx.skipLog = true then
    { err := none, handle := { dbx with skipLog := false }, writes := [], spawned := [] }
  else
    let w0 : List (Logger × qLog) := []
    let r2 : Option String × List (Logger × qLog) :=
      match err, dbx.errorLog with
      | some e, some errorLog =>
        logMsg env w0.length errorLog LevelError query execTime (some e) args
      | _, _ => (none, [])
    match r2 with
    | (some err2, _) => { err := some err2, handle := dbx, writes := w0, spawned := [] }
    | (none, w) =>
      let w1 := w0 ++ w
      let r3 : Option String × List (Logger × qLog) :=
        if execTime ≥ dbx.slowLogMin then
          match dbx.slowLog with
          | some slowLog => logMsg env w1.length slowLog LevelSlowQuery query execTime none args
          | none => (none, [])
        else (none, [])
      match r3 with
      | (some err3, _) => { err := some err3, handle := dbx, writes := w1, spawned := [] }
      | (none, w) =>
        let w2 := w1 ++ w
        let r4 : Option String × List (Logger × qLog) :=
          match dbx.debugLog with
          | some debugLog => logMsg env w2.length debugLog LevelDebug query execTime none args
          | none => (none, [])
        match r4 with
        | (some err4, _) => { err := some err4, handle := dbx, writes := w2, spawned := [] }
        | (none, w) => { err := none, handle := dbx, writes := w2 ++ w, spawned := [] }

/-- `tx.log(query, execTime, err, args...)`; the call of `logMsg` for the error
logger is made without `args`. -/
def Tx.log (env : LogEnv) (tx : Tx) (query : String) (execTime : Int) (err : Option String)
    (args : List GoVal) : LogOutcome Tx :=
  if tx.skipLog = true then
    { err := none, handle := { tx with skipLog := false }, writes := [], spawned := [] }
  else
    let w0 : List (Logger × qLog) := []
    let r2 : Option String × List (Logger × qLog) :=
      match err, tx.errorLog with
      | some e, some errorLog =>
        logMsg env w0.length errorLog LevelError query execTime (some e) []
      | _, _ => (none, [])
    match r2 with
    | (some err2, _) => { err := some err2, handle := tx, writes := w0, spawned := [] }
    | (none, w) =>
      let w1 := w0 ++ w
      let r3 : Option String × List (Logger × qLog) :=
        if execTime ≥ tx.slowLogMin then
          match tx.slowLog with
          | some slowLog => logMsg env w1.length slowLog LevelSlowQuery query execTime none args
          | none => (none, [])
        else (none, [])
      match r3 with
      | (some err3, _) => { err := some err3, handle := tx, writes := w1, spawned := [] }
      | (none, w) =>
        let w2 := w1 ++ w
        let r4 : Option String × List (Logger × qLog) :=
          match tx.debugLog with
          | some debugLog => logMsg env w2.length debugLog LevelDebug query execTime none args
          | none => (none, [])
        match r4 with
        | (some err4, _) => { err := some err4, handle := tx, writes := w2, spawned := [] }
        | (none, w) => { err := none, handle := tx, writes := w2 ++ w, spawned := [] }

/-- `dbx.logQuery(query, execTime, err, args...)`: with `logAsync` set the call
of `log` is handed to a new goroutine and nil is returned at once. -/
def DBX.logQuery (env : LogEnv) (dbx : DBX) (query : String) (execTime : Int)
    (err : Option String) (args : List GoVal) : LogOutcome DBX :=
  if dbx.logAsync = true then
    { err := none, handle := dbx, writes := [],
      spawned := [{ query := query, execTime := execTime, err := err, args := args }] }
  else
    DBX.log env dbx query execTime err args

/-- `tx.logQuery(query, execTime, err, args...)`. -/
def Tx.logQuery (env : LogEnv) (tx : Tx) (query : String) (execTime : Int)
    (err : Option String) (args : List GoVal) : LogOutcome Tx :=
  if tx.logAsync = true then
    { err := none, handle := tx, writes := [],
      spawned := [{ query := query, execTime := execTime, err := err, args := args }] }
  else
    Tx.log env tx query execTime err args

/-! ## common.go: the wrapped operations -/

/-- The interface `Querier`: the driver behind `getDB()`. Every method is given
by what it returns for its arguments; an error is its message, `none` is nil.
`rowErr` is `(*sqlx.Row).Err()`, and `Select` also returns the destination it
filled. -/
structure Querier (Rows Row Result Dest : Type) where
  Queryx : String → List GoVal → Rows × Option String
  QueryRowx : String → List GoVal → Row
  rowErr : Row → Option String
  Select : Dest → String → List GoVal → Dest × Option String
  Exec : String → List GoVal → Result × Option String
  NamedExec : String → GoVal → Result × Option String
  Rebind : String → String

/-- The interface `dbxInternal` of a handle with state `σ`: its driver and its
logging pipeline. -/
structure dbxInternal (σ Rows Row Result Dest : Type) where
  getDB : Querier Rows Row Result Dest
  logQuery : σ → String → Int → Option String → List GoVal → LogOutcome σ

/-- `queryX(querier, query, args...)`: what is returned, and what the call of
`logQuery` leaves behind. `timeStart` and `timeEnd` are the two readings of
`time.Now()`. -/
def queryX {σ Rows Row Result Dest : Type} (querier : dbxInternal σ Rows Row Result Dest)
    (h : σ) (timeStart timeEnd : Int) (query : String) (args : List GoVal) :
    (Rows × Option String) × LogOutcome σ :=
  let query := querier.getDB.Rebind query
  match querier.getDB.Queryx query args with
  | (rows, err) =>
    let logged := querier.logQuery h query (timeEnd - timeStart) err args
    ((rows, err), logged)

/-- `queryRowx(querier, query, args...)`. -/
def queryRowx {σ Rows Row Result Dest : Type} (querier : dbxInternal σ Rows Row Result Dest)
    (h : σ) (timeStart timeEnd : Int) (query : String) (args : List GoVal) :
    Row × LogOutcome σ :=
  let query := querier.getDB.Rebind query
  let row := querier.getDB.QueryRowx query args
  let logged := querier.logQuery h query (timeEnd - timeStart) (querier.getDB.rowErr row) args
  (row, logged)

/-- `selectX(querier, dest, query, args...)`: the error returned with the
destination as the driver filled it. -/
def selectX {σ Rows Row Result Dest : Type} (querier : dbxInternal σ Rows Row Result Dest)
    (h : σ) (timeStart timeEnd : Int) (dest : Dest) (query : String) (args : List GoVal) :
    (Dest × Option String) × LogOutcome σ :=
  let query := querier.getDB.Rebind query
  match querier.getDB.Select dest query args with
  | (dest, err) =>
    let logged := querier.logQuery h query (timeEnd - timeStart) err args
    ((dest, err), logged)

/-- `exec(querier, query, args...)`. -/
def exec {σ Rows Row Result Dest : Type} (querier : dbxInternal σ Rows Row Result Dest)
    (h : σ) (timeStart timeEnd : Int) (query : String) (args : List GoVal) :
    (Result × Option String) × LogOutcome σ :=
  let query := querier.getDB.Rebind query
  match querier.getDB.Exec query args with
  | (res, err) =>
    let logged := querier.logQuery h query (timeEnd - timeStart) err args
    ((res, err), logged)

/-- `namedExec(querier, query, arg)`. -/
def namedExec {σ Rows Row Result Dest : Type} (querier : dbxInternal σ Rows Row Result Dest)
    (h : σ) (timeStart timeEnd : Int) (query : String) (arg : GoVal) :
    (Result × Option String) × LogOutcome σ :=
  let query := querier.getDB.Rebind query
  match querier.getDB.NamedExec query arg with
  | (res, err) =>
    let logged := querier.logQuery h query (timeEnd - timeStart) err [arg]
    ((res, err), logged)

/-- A `DBX` handle as a `dbxInternal`: `getDB` is its connection `db`. -/
def DBX.internal {Rows Row Result Dest : Type} (env : LogEnv)
    (db : Querier Rows Row Result Dest) : dbxInternal DBX Rows Row Result Dest :=
  { getDB := db, logQuery := DBX.logQuery env }

/-- A `Tx` handle as a `dbxInternal`: `getDB` is its transaction `tx`. -/
def Tx.internal {Rows Row Result Dest : Type} (env : LogEnv)
    (db : Querier Rows Row Result Dest) : dbxInternal Tx Rows Row Result Dest :=
  { getDB := db, logQuery := Tx.logQuery env }

/-- A run of synchronous logging invocations on a `DBX` handle, each with what
it meets outside: the handle after the last one and all lines printed. -/
def DBX.logAll : DBX → List (LogEnv × LogCall) → DBX × List (Logger × qLog)
  | dbx, [] => (dbx, [])
  | dbx, (env, c) :: rest =>
    let o := DBX.log env dbx c.query c.execTime c.err c.args
    let r := DBX.logAll o.handle rest
    (r.1, o.writes ++ r.2)

/-- A run of synchronous logging invocations on a `Tx` handle. -/
def Tx.logAll : Tx → List (LogEnv × LogCall) → Tx × List (Logger × qLog)
  | tx, [] => (tx, [])
  | tx, (env, c) :: rest =>
    let o := Tx.log env tx c.query c.execTime c.err c.args
    let r := Tx.logAll o.handle rest
    (r.1, o.writes ++ r.2)

/-! ## query_options.go -/

/-- A Go `int` after an arithmetic operation: the result wraps to 64 bits. -/
def wrapInt (x : Int) : Int := (x + 2 ^ 63) % 2 ^ 64 - 2 ^ 63

/-- `getOffsetFromPageAndLimit(page, limit, defaultLimit)`. -/
def getOffsetFromPageAndLimit (page limit defaultLimit : Int) : Int :=
  let page := if page < 1 then 1 else page
  let limit := if limit < 1 then defaultLimit else limit
  wrapInt (wrapInt (page - 1) * limit)

/-- `getPageFromOffsetAndLimit(offset, limit, defaultLimit)`; `none` is the
run-time panic of an integer division by zero. -/
def getPageFromOffsetAndLimit (offset limit defaultLimit : Int) : Option Int :=
  if offset < 1 ∨ offset ≤ defaultLimit then some 1
  else if limit = 0 then none
  else some (wrapInt (Int.tdiv (wrapInt (offset + limit)) limit))

/-- `qTypePage`. -/
def qTypePage : Int := 1

/-- `qTypeOffset`. -/
def qTypeOffset : Int := 2

/-- The struct `QueryOption`. -/
structure QueryOption where
  qType : Int
  page : Int
  offset : Int
  limit : Int
  deriving DecidableEq, Repr

/-- `NewPageOption(page, length)`. -/
def NewPageOption (page length : Int) : QueryOption :=
  let offset := getOffsetFromPageAndLimit page length 25
  { qType := qTypePage, page := page, limit := length, offset := offset }

/-- `NewOffsetOption(offset, limit)`; `none` is the panic of the division. -/
def NewOffsetOption (offset limit : Int) : Option QueryOption :=
  match getPageFromOffsetAndLimit offset limit 25 with
  | none => none
  | some page => some { qType := qTypePage, page := page, limit := limit, offset := offset }

/-- `WithOptions(option, query, args...)`. -/
def WithOptions (option : List QueryOption) (query : String) (args : List GoVal) :
    String × List GoVal :=
  match option with
  | [] => (query, args)
  | o :: _ =>
    let query := trimSemiColumn query
    let query := query ++ " Offset ? Limit ?"
    (query, args ++ [GoVal.int o.offset, GoVal.int o.limit])

/-! ## Inputs of the evaluations of the logging pipeline -/

/-- An environment where every record serialises: the clock reads 100, 101,
..., the call stack is the single frame `main.run`. -/
def plainEnv : LogEnv :=
  { now := fun k => 100 + Int.ofNat k, frames := ["main.run"], marshalErr := fun _ => none }

/-- A `DBX` handle with the three loggers attached to the sinks 1, 2 and 3, the
slow threshold at 10 ns, synchronous logging and the skip flag clear. -/
def allSinks : DBX :=
  { errorLog := some 1, slowLog := some 2, debugLog := some 3, slowLogMin := 10,
    logAsync := false, skipLog := false }

/-- The arguments of a logging invocation for a failed query that ran 20 ns,
above the slow threshold of `allSinks`. -/
def failedCall : LogCall :=
  { query := "select 1", execTime := 20, err := some "boom", args := [GoVal.int 1] }

/-! ## Theorems -/

/-! ### The cases of the test files, evaluated -/

/-- "Test with multiple rows" of `common_test.go` (the token column left out). -/
theorem test_multiple_rows :
    namedInsert twoPersons "person" ["name", "location", "is_alive"] (some [])
      = { query := "Insert into person (name,location,is_alive) Values (?,?,?),(?,?,?)",
          args := some [GoVal.str "Alpha", GoVal.str "Australia", GoVal.bool true,
            GoVal.str "Beta", GoVal.str "France", GoVal.bool false],
          err := none,
          valueMapper := some (mapAfterRows ["name", "location", "is_alive"] 0 twoRows []) } := by
  decide

/-- "Test by field name instead of tag" of `common_test.go`. -/
theorem test_by_field_name :
    (namedInsert (Target.slice [person 1 "Alpha" "Australia" true]) "person"
        ["Name", "IsAlive"] (some [])).query = "Insert into person (Name,IsAlive) Values (?,?)"
      ∧ (namedInsert (Target.slice [person 1 "Alpha" "Australia" true]) "person"
        ["Name", "IsAlive"] (some [])).args = some [GoVal.str "Alpha", GoVal.bool true] := by
  decide

/-- "Test override struct value with mapper value" of `common_test.go`. -/
theorem test_override :
    (namedInsert twoPersons "person" ["name", "location"]
        (some [("location", GoVal.str "China")])).args
      = some [GoVal.str "Alpha", GoVal.str "China", GoVal.str "Beta", GoVal.str "China"] := by
  decide

/-- The case of `TestBuildInsertParams` in `util_test.go`. -/
theorem test_BuildInsertParams :
    (BuildInsertParams [] 0 ["a", "b", "c"] [GoVal.int 1, GoVal.int 2, GoVal.int 3]).map
        (fun r => ("INSERT INTO (a, b, c) VALUES " ++ r.1,
          [mapGet r.2 "a_0", mapGet r.2 "b_0", mapGet r.2 "c_0"]))
      = some ("INSERT INTO (a, b, c) VALUES (:a_0,:b_0,:c_0)",
          [some (GoVal.int 1), some (GoVal.int 2), some (GoVal.int 3)]) := by
  decide

/-! ### One row: the parameter loop, the tag map and the resolution loop -/

theorem mapGet_mapSet (m : GoMap) (k k' : String) (v : GoVal) :
    mapGet (mapSet m k v) k' = if k = k' then some v else mapGet m k' := by
  simp [mapSet, mapGet]

theorem append_right_cancel_str {p q s : String} (h : p ++ s = q ++ s) : p = q := by
  have h' := congrArg String.data h
  simp only [String.data_append] at h'
  exact String.ext (List.append_cancel_right h')

theorem intercalate_go_append (x acc s : String) (l : List String) :
    String.intercalate.go (x ++ acc) s l = x ++ String.intercalate.go acc s l := by
  induction l generalizing acc with
  | nil => simp [String.intercalate.go]
  | cons a as ih =>
    simp only [String.intercalate.go]
    rw [String.append_assoc, String.append_assoc, ih, ← String.append_assoc]

theorem BuildInsertParams_loop_spec (it : String) (values : List GoVal) :
    ∀ (ps : List String) (pi : Nat) (out : String) (m : GoMap),
      pi + ps.length ≤ values.length →
      ∃ m' out', BuildInsertParams.loop it values pi ps out m = some (out', m')
        ∧ (0 < pi → out' = String.intercalate.go out ","
              (ps.map fun p => ":" ++ (p ++ ("_" ++ it))))
        ∧ (pi = 0 → out' = out ++ ",".intercalate
              (ps.map fun p => ":" ++ (p ++ ("_" ++ it))))
        ∧ (∀ j, j < ps.length → (∀ j', j < j' → j' < ps.length → ps[j']? ≠ ps[j]?) →
            ∀ p, ps[j]? = some p → mapGet m' (p ++ ("_" ++ it)) = values[pi + j]?)
        ∧ (∀ key, (∀ p ∈ ps, key ≠ p ++ ("_" ++ it)) → mapGet m' key = mapGet m key) := by
  intro ps
  induction ps with
  | nil =>
    intro pi out m _
    refine ⟨m, out, rfl, ?_, ?_, ?_, ?_⟩
    · intro _; simp [String.intercalate.go]
    · intro _; simp [String.intercalate]
    · intro j hj; simp at hj
    · intro key _; rfl
  | cons p rest ih =>
    intro pi out m hlen
    simp only [List.length_cons] at hlen
    have hpi : pi < values.length := by omega
    obtain ⟨m', out', hloop, hpos, _, hlast, hframe⟩ :=
      ih (pi + 1) ((if pi > 0 then out ++ "," else out) ++ (":" ++ (p ++ ("_" ++ it))))
        (mapSet m (p ++ ("_" ++ it)) values[pi]) (by omega)
    refine ⟨m', out', ?_, ?_, ?_, ?_, ?_⟩
    · simp only [BuildInsertParams.loop, List.getElem?_eq_getElem hpi]
      exact hloop
    · intro h
      rw [hpos (by omega)]
      simp [String.intercalate.go, h]
    · intro h
      rw [hpos (by omega)]
      subst h
      simp only [List.map_cons, String.intercalate, gt_iff_lt, lt_self_iff_false, if_false]
      rw [intercalate_go_append]
    · intro j hj hlastj q hq
      cases j with
      | zero =>
        simp only [List.getElem?_cons_zero, Option.some.injEq] at hq
        subst hq
        have hnot : ∀ q ∈ rest, p ++ ("_" ++ it) ≠ q ++ ("_" ++ it) := by
          intro q hqmem heq
          obtain ⟨n, hn, hnq⟩ := List.getElem_of_mem hqmem
          have := hlastj (n + 1) (by omega) (by simp; omega)
          apply this
          simp [List.getElem?_eq_getElem hn, hnq, append_right_cancel_str heq]
        rw [hframe _ hnot, mapGet_mapSet]
        simp [List.getElem?_eq_getElem hpi]
      | succ j0 =>
        simp only [List.getElem?_cons_succ] at hq
        have := hlast j0 (by simp at hj; omega)
          (fun j' h1 h2 => by
            have := hlastj (j' + 1) (by omega) (by simp; omega)
            simpa using this) q hq
        rw [this]
        congr 1
        omega
    · intro key hkey
      rw [hframe key (fun q hq => hkey q (List.mem_cons_of_mem _ hq)), mapGet_mapSet]
      have := hkey p (List.mem_cons_self _ _)
      simp [Ne.symm this]

theorem mapTypeFieldsTag_struct (fields : List Field) :
    mapTypeFieldsTag (Target.struct fields) = Except.ok (fields.foldl tagStep []) := rfl

theorem tagGet_foldl (c : String) (fields : List Field) :
    ∀ acc : List (String × Field),
      tagGet (fields.foldl tagStep acc) c
        = (fields.reverse.find? fun f => f.tag = some c).or (tagGet acc c) := by
  induction fields with
  | nil => intro acc; simp
  | cons f fs ih =>
    intro acc
    simp only [List.foldl_cons, ih, List.reverse_cons, List.find?_append]
    cases hfs : (fs.reverse.find? fun f => f.tag = some c) with
    | some g => simp
    | none =>
      simp only [Option.none_or, Option.or_none, tagStep]
      cases hf : f.tag with
      | none => simp [hf]
      | some v =>
        by_cases hv : v = c
        · subst hv
          simp [tagGet, hf]
        · simp [tagGet, hf, hv]

theorem find_name_of_mem {fields : List Field} {field : Field} (h : field ∈ fields) :
    ∃ f, (fields.find? fun f => f.name = field.name) = some f := by
  cases hf : fields.find? fun f => f.name = field.name with
  | some f => exact ⟨f, rfl⟩
  | none =>
    rw [List.find?_eq_none] at hf
    have := hf field h
    simp at this

theorem resolveColumn_tag_isSome {fields : List Field} {c : String} {field : Field}
    (h : (fields.reverse.find? fun f => f.tag = some c) = some field) :
    ∃ f, (fields.find? fun f => f.name = field.name) = some f :=
  find_name_of_mem (List.mem_reverse.mp (List.mem_of_find?_eq_some h))

theorem buildInsertQueryValues_loop_eq (m : GoMap) (fields : List Field) :
    ∀ (ps : List String) (acc : List GoVal),
      buildInsertQueryValues.loop (Target.struct fields) (fields.foldl tagStep []) m ps acc
        = match ps.find? fun c => (resolveColumn m fields c).isNone with
          | some c => Except.error (Failure.MissingParamErr ("param '" ++ c ++ "' not found"))
          | none => Except.ok (acc ++ ps.filterMap (resolveColumn m fields)) := by
  intro ps
  induction ps with
  | nil => intro acc; simp [buildInsertQueryValues.loop]
  | cons p rest ih =>
    intro acc
    simp only [buildInsertQueryValues.loop, FieldByName, tagGet_foldl, tagGet, Option.or_none]
    cases hm : mapGet m p with
    | some v =>
      have hr : resolveColumn m fields p = some v := by simp [resolveColumn, hm]
      simp [ih, hr, List.find?_cons, List.filterMap_cons]
    | none =>
      cases hn : fields.find? fun f => f.name = p with
      | some f =>
        have hr : resolveColumn m fields p = some f.value := by simp [resolveColumn, hm, hn]
        simp [ih, hr, List.find?_cons, List.filterMap_cons]
      | none =>
        cases ht : fields.reverse.find? fun f => f.tag = some p with
        | some field =>
          obtain ⟨f, hf⟩ := resolveColumn_tag_isSome ht
          have hr : resolveColumn m fields p = some f.value := by
            simp [resolveColumn, hm, hn, ht, hf]
          simp [ih, hr, hf, List.find?_cons, List.filterMap_cons]
        | none =>
          have hr : resolveColumn m fields p = none := by simp [resolveColumn, hm, hn, ht]
          simp [hr, List.find?_cons]

theorem buildInsertQueryValues_struct_eq (index : Int) (fields : List Field)
    (ps : List String) (m : GoMap) :
    buildInsertQueryValues index (Target.struct fields) ps m
      = match ps.find? fun c => (resolveColumn m fields c).isNone with
        | some c =>
          (Except.error (Failure.MissingParamErr ("param '" ++ c ++ "' not found")), m)
        | none =>
          match BuildInsertParams m index ps (ps.filterMap (resolveColumn m fields)) with
          | none => (Except.error (Failure.panic "index out of range"), m)
          | some (out, m') => (Except.ok out, m') := by
  simp only [buildInsertQueryValues, mapTypeFieldsTag_struct, buildInsertQueryValues_loop_eq]
  cases ps.find? fun c => (resolveColumn m fields c).isNone with
  | some c => rfl
  | none => simp

theorem filterMap_length_of_isSome {α β : Type} (g : α → Option β) (l : List α)
    (h : ∀ a ∈ l, (g a).isSome) : (l.filterMap g).length = l.length := by
  induction l with
  | nil => rfl
  | cons a l ih =>
    have ha := h a (List.mem_cons_self _ _)
    obtain ⟨b, hb⟩ := Option.isSome_iff_exists.mp ha
    simp [List.filterMap_cons, hb, ih (fun x hx => h x (List.mem_cons_of_mem _ hx))]

theorem find_isNone_eq_none {m : GoMap} {fields : List Field} {ps : List String}
    (h : ∀ c ∈ ps, (resolveColumn m fields c).isSome) :
    (ps.find? fun c => (resolveColumn m fields c).isNone) = none := by
  rw [List.find?_eq_none]
  intro c hc
  have := h c hc
  cases hr : resolveColumn m fields c <;> simp_all

theorem BuildInsertParams_loop_map (it : String) (values : List GoVal) :
    ∀ (ps : List String) (pi : Nat) (out out' : String) (m m' : GoMap),
      BuildInsertParams.loop it values pi ps out m = some (out', m') →
      m' = ((ps.map fun p => p ++ ("_" ++ it)).zip (values.drop pi)).reverse ++ m := by
  intro ps
  induction ps with
  | nil =>
    intro pi out out' m m' h
    simp only [BuildInsertParams.loop, Option.some.injEq, Prod.mk.injEq] at h
    simp [h.2]
  | cons p rest ih =>
    intro pi out out' m m' h
    simp only [BuildInsertParams.loop] at h
    cases hv : values[pi]? with
    | none => simp [hv] at h
    | some v =>
      simp only [hv] at h
      have := ih _ _ _ _ _ h
      rw [this]
      have hpi : pi < values.length := by
        by_contra hc
        rw [List.getElem?_eq_none (by omega)] at hv
        cases hv
      have hd : values.drop pi = v :: values.drop (pi + 1) := by
        rw [List.drop_eq_getElem_cons hpi]
        rw [List.getElem?_eq_getElem hpi] at hv
        simp only [Option.some.injEq] at hv
        rw [hv]
      simp [hd, mapSet]

theorem BuildInsertParams_eq (m : GoMap) (i : Int) (ps : List String) (vs : List GoVal)
    (hlen : ps.length ≤ vs.length) :
    BuildInsertParams m i ps vs = some (rowText ps i, registered m i ps vs) := by
  obtain ⟨m', out', hloop, _, hzero, _, _⟩ :=
    BuildInsertParams_loop_spec (Itoa i) vs ps 0 "(" m (by omega)
  have hm := BuildInsertParams_loop_map _ _ _ _ _ _ _ _ hloop
  simp only [BuildInsertParams, hloop, hzero rfl, hm]
  by_cases hi : i > 0 <;> simp [hi, rowText, groupText, registered, paramName]

theorem mapGet_append (l m : GoMap) (k : String) :
    mapGet (l ++ m) k = (mapGet l k).or (mapGet m k) := by
  induction l with
  | nil => simp [mapGet]
  | cons a l ih =>
    obtain ⟨k', v⟩ := a
    by_cases h : k' = k <;> simp [mapGet, h, ih]

theorem registered_isSome_mono (m : GoMap) (i : Int) (ps : List String) (vs : List GoVal)
    (k : String) (h : (mapGet m k).isSome) : (mapGet (registered m i ps vs) k).isSome := by
  rw [registered, mapGet_append]
  cases mapGet (((ps.map fun p => paramName p i).zip vs).reverse) k with
  | some v => simp
  | none => simpa using h

theorem resolveColumn_isSome_iff (m : GoMap) (fields : List Field) (c : String) :
    (resolveColumn m fields c).isSome
      ↔ (mapGet m c).isSome ∨ (∃ f ∈ fields, f.name = c) ∨ (∃ f ∈ fields, f.tag = some c) := by
  unfold resolveColumn
  cases hm : mapGet m c with
  | some v => simp
  | none =>
    cases hn : fields.find? fun f => f.name = c with
    | some f =>
      have h1 := List.mem_of_find?_eq_some hn
      have h2 := List.find?_some hn
      simp only [decide_eq_true_eq] at h2
      simp only [Option.isSome_some, Option.isSome_none, Bool.false_eq_true, false_or, true_iff]
      exact Or.inl ⟨f, h1, h2⟩
    | none =>
      have hno : ¬ ∃ f ∈ fields, f.name = c := by
        rw [List.find?_eq_none] at hn
        rintro ⟨f, hf, hfc⟩
        have := hn f hf
        simp [hfc] at this
      cases ht : fields.reverse.find? fun f => f.tag = some c with
      | some field =>
        obtain ⟨f, hf⟩ := resolveColumn_tag_isSome ht
        have h1 := List.mem_reverse.mp (List.mem_of_find?_eq_some ht)
        have h2 := List.find?_some ht
        simp only [decide_eq_true_eq] at h2
        simp only [hf, Option.map_some', Option.isSome_some, Option.isSome_none,
          Bool.false_eq_true, false_or, true_iff]
        exact Or.inr ⟨field, h1, h2⟩
      | none =>
        have hnt : ¬ ∃ f ∈ fields, f.tag = some c := by
          rw [List.find?_eq_none] at ht
          rintro ⟨f, hf, hfc⟩
          have := ht f (List.mem_reverse.mpr hf)
          simp [hfc] at this
        simp [hno, hnt]

theorem resolveColumn_isSome_mono {m m1 : GoMap} (fields : List Field) (c : String)
    (hmono : ∀ k, (mapGet m k).isSome → (mapGet m1 k).isSome)
    (h : (resolveColumn m fields c).isSome) : (resolveColumn m1 fields c).isSome := by
  rw [resolveColumn_isSome_iff] at h ⊢
  rcases h with h | h | h
  · exact Or.inl (hmono c h)
  · exact Or.inr (Or.inl h)
  · exact Or.inr (Or.inr h)

theorem buildInsertQueryValues_struct_ok (index : Int) (fields : List Field)
    (ps : List String) (m : GoMap) (h : ∀ c ∈ ps, (resolveColumn m fields c).isSome) :
    buildInsertQueryValues index (Target.struct fields) ps m
      = (Except.ok (rowText ps index),
          registered m index ps (ps.filterMap (resolveColumn m fields))) := by
  rw [buildInsertQueryValues_struct_eq, find_isNone_eq_none h]
  simp only
  rw [BuildInsertParams_eq _ _ _ _ (by rw [filterMap_length_of_isSome _ _ h])]

theorem slice_step_of_rowOf (ps : List String) (i : Nat) (item : Target) (rest : List Target)
    (acc : String) (m : GoMap) (row : List Field) (h : rowOf item = some row) :
    namedInsertSlice.loop ps i (item :: rest) acc m
      = match buildInsertQueryValues (Int.ofNat i) (Target.struct row) ps m with
        | (Except.error e, m') => (Except.error e, m')
        | (Except.ok qValues, m') => namedInsertSlice.loop ps (i + 1) rest (acc ++ qValues) m' := by
  cases item with
  | struct fields =>
    simp only [rowOf, Option.some.injEq] at h
    subst h
    simp only [namedInsertSlice.loop]
  | ptr elem =>
    cases elem with
    | none => simp [rowOf] at h
    | some v =>
      cases v with
      | struct fields =>
        simp only [rowOf, Option.some.injEq] at h
        subst h
        simp only [namedInsertSlice.loop]
      | ptr e =>
        cases e with
        | none => simp [rowOf] at h
        | some u =>
          cases u with
          | struct fields =>
            simp only [rowOf, Option.some.injEq] at h
            subst h
            rfl
          | _ => simp [rowOf] at h
      | _ => simp [rowOf] at h
  | _ => simp [rowOf] at h

theorem foldl_rowText_pos (ps : List String) :
    ∀ (l : List Nat) (acc : String), (∀ j ∈ l, 0 < j) →
      List.foldl (fun s j => s ++ rowText ps (Int.ofNat j)) acc l
        = String.intercalate.go acc "," (l.map fun j => groupText ps (Int.ofNat j)) := by
  intro l
  induction l with
  | nil => intro acc _; simp [String.intercalate.go]
  | cons j l ih =>
    intro acc h
    have hj : 0 < j := h j (List.mem_cons_self _ _)
    have hj' : (Int.ofNat j) > 0 := by simpa using hj
    simp only [List.foldl_cons, List.map_cons, String.intercalate.go]
    rw [ih _ (fun x hx => h x (List.mem_cons_of_mem _ hx))]
    simp [rowText, hj, String.append_assoc]

theorem foldl_rowText_range (ps : List String) (acc : String) (k : Nat) (hk : 0 < k) :
    List.foldl (fun s j => s ++ rowText ps (Int.ofNat j)) acc (List.range' 0 k)
      = acc ++ ",".intercalate ((List.range k).map fun j => groupText ps (Int.ofNat j)) := by
  obtain ⟨n, rfl⟩ : ∃ n, k = n + 1 := ⟨k - 1, by omega⟩
  rw [List.range_eq_range']
  simp only [List.range', List.foldl_cons, List.map_cons, String.intercalate]
  rw [foldl_rowText_pos ps _ _ (by intro j hj; simp [List.mem_range'] at hj; omega)]
  rw [intercalate_go_append]
  simp [rowText]

theorem groupText_eq (ps : List String) (i : Int) :
    groupText ps i = "(" ++ ",".intercalate (ps.map fun c => ":" ++ c ++ "_" ++ Itoa i) ++ ")" := by
  have hfun : (fun p : String => ":" ++ p ++ "_" ++ Itoa i) = fun p => ":" ++ paramName p i := by
    funext p; simp [paramName, String.append_assoc]
  simp [groupText, hfun]

/-! ### Batches: the loop over the rows -/

theorem buildInsertQueryValues_struct_fail (index : Int) (fields : List Field)
    (ps : List String) (m : GoMap)
    (h : ps.all (fun c => (resolveColumn m fields c).isSome) = false) :
    ∃ e, buildInsertQueryValues index (Target.struct fields) ps m = (Except.error e, m) := by
  rw [buildInsertQueryValues_struct_eq]
  cases hf : ps.find? fun c => (resolveColumn m fields c).isNone with
  | some c => exact ⟨_, rfl⟩
  | none =>
    exfalso
    rw [List.find?_eq_none] at hf
    have : ps.all (fun c => (resolveColumn m fields c).isSome) = true := by
      rw [List.all_eq_true]
      intro c hc
      have := hf c hc
      cases hr : resolveColumn m fields c <;> simp_all
    rw [this] at h
    cases h

theorem namedInsertSlice_loop_append (ps : List String) (rest : List Target) :
    ∀ (pre : List Target) (rows : List (List Field)) (i : Nat) (acc : String) (m : GoMap),
      rowsOfElems pre = some rows →
      rowsResolve ps i rows m = true →
      namedInsertSlice.loop ps i (pre ++ rest) acc m
        = namedInsertSlice.loop ps (i + rows.length) rest
            (List.foldl (fun s j => s ++ rowText ps (Int.ofNat j)) acc
              (List.range' i rows.length))
            (mapAfterRows ps i rows m) := by
  intro pre
  induction pre with
  | nil =>
    intro rows i acc m hrows _
    simp only [rowsOfElems, Option.some.injEq] at hrows
    subst hrows
    simp [mapAfterRows]
  | cons item pre ih =>
    intro rows i acc m hrows hres
    simp only [rowsOfElems] at hrows
    cases hitem : rowOf item with
    | none => simp [hitem] at hrows
    | some row =>
      cases hrest : rowsOfElems pre with
      | none => simp [hitem, hrest] at hrows
      | some rs =>
        simp only [hitem, hrest, Option.some.injEq] at hrows
        subst hrows
        simp only [rowsResolve, Bool.and_eq_true, List.all_eq_true] at hres
        rw [List.cons_append, slice_step_of_rowOf ps i item (pre ++ rest) acc m row hitem,
          buildInsertQueryValues_struct_ok _ _ _ _ hres.1]
        simp only
        rw [ih rs (i + 1) _ _ hrest hres.2]
        simp only [List.length_cons, List.range', List.foldl_cons, mapAfterRows]
        congr 1
        omega

theorem namedInsertSlice_loop_ok (ps : List String) (elems : List Target)
    (rows : List (List Field)) (i : Nat) (acc : String) (m : GoMap)
    (hrows : rowsOfElems elems = some rows) (hres : rowsResolve ps i rows m = true) :
    namedInsertSlice.loop ps i elems acc m
      = (Except.ok (List.foldl (fun s j => s ++ rowText ps (Int.ofNat j)) acc
            (List.range' i rows.length)),
          mapAfterRows ps i rows m) := by
  have := namedInsertSlice_loop_append ps [] elems rows i acc m hrows hres
  simpa [namedInsertSlice.loop] using this

theorem namedInsertSlice_loop_fail (ps : List String) :
    ∀ (elems : List Target) (rows : List (List Field)) (i : Nat) (acc : String) (m : GoMap),
      rowsOfElems elems = some rows →
      rowsResolve ps i rows m = false →
      ∃ e m', namedInsertSlice.loop ps i elems acc m = (Except.error e, m') := by
  intro elems
  induction elems with
  | nil =>
    intro rows i acc m hrows hres
    simp only [rowsOfElems, Option.some.injEq] at hrows
    subst hrows
    simp [rowsResolve] at hres
  | cons item rest ih =>
    intro rows i acc m hrows hres
    simp only [rowsOfElems] at hrows
    cases hitem : rowOf item with
    | none => simp [hitem] at hrows
    | some row =>
      cases hrest : rowsOfElems rest with
      | none => simp [hitem, hrest] at hrows
      | some rs =>
        simp only [hitem, hrest, Option.some.injEq] at hrows
        subst hrows
        rw [slice_step_of_rowOf ps i item rest acc m row hitem]
        cases hall : ps.all (fun c => (resolveColumn m row c).isSome) with
        | false =>
          obtain ⟨e, he⟩ := buildInsertQueryValues_struct_fail (Int.ofNat i) row ps m hall
          rw [he]
          exact ⟨e, m, rfl⟩
        | true =>
          simp only [rowsResolve, hall, Bool.true_and] at hres
          rw [buildInsertQueryValues_struct_ok _ _ _ _ (by simpa [List.all_eq_true] using hall)]
          simp only
          exact ih rs (i + 1) _ _ hrest hres

theorem rowsResolve_of_static (ps : List String) :
    ∀ (rows : List (List Field)) (i : Nat) (m : GoMap),
      (∀ row ∈ rows, ∀ c ∈ ps, (resolveColumn m row c).isSome) →
      rowsResolve ps i rows m = true := by
  intro rows
  induction rows with
  | nil => intro i m _; rfl
  | cons row rest ih =>
    intro i m h
    simp only [rowsResolve, Bool.and_eq_true, List.all_eq_true]
    refine ⟨h row (List.mem_cons_self _ _), ih _ _ ?_⟩
    intro r hr c hc
    exact resolveColumn_isSome_mono r c (registered_isSome_mono m _ ps _)
      (h r (List.mem_cons_of_mem _ hr) c hc)

theorem namedInsertSlice_ok (ps : List String) (elems : List Target) (rows : List (List Field))
    (m : GoMap) (hrows : rowsOfElems elems = some rows) (hk : rows ≠ [])
    (hres : rowsResolve ps 0 rows m = true) :
    namedInsertSlice elems ps m
      = (Except.ok (",".intercalate ((List.range rows.length).map fun j =>
            groupText ps (Int.ofNat j))), mapAfterRows ps 0 rows m) := by
  have hne : elems.length ≠ 0 := by
    intro h
    have : elems = [] := List.length_eq_zero.mp h
    subst this
    simp [rowsOfElems] at hrows
    exact hk hrows
  have hpos : 0 < rows.length := List.length_pos.mpr hk
  simp only [namedInsertSlice, hne, if_false]
  rw [namedInsertSlice_loop_ok ps elems rows 0 "" m hrows hres, foldl_rowText_range ps "" _ hpos]
  simp

theorem namedInsertSlice_fail (ps : List String) (elems : List Target)
    (rows : List (List Field)) (m : GoMap) (hrows : rowsOfElems elems = some rows)
    (hres : rowsResolve ps 0 rows m = false) :
    ∃ e m', namedInsertSlice elems ps m = (Except.error e, m') := by
  unfold namedInsertSlice
  split
  · exact ⟨_, _, rfl⟩
  · exact namedInsertSlice_loop_fail ps elems rows 0 "" m hrows hres

theorem namedInsert_build_ok (target : Target) (tableName : String) (ps : List String)
    (m : GoMap) (rows : List (List Field)) (hrows : rowsOf target = some rows) (hk : rows ≠ [])
    (hres : rowsResolve ps 0 rows m = true) :
    namedInsert.build target tableName ps m
      = (Except.ok (insertText tableName ps rows.length), mapAfterRows ps 0 rows m) := by
  have single : ∀ fields : List Field, rows = [fields] →
      buildInsertQueryValues 0 (Target.struct fields) ps m
        = (Except.ok (",".intercalate ((List.range rows.length).map fun j =>
            groupText ps (Int.ofNat j))), mapAfterRows ps 0 rows m) := by
    intro fields hf
    subst hf
    simp only [rowsResolve, Bool.and_true, List.all_eq_true] at hres
    rw [buildInsertQueryValues_struct_ok _ _ _ _ hres]
    simp [rowText, mapAfterRows, String.intercalate, String.intercalate.go, List.range_succ]
  unfold insertText
  cases target with
  | struct fields =>
    simp only [rowsOf, Option.some.injEq] at hrows
    simp only [namedInsert.build, single fields hrows.symm]
  | slice elems =>
    simp only [rowsOf] at hrows
    simp only [namedInsert.build, namedInsertSlice_ok ps elems rows m hrows hk hres]
  | other v => simp [rowsOf] at hrows
  | ptr elem =>
    cases elem with
    | none => simp [rowsOf] at hrows
    | some v =>
      cases v with
      | struct fields =>
        simp only [rowsOf, Option.some.injEq] at hrows
        simp only [namedInsert.build, single fields hrows.symm]
      | slice elems =>
        simp only [rowsOf] at hrows
        simp only [namedInsert.build, namedInsertSlice_ok ps elems rows m hrows hk hres]
      | _ => simp [rowsOf] at hrows

theorem namedInsert_build_fail (target : Target) (tableName : String) (ps : List String)
    (m : GoMap) (rows : List (List Field)) (hrows : rowsOf target = some rows)
    (hres : rowsResolve ps 0 rows m = false) :
    ∃ e m', namedInsert.build target tableName ps m = (Except.error e, m') := by
  have single : ∀ fields : List Field, rows = [fields] →
      ∃ e, buildInsertQueryValues 0 (Target.struct fields) ps m = (Except.error e, m) := by
    intro fields hf
    subst hf
    simp only [rowsResolve, Bool.and_true] at hres
    exact buildInsertQueryValues_struct_fail 0 fields ps m hres
  cases target with
  | struct fields =>
    simp only [rowsOf, Option.some.injEq] at hrows
    obtain ⟨e, he⟩ := single fields hrows.symm
    exact ⟨e, m, by simp only [namedInsert.build, he]⟩
  | slice elems =>
    simp only [rowsOf] at hrows
    obtain ⟨e, m', he⟩ := namedInsertSlice_fail ps elems rows m hrows hres
    exact ⟨e, m', by simp only [namedInsert.build, he]⟩
  | other v => simp [rowsOf] at hrows
  | ptr elem =>
    cases elem with
    | none => simp [rowsOf] at hrows
    | some v =>
      cases v with
      | struct fields =>
        simp only [rowsOf, Option.some.injEq] at hrows
        obtain ⟨e, he⟩ := single fields hrows.symm
        exact ⟨e, m, by simp only [namedInsert.build, he]⟩
      | slice elems =>
        simp only [rowsOf] at hrows
        obtain ⟨e, m', he⟩ := namedInsertSlice_fail ps elems rows m hrows hres
        exact ⟨e, m', by simp only [namedInsert.build, he]⟩
      | _ => simp [rowsOf] at hrows

/-! ### What a build writes to the map -/

theorem mapGet_eq_none_of_keys (l : GoMap) (key : String) (h : ∀ kv ∈ l, kv.1 ≠ key) :
    mapGet l key = none := by
  induction l with
  | nil => rfl
  | cons a l ih =>
    obtain ⟨k, v⟩ := a
    have hk : k ≠ key := h (k, v) (List.mem_cons_self _ _)
    simp [mapGet, hk, ih (fun kv hkv => h kv (List.mem_cons_of_mem _ hkv))]

theorem registered_keys (i : Int) (ps : List String) (vs : List GoVal) :
    ∀ kv ∈ ((ps.map fun p => paramName p i).zip vs).reverse, ∃ c ∈ ps, kv.1 = paramName c i := by
  intro kv hkv
  rw [List.mem_reverse] at hkv
  have := (List.of_mem_zip hkv).1
  rw [List.mem_map] at this
  obtain ⟨c, hc, hcc⟩ := this
  exact ⟨c, hc, hcc.symm⟩

theorem BuildInsertParams_some_map (m m' : GoMap) (i : Int) (ps : List String)
    (vs : List GoVal) (out : String) (h : BuildInsertParams m i ps vs = some (out, m')) :
    m' = registered m i ps vs := by
  simp only [BuildInsertParams] at h
  cases hloop : BuildInsertParams.loop (Itoa i) vs 0 ps "(" m with
  | none => rw [hloop] at h; cases h
  | some res =>
    obtain ⟨o2, m3⟩ := res
    rw [hloop] at h
    simp only [Option.some.injEq, Prod.mk.injEq] at h
    have hm := BuildInsertParams_loop_map _ _ _ _ _ _ _ _ hloop
    rw [← h.2, hm]
    simp [registered, paramName]

theorem buildInsertQueryValues_body_result (index : Int) (value : Target) (ps : List String)
    (m : GoMap) :
    (∃ e, (match mapTypeFieldsTag value with
        | Except.error e => (Except.error e, m)
        | Except.ok tagMap =>
          match buildInsertQueryValues.loop value tagMap m ps [] with
          | Except.error e => (Except.error e, m)
          | Except.ok values =>
            match BuildInsertParams m index ps values with
            | none => (Except.error (Failure.panic "index out of range"), m)
            | some (out, m') => (Except.ok out, m')) = ((Except.error e : Except Failure String), m))
    ∨ (∃ out values, (match mapTypeFieldsTag value with
        | Except.error e => (Except.error e, m)
        | Except.ok tagMap =>
          match buildInsertQueryValues.loop value tagMap m ps [] with
          | Except.error e => (Except.error e, m)
          | Except.ok values =>
            match BuildInsertParams m index ps values with
            | none => (Except.error (Failure.panic "index out of range"), m)
            | some (out, m') => (Except.ok out, m'))
          = ((Except.ok out : Except Failure String), registered m index ps values)) := by
  cases ht : mapTypeFieldsTag value with
  | error e => exact Or.inl ⟨e, rfl⟩
  | ok tagMap =>
    cases hl : buildInsertQueryValues.loop value tagMap m ps [] with
    | error e => exact Or.inl ⟨e, by simp only [hl]⟩
    | ok values =>
      cases hb : BuildInsertParams m index ps values with
      | none => exact Or.inl ⟨Failure.panic "index out of range", by simp only [hl, hb]⟩
      | some res =>
        obtain ⟨out, m2⟩ := res
        have := BuildInsertParams_some_map _ _ _ _ _ _ hb
        subst this
        exact Or.inr ⟨out, values, by simp only [hl, hb]⟩

theorem buildInsertQueryValues_result (index : Int) (target : Target) (ps : List String)
    (m : GoMap) :
    (∃ e, buildInsertQueryValues index target ps m = (Except.error e, m))
    ∨ (∃ out values, buildInsertQueryValues index target ps m
          = (Except.ok out, registered m index ps values)) := by
  cases target with
  | ptr elem =>
    cases elem with
    | none => exact Or.inl ⟨_, rfl⟩
    | some v => exact buildInsertQueryValues_body_result index v ps m
  | struct fields => exact buildInsertQueryValues_body_result index (Target.struct fields) ps m
  | slice elems => exact buildInsertQueryValues_body_result index (Target.slice elems) ps m
  | other v => exact buildInsertQueryValues_body_result index (Target.other v) ps m

theorem buildInsertQueryValues_extends (i : Nat) (target : Target) (ps : List String)
    (m m' : GoMap) (r : Except Failure String)
    (h : buildInsertQueryValues (Int.ofNat i) target ps m = (r, m')) :
    ∃ l, m' = l ++ m ∧ ∀ kv ∈ l, ∃ c ∈ ps, kv.1 = paramName c (Int.ofNat i) := by
  rcases buildInsertQueryValues_result (Int.ofNat i) target ps m with ⟨e, he⟩ | ⟨out, values, ho⟩
  · rw [he] at h
    simp only [Prod.mk.injEq] at h
    exact ⟨[], by simp [h.2], by simp⟩
  · rw [ho] at h
    simp only [Prod.mk.injEq] at h
    exact ⟨_, by rw [← h.2, registered], registered_keys _ ps values⟩

theorem namedInsertSlice_loop_extends (ps : List String) :
    ∀ (elems : List Target) (i : Nat) (acc : String) (m m' : GoMap) (r : Except Failure String),
      namedInsertSlice.loop ps i elems acc m = (r, m') →
      ∃ l, m' = l ++ m ∧ ∀ kv ∈ l, ∃ c ∈ ps, ∃ j : Nat, kv.1 = paramName c (Int.ofNat j) := by
  intro elems
  induction elems with
  | nil =>
    intro i acc m m' r h
    simp only [namedInsertSlice.loop, Prod.mk.injEq] at h
    exact ⟨[], by simp [h.2], by simp⟩
  | cons item rest ih =>
    intro i acc m m' r h
    have step : ∀ v : Target,
        (match buildInsertQueryValues (Int.ofNat i) v ps m with
          | (Except.error e, m') => (Except.error e, m')
          | (Except.ok qValues, m') =>
            namedInsertSlice.loop ps (i + 1) rest (acc ++ qValues) m') = (r, m') →
        ∃ l, m' = l ++ m ∧ ∀ kv ∈ l, ∃ c ∈ ps, ∃ j : Nat, kv.1 = paramName c (Int.ofNat j) := by
      intro v hv
      cases hb : buildInsertQueryValues (Int.ofNat i) v ps m with
      | mk r1 m1 =>
        obtain ⟨l1, hl1, hk1⟩ := buildInsertQueryValues_extends i v ps m m1 r1 hb
        rw [hb] at hv
        cases r1 with
        | error e =>
          simp only [Prod.mk.injEq] at hv
          exact ⟨l1, by rw [← hv.2, hl1], fun kv hkv => by
            obtain ⟨c, hc, hcc⟩ := hk1 kv hkv
            exact ⟨c, hc, i, hcc⟩⟩
        | ok q =>
          simp only at hv
          obtain ⟨l2, hl2, hk2⟩ := ih _ _ _ _ _ hv
          refine ⟨l2 ++ l1, by rw [hl2, hl1, List.append_assoc], ?_⟩
          intro kv hkv
          rcases List.mem_append.mp hkv with h2 | h1
          · exact hk2 kv h2
          · obtain ⟨c, hc, hcc⟩ := hk1 kv h1
            exact ⟨c, hc, i, hcc⟩
    cases item with
    | ptr elem =>
      cases elem with
      | none =>
        simp only [namedInsertSlice.loop, Prod.mk.injEq] at h
        exact ⟨[], by simp [h.2], by simp⟩
      | some v => exact step v h
    | struct fields => exact step (Target.struct fields) h
    | slice elems => exact step (Target.slice elems) h
    | other v => exact step (Target.other v) h

theorem namedInsert_build_extends (target : Target) (tableName : String) (ps : List String)
    (m m' : GoMap) (r : Except Failure String)
    (h : namedInsert.build target tableName ps m = (r, m')) :
    ∃ l, m' = l ++ m ∧ ∀ kv ∈ l, ∃ c ∈ ps, ∃ j : Nat, kv.1 = paramName c (Int.ofNat j) := by
  have fin : ∀ built : Except Failure String × GoMap,
      (∃ l, built.2 = l ++ m ∧ ∀ kv ∈ l, ∃ c ∈ ps, ∃ j : Nat, kv.1 = paramName c (Int.ofNat j)) →
      (match built with
        | (Except.error e, m) => ((Except.error e : Except Failure String), m)
        | (Except.ok valuesPart, m) =>
          (Except.ok ("Insert into " ++ tableName ++ " (" ++ ",".intercalate ps ++ ") Values "
            ++ valuesPart), m)) = (r, m') →
      ∃ l, m' = l ++ m ∧ ∀ kv ∈ l, ∃ c ∈ ps, ∃ j : Nat, kv.1 = paramName c (Int.ofNat j) := by
    intro built hb hv
    obtain ⟨r1, m1⟩ := built
    cases r1 with
    | error e =>
      simp only [Prod.mk.injEq] at hv
      rw [← hv.2]; exact hb
    | ok q =>
      simp only [Prod.mk.injEq] at hv
      rw [← hv.2]; exact hb
  have triv : ∃ l, m = l ++ m ∧ ∀ kv ∈ l, ∃ c ∈ ps, ∃ j : Nat, kv.1 = paramName c (Int.ofNat j) :=
    ⟨[], by simp, by simp⟩
  have hstruct : ∀ fields : List Field,
      ∃ l, (buildInsertQueryValues 0 (Target.struct fields) ps m).2 = l ++ m ∧
        ∀ kv ∈ l, ∃ c ∈ ps, ∃ j : Nat, kv.1 = paramName c (Int.ofNat j) := by
    intro fields
    obtain ⟨l, hl, hk⟩ := buildInsertQueryValues_extends 0 (Target.struct fields) ps m _ _ rfl
    exact ⟨l, hl, fun kv hkv => by
      obtain ⟨c, hc, hcc⟩ := hk kv hkv
      exact ⟨c, hc, 0, hcc⟩⟩
  have hslice : ∀ elems : List Target,
      ∃ l, (namedInsertSlice elems ps m).2 = l ++ m ∧
        ∀ kv ∈ l, ∃ c ∈ ps, ∃ j : Nat, kv.1 = paramName c (Int.ofNat j) := by
    intro elems
    unfold namedInsertSlice
    split
    · exact triv
    · exact namedInsertSlice_loop_extends ps elems 0 "" m _ _ rfl
  cases target with
  | struct fields => exact fin _ (hstruct fields) h
  | slice elems => exact fin _ (hslice elems) h
  | other v => exact fin (Except.error (Failure.WrongTypeErr "target type not accepted"), m) triv h
  | ptr elem =>
    cases elem with
    | none =>
      simp only [namedInsert.build, Prod.mk.injEq] at h
      rw [← h.2]; exact triv
    | some v =>
      cases v with
      | struct fields => exact fin _ (hstruct fields) h
      | slice elems => exact fin _ (hslice elems) h
      | other v => exact fin (Except.error (Failure.WrongTypeErr "target type not accepted"), m) triv h
      | ptr e => exact fin (Except.error (Failure.WrongTypeErr "target type not accepted"), m) triv h

/-! ### Builds that stop with an error -/

theorem find_first_unresolved (m : GoMap) (fields : List Field) (pre post : List String)
    (c : String) (hpre : ∀ p ∈ pre, (resolveColumn m fields p).isSome)
    (hc : resolveColumn m fields c = none) :
    ((pre ++ c :: post).find? fun c => (resolveColumn m fields c).isNone) = some c := by
  rw [List.find?_append, find_isNone_eq_none hpre]
  simp [List.find?_cons, hc]

theorem buildInsertQueryValues_struct_missing (index : Int) (fields : List Field)
    (pre post : List String) (c : String) (m : GoMap)
    (hpre : ∀ p ∈ pre, (resolveColumn m fields p).isSome)
    (hc : resolveColumn m fields c = none) :
    buildInsertQueryValues index (Target.struct fields) (pre ++ c :: post) m
      = (Except.error (Failure.MissingParamErr ("param '" ++ c ++ "' not found")), m) := by
  rw [buildInsertQueryValues_struct_eq, find_first_unresolved m fields pre post c hpre hc]

theorem resolveColumn_eq_none_iff (m : GoMap) (fields : List Field) (c : String) :
    resolveColumn m fields c = none
      ↔ mapGet m c = none ∧ (∀ f ∈ fields, f.name ≠ c) ∧ (∀ f ∈ fields, f.tag ≠ some c) := by
  have h := resolveColumn_isSome_iff m fields c
  constructor
  · intro hn
    rw [hn] at h
    simp only [Option.isSome_none, Bool.false_eq_true, false_iff, not_or, not_exists,
      not_and] at h
    refine ⟨?_, h.2.1, h.2.2⟩
    cases hm : mapGet m c with
    | none => rfl
    | some v => simp [hm] at h
  · rintro ⟨h1, h2, h3⟩
    cases hr : resolveColumn m fields c with
    | none => rfl
    | some v =>
      rw [hr] at h
      simp only [Option.isSome_some, true_iff] at h
      rcases h with h | ⟨f, hf, hfc⟩ | ⟨f, hf, hfc⟩
      · simp [h1] at h
      · exact absurd hfc (h2 f hf)
      · exact absurd hfc (h3 f hf)

theorem namedInsert_of_build_error (target : Target) (tableName : String) (ps : List String)
    (valueMapper : Option GoMap) (e : Failure) (m' : GoMap)
    (h : namedInsert.build target tableName ps (valueMapper.getD []) = (Except.error e, m')) :
    namedInsert target tableName ps valueMapper
      = { query := "", args := none, err := some e,
          valueMapper := valueMapper.map fun _ => m' } := by
  cases valueMapper with
  | none =>
    simp only [Option.getD_none] at h
    simp only [namedInsert, h]
  | some m =>
    simp only [Option.getD_some] at h
    simp only [namedInsert, h]

theorem map_const_getD (valueMapper : Option GoMap) :
    (valueMapper.map fun _ => valueMapper.getD []) = valueMapper := by
  cases valueMapper <;> rfl

theorem namedInsert_build_first_missing (target : Target) (tableName : String)
    (fields : List Field) (pre post : List String) (c : String) (m : GoMap)
    (hfirst : firstRow target = some fields)
    (hpre : ∀ p ∈ pre, (resolveColumn m fields p).isSome)
    (hc : resolveColumn m fields c = none) :
    namedInsert.build target tableName (pre ++ c :: post) m
      = (Except.error (Failure.MissingParamErr ("param '" ++ c ++ "' not found")), m) := by
  have hrow := buildInsertQueryValues_struct_missing 0 fields pre post c m hpre hc
  have hslice : ∀ (e : Target) (rest : List Target), rowOf e = some fields →
      namedInsertSlice (e :: rest) (pre ++ c :: post) m
        = (Except.error (Failure.MissingParamErr ("param '" ++ c ++ "' not found")), m) := by
    intro e rest he
    simp only [namedInsertSlice, List.length_cons, Nat.add_one_ne_zero, if_false]
    rw [slice_step_of_rowOf _ 0 e rest "" m fields he,
      buildInsertQueryValues_struct_missing _ fields pre post c m hpre hc]
  cases target with
  | struct fs =>
    simp only [firstRow, Option.some.injEq] at hfirst
    subst hfirst
    simp only [namedInsert.build, hrow]
  | slice elems =>
    cases elems with
    | nil => simp [firstRow] at hfirst
    | cons e rest =>
      simp only [firstRow] at hfirst
      simp only [namedInsert.build, hslice e rest hfirst]
  | other v => simp [firstRow] at hfirst
  | ptr elem =>
    cases elem with
    | none => simp [firstRow] at hfirst
    | some v =>
      cases v with
      | struct fs =>
        simp only [firstRow, Option.some.injEq] at hfirst
        subst hfirst
        simp only [namedInsert.build, hrow]
      | slice elems =>
        cases elems with
        | nil => simp [firstRow] at hfirst
        | cons e rest =>
          simp only [firstRow] at hfirst
          simp only [namedInsert.build, hslice e rest hfirst]
      | _ => simp [firstRow] at hfirst

/-! ### The map between rows -/

theorem mapAfterRows_extends (ps : List String) :
    ∀ (rows : List (List Field)) (i : Nat) (m : GoMap),
      ∃ l, mapAfterRows ps i rows m = l ++ m ∧
        ∀ kv ∈ l, ∃ c ∈ ps, ∃ j : Nat, i ≤ j ∧ j < i + rows.length
          ∧ kv.1 = paramName c (Int.ofNat j) := by
  intro rows
  induction rows with
  | nil => intro i m; exact ⟨[], by simp [mapAfterRows], by simp⟩
  | cons row rest ih =>
    intro i m
    obtain ⟨l, hl, hk⟩ := ih (i + 1)
      (registered m (Int.ofNat i) ps (ps.filterMap (resolveColumn m row)))
    refine ⟨l ++ ((ps.map fun p => paramName p (Int.ofNat i)).zip
      (ps.filterMap (resolveColumn m row))).reverse, ?_, ?_⟩
    · rw [mapAfterRows, hl, registered, List.append_assoc]
    · intro kv hkv
      rcases List.mem_append.mp hkv with h | h
      · obtain ⟨c, hc, j, h1, h2, h3⟩ := hk kv h
        exact ⟨c, hc, j, by omega, by simp only [List.length_cons]; omega, h3⟩
      · obtain ⟨c, hc, hcc⟩ := registered_keys _ ps _ kv h
        exact ⟨c, hc, i, le_refl _, by simp, hcc⟩

theorem mapGet_of_extends (l m : GoMap) (key : String) (h : ∀ kv ∈ l, kv.1 ≠ key) :
    mapGet (l ++ m) key = mapGet m key := by
  rw [mapGet_append, mapGet_eq_none_of_keys l key h]
  simp

theorem mapGet_isSome_of_extends (l m : GoMap) (key : String) (h : (mapGet m key).isSome) :
    (mapGet (l ++ m) key).isSome := by
  rw [mapGet_append]
  cases mapGet l key with
  | some v => simp
  | none => simpa using h

theorem paramName_eq (c : String) (i : Int) : paramName c i = c ++ "_" ++ Itoa i := by
  simp [paramName, String.append_assoc]

theorem namedInsertSlice_nil_at (ps : List String) (pre post : List Target)
    (rows : List (List Field)) (m : GoMap) (hrows : rowsOfElems pre = some rows)
    (hres : rowsResolve ps 0 rows m = true) :
    namedInsertSlice (pre ++ Target.ptr none :: post) ps m
      = (Except.error (Failure.NilPointerErr "nil pointer passed to namedInsertSlice target"),
          mapAfterRows ps 0 rows m) := by
  have hne : (pre ++ Target.ptr none :: post).length ≠ 0 := by simp
  simp only [namedInsertSlice, hne, if_false]
  rw [namedInsertSlice_loop_append ps _ pre rows 0 "" m hrows hres]
  simp only [namedInsertSlice.loop]

theorem rowsOfElems_length : ∀ (elems : List Target) (rows : List (List Field)),
    rowsOfElems elems = some rows → rows.length = elems.length := by
  intro elems
  induction elems with
  | nil => intro rows h; simp only [rowsOfElems, Option.some.injEq] at h; subst h; rfl
  | cons e rest ih =>
    intro rows h
    simp only [rowsOfElems] at h
    cases he : rowOf e with
    | none => simp [he] at h
    | some r =>
      cases hr : rowsOfElems rest with
      | none => simp [he, hr] at h
      | some rs =>
        simp only [he, hr, Option.some.injEq] at h
        subst h
        simp [ih rs hr]

/-! ### Decimal row indices and the uniqueness of parameter names -/

theorem digitChar_isDigit (x : Nat) (hx : x < 10) : (Nat.digitChar x).isDigit = true := by
  have : ∀ y : Fin 10, (Nat.digitChar y.val).isDigit = true := by decide
  exact this ⟨x, hx⟩

theorem digitChar_toNat (x : Nat) (hx : x < 10) : (Nat.digitChar x).toNat - 48 = x := by
  have : ∀ y : Fin 10, (Nat.digitChar y.val).toNat - 48 = y.val := by decide
  exact this ⟨x, hx⟩

theorem toDigitsCore_isDigit :
    ∀ (fuel n : Nat) (ds : List Char), (∀ c ∈ ds, c.isDigit = true) →
      ∀ c ∈ Nat.toDigitsCore 10 fuel n ds, c.isDigit = true := by
  intro fuel
  induction fuel with
  | zero => intro n ds h c hc; simpa [Nat.toDigitsCore] using h c hc
  | succ fuel ih =>
    intro n ds h c hc
    simp only [Nat.toDigitsCore] at hc
    have hd : ∀ c ∈ Nat.digitChar (n % 10) :: ds, c.isDigit = true := by
      intro c hc
      rcases List.mem_cons.mp hc with h1 | h1
      · rw [h1]; exact digitChar_isDigit _ (Nat.mod_lt _ (by decide))
      · exact h c h1
    split at hc
    · exact hd c hc
    · exact ih _ _ hd c hc

theorem repr_isDigit (n : Nat) : ∀ c ∈ (Nat.repr n).data, c.isDigit = true := by
  intro c hc
  simp only [Nat.repr, Nat.toDigits, List.asString] at hc
  exact toDigitsCore_isDigit _ _ [] (by simp) c hc

theorem toDigitsCore_decode :
    ∀ (fuel n : Nat) (ds : List Char), n < fuel →
      List.foldl (fun a c => a * 10 + (c.toNat - 48)) 0 (Nat.toDigitsCore 10 fuel n ds)
        = List.foldl (fun a c => a * 10 + (c.toNat - 48)) n ds := by
  intro fuel
  induction fuel with
  | zero => intro n ds h; omega
  | succ fuel ih =>
    intro n ds h
    simp only [Nat.toDigitsCore]
    split
    · rename_i h0
      have hn : n < 10 := by
        by_contra hc
        have : 1 ≤ n / 10 := (Nat.le_div_iff_mul_le (by decide)).mpr (by omega)
        omega
      simp only [List.foldl_cons, Nat.zero_mul, Nat.zero_add,
        digitChar_toNat _ (Nat.mod_lt _ (by decide : 10 > 0))]
      rw [Nat.mod_eq_of_lt hn]
    · rename_i h0
      have hlt : n / 10 < fuel := by
        have : n / 10 < n := Nat.div_lt_self (by
          by_contra hc
          have : n = 0 := by omega
          subst this
          simp at h0) (by decide)
        omega
      rw [ih _ _ hlt]
      simp only [List.foldl_cons, digitChar_toNat _ (Nat.mod_lt _ (by decide : 10 > 0))]
      congr 1
      omega

theorem decodeDigits_repr (n : Nat) : decodeDigits (Nat.repr n).data = n := by
  simp only [decodeDigits, Nat.repr, Nat.toDigits, List.asString]
  rw [toDigitsCore_decode _ _ _ (Nat.lt_succ_self n)]
  rfl

theorem repr_injective {i j : Nat} (h : Nat.repr i = Nat.repr j) : i = j := by
  have := congrArg (fun s => decodeDigits s.data) h
  simpa [decodeDigits_repr] using this

theorem split_at_last {a : Char} :
    ∀ (l1 l2 d1 d2 : List Char), a ∉ d1 → a ∉ d2 → l1 ++ a :: d1 = l2 ++ a :: d2 →
      l1 = l2 ∧ d1 = d2 := by
  intro l1
  induction l1 with
  | nil =>
    intro l2 d1 d2 h1 h2 h
    cases l2 with
    | nil => simpa using h
    | cons b l2 =>
      simp only [List.nil_append, List.cons_append, List.cons.injEq] at h
      exact absurd (by rw [h.2]; simp) h1
  | cons x l1 ih =>
    intro l2 d1 d2 h1 h2 h
    cases l2 with
    | nil =>
      simp only [List.nil_append, List.cons_append, List.cons.injEq] at h
      exact absurd (by rw [← h.2]; simp) h2
    | cons b l2 =>
      simp only [List.cons_append, List.cons.injEq] at h
      obtain ⟨hl, hd⟩ := ih l2 d1 d2 h1 h2 h.2
      exact ⟨by rw [h.1, hl], hd⟩

theorem underscore_not_mem_repr (n : Nat) : '_' ∉ (Nat.repr n).data := by
  intro h
  have := repr_isDigit n '_' h
  exact absurd this (by decide)

theorem paramName_inj {c c' : String} {i j : Nat}
    (h : paramName c (Int.ofNat i) = paramName c' (Int.ofNat j)) : c = c' ∧ i = j := by
  have hd := congrArg String.data h
  simp only [paramName, Itoa, String.data_append] at hd
  obtain ⟨h1, h2⟩ := split_at_last c.data c'.data _ _ (underscore_not_mem_repr i)
    (underscore_not_mem_repr j) (by simpa using hd)
  exact ⟨String.ext h1, repr_injective (String.ext h2)⟩

/-! ### The scanner of the rebind step -/

theorem scan_copy :
    ∀ (pre : List Char), (∀ ch ∈ pre, ch ≠ ':') →
      ∀ (rest : List Char) (i : Nat) (prev : Option Char) (name rebound : List Char)
        (names : List String),
        ∃ i' prev', compileNamedQuery.loop (pre ++ rest) i prev false name rebound names
          = compileNamedQuery.loop rest i' prev' false name (rebound ++ pre) names := by
  intro pre
  induction pre with
  | nil => intro _ rest i prev name rebound names; exact ⟨i, prev, by simp⟩
  | cons b pre ih =>
    intro hpre rest i prev name rebound names
    have hb : b ≠ ':' := hpre b (List.mem_cons_self _ _)
    obtain ⟨i', prev', h⟩ := ih (fun ch hch => hpre ch (List.mem_cons_of_mem _ hch)) rest
      (i + 1) (some b) name (rebound ++ [b]) names
    refine ⟨i', prev', ?_⟩
    rw [List.cons_append, compileNamedQuery.loop]
    simp only [hb, if_false, Bool.false_and, Bool.false_eq_true]
    rw [h]
    simp

theorem nameChar_ne_colon {ch : Char}
    (h : (allowedBindRune ch || ch == '_' || ch == '.') = true) : ch ≠ ':' := by
  intro hc
  subst hc
  revert h
  decide

theorem scan_name :
    ∀ (nm : List Char),
      (∀ ch ∈ nm, (allowedBindRune ch || ch == '_' || ch == '.') = true) →
      ∀ (d : Char) (rest : List Char), d ≠ ':' →
        (allowedBindRune d || d == '_' || d == '.') = false →
        ∀ (i : Nat) (prev : Option Char) (name rebound : List Char) (names : List String),
          ∃ i' prev' name',
            compileNamedQuery.loop (nm ++ d :: rest) i prev true name rebound names
              = compileNamedQuery.loop rest i' prev' false name' (rebound ++ ['?', d])
                  (names ++ [String.mk (name ++ nm)]) := by
  intro nm
  induction nm with
  | nil =>
    intro _ d rest hd hnot i prev name rebound names
    simp only [Bool.or_eq_false_iff] at hnot
    obtain ⟨⟨hall, hu⟩, hdot⟩ := hnot
    refine ⟨i + 1, some d, name, ?_⟩
    rw [List.nil_append, compileNamedQuery.loop]
    simp only [hd, if_false, hall, hu, hdot, Bool.or_false, Bool.true_and, Bool.false_and,
      Bool.false_eq_true, Bool.and_false, if_true, Bool.not_false]
    cases rest with
    | nil => simp
    | cons r rest => simp
  | cons ch nm ih =>
    intro hnm d rest hd hnot i prev name rebound names
    have hch := hnm ch (List.mem_cons_self _ _)
    have hne : ch ≠ ':' := nameChar_ne_colon hch
    obtain ⟨i', prev', name', h⟩ := ih (fun c hc => hnm c (List.mem_cons_of_mem _ hc)) d rest
      hd hnot (i + 1) (some ch) (name ++ [ch]) rebound names
    refine ⟨i', prev', name', ?_⟩
    have hrest : (nm ++ d :: rest).isEmpty = false := by
      cases nm <;> rfl
    rw [List.cons_append, compileNamedQuery.loop]
    simp only [hne, if_false, hch, Bool.true_and, hrest, Bool.not_false, if_true]
    rw [h]
    simp

theorem intercalate_go_data (s : String) :
    ∀ (l : List String) (acc : String),
      (String.intercalate.go acc s l).data = acc.data ++ l.flatMap fun x => s.data ++ x.data := by
  intro l
  induction l with
  | nil => intro acc; simp [String.intercalate.go]
  | cons a as ih =>
    intro acc
    simp [String.intercalate.go, ih, List.append_assoc]

theorem intercalate_data (s : String) (l : List String) :
    (s.intercalate l).data = joinChars s.data (l.map String.data) := by
  cases l with
  | nil => rfl
  | cons a as =>
    simp only [String.intercalate, intercalate_go_data, joinChars, List.map_cons]
    congr 1
    induction as with
    | nil => rfl
    | cons b bs ih => simp [List.flatMap_cons, ih]

theorem groupText_data (ps : List String) (j : Nat) :
    (groupText ps (Int.ofNat j)).data = groupChars ps j := by
  simp only [groupText, groupChars, String.data_append, intercalate_data, List.map_map]
  rfl

theorem bind_const_replicate {α β γ : Type} (l : List α) (x : β) (f : β → List γ) :
    (List.replicate l.length x).flatMap f = l.flatMap fun _ => f x := by
  induction l with
  | nil => rfl
  | cons a l ih => simp [List.replicate_succ, List.flatMap_cons, ih]

theorem scan_params :
    ∀ (qs : List (List Char)),
      (∀ q ∈ qs, ∀ ch ∈ q, (allowedBindRune ch || ch == '_' || ch == '.') = true) →
      ∀ (nm : List Char), (∀ ch ∈ nm, (allowedBindRune ch || ch == '_' || ch == '.') = true) →
      ∀ (rest : List Char) (i : Nat) (prev : Option Char) (name rebound : List Char)
        (names : List String),
        ∃ i' prev' name',
          compileNamedQuery.loop
              (nm ++ ((qs.flatMap fun q => ',' :: ':' :: q) ++ ')' :: rest)) i prev true name
              rebound names
            = compileNamedQuery.loop rest i' prev' false name'
                (rebound ++ ('?' :: (qs.flatMap fun _ => [',', '?']) ++ [')']))
                (names ++ String.mk (name ++ nm) :: qs.map String.mk) := by
  intro qs
  induction qs with
  | nil =>
    intro _ nm hnm rest i prev name rebound names
    obtain ⟨i', prev', name', h⟩ := scan_name nm hnm ')' rest (by decide) (by decide) i prev
      name rebound names
    exact ⟨i', prev', name', by simpa using h⟩
  | cons q qs ih =>
    intro hqs nm hnm rest i prev name rebound names
    obtain ⟨i1, prev1, name1, h1⟩ := scan_name nm hnm ','
      (':' :: (q ++ ((qs.flatMap fun q => ',' :: ':' :: q) ++ ')' :: rest))) (by decide)
      (by decide) i prev name rebound names
    obtain ⟨i2, prev2, name2, h2⟩ := ih (fun x hx => hqs x (List.mem_cons_of_mem _ hx)) q
      (hqs q (List.mem_cons_self _ _)) rest (i1 + 1) (some ':') [] (rebound ++ ['?', ','])
      (names ++ [String.mk (name ++ nm)])
    refine ⟨i2, prev2, name2, ?_⟩
    have e1 : nm ++ (((q :: qs).flatMap fun q => ',' :: ':' :: q) ++ ')' :: rest)
        = nm ++ ',' :: ':' :: (q ++ ((qs.flatMap fun q => ',' :: ':' :: q) ++ ')' :: rest)) := by
      simp [List.flatMap_cons]
    rw [e1, h1, compileNamedQuery.loop]
    simp only [if_true, Bool.false_and, Bool.false_eq_true, if_false]
    rw [h2]
    simp [List.flatMap_cons]

theorem scan_group (ps : List String) (j : Nat)
    (hcols : ∀ c ∈ ps, ∀ ch ∈ c.data, ch.isAlphanum = true ∨ ch = '_')
    (rest : List Char) (i : Nat) (prev : Option Char) (name rebound : List Char)
    (names : List String) :
    ∃ i' prev' name',
      compileNamedQuery.loop (groupChars ps j ++ rest) i prev false name rebound names
        = compileNamedQuery.loop rest i' prev' false name' (rebound ++ questionGroup ps.length)
            (names ++ ps.map fun p => paramName p (Int.ofNat j)) := by
  have hname : ∀ p ∈ ps, ∀ ch ∈ (paramName p (Int.ofNat j)).data,
      (allowedBindRune ch || ch == '_' || ch == '.') = true := by
    intro p hp ch hch
    simp only [paramName, Itoa, String.data_append, List.mem_append] at hch
    rcases hch with h | h | h
    · rcases hcols p hp ch h with h1 | h1
      · simp [allowedBindRune, h1]
      · simp [h1]
    · have : ch = '_' := by simpa using h
      simp [this]
    · have := repr_isDigit j ch h
      simp [allowedBindRune, Char.isAlphanum, this]
  cases ps with
  | nil =>
    obtain ⟨i', prev', h⟩ := scan_copy ['(', ')'] (by decide) rest i prev name rebound names
    exact ⟨i', prev', name, by simpa [groupChars, questionGroup, joinChars] using h⟩
  | cons p ps =>
    obtain ⟨i1, prev1, h1⟩ := scan_copy ['('] (by decide)
      (':' :: ((paramName p (Int.ofNat j)).data
        ++ (((ps.map fun p => (paramName p (Int.ofNat j)).data).flatMap fun q => ',' :: ':' :: q)
          ++ ')' :: rest))) i prev name rebound names
    obtain ⟨i2, prev2, name2, h2⟩ := scan_params
      (ps.map fun p => (paramName p (Int.ofNat j)).data)
      (by
        intro q hq
        obtain ⟨p', hp', rfl⟩ := List.mem_map.mp hq
        exact hname p' (List.mem_cons_of_mem _ hp'))
      (paramName p (Int.ofNat j)).data (hname p (List.mem_cons_self _ _)) rest (i1 + 1)
      (some ':') [] (rebound ++ ['(']) names
    refine ⟨i2, prev2, name2, ?_⟩
    have e1 : groupChars (p :: ps) j ++ rest
        = ['('] ++ ':' :: ((paramName p (Int.ofNat j)).data
            ++ (((ps.map fun p => (paramName p (Int.ofNat j)).data).flatMap
                  fun q => ',' :: ':' :: q) ++ ')' :: rest)) := by
      simp [groupChars, joinChars, List.flatMap_map, List.flatMap_cons, Function.comp_def]
    rw [e1, h1, compileNamedQuery.loop]
    simp only [if_true, Bool.false_and, Bool.false_eq_true, if_false]
    rw [h2]
    have e2 : questionGroup (p :: ps).length
        = '(' :: '?' :: ((ps.map fun p => (paramName p (Int.ofNat j)).data).flatMap
            fun _ => [',', '?']) ++ [')'] := by
      simp only [questionGroup, List.length_cons, List.replicate_succ, joinChars]
      rw [show (List.replicate ps.length ['?']).flatMap (fun x => [','] ++ x)
          = ps.flatMap fun _ => [','] ++ ['?'] from bind_const_replicate ps ['?'] _]
      simp [List.flatMap_map, Function.comp_def]
    rw [e2]
    simp [List.map_map, Function.comp_def]

/-! ### The rebind step on a built statement -/

theorem scan_groups (ps : List String)
    (hcols : ∀ c ∈ ps, ∀ ch ∈ c.data, ch.isAlphanum = true ∨ ch = '_') :
    ∀ (js : List Nat) (rest : List Char) (i : Nat) (prev : Option Char)
      (name rebound : List Char) (names : List String),
      ∃ i' prev' name',
        compileNamedQuery.loop ((js.flatMap fun j => [','] ++ groupChars ps j) ++ rest) i prev
            false name rebound names
          = compileNamedQuery.loop rest i' prev' false name'
              (rebound ++ js.flatMap fun _ => [','] ++ questionGroup ps.length)
              (names ++ js.flatMap fun j => ps.map fun p => paramName p (Int.ofNat j)) := by
  intro js
  induction js with
  | nil => intro rest i prev name rebound names; exact ⟨i, prev, name, by simp⟩
  | cons j js ih =>
    intro rest i prev name rebound names
    obtain ⟨i1, prev1, h1⟩ := scan_copy [','] (by decide)
      (groupChars ps j ++ ((js.flatMap fun j => [','] ++ groupChars ps j) ++ rest)) i prev name
      rebound names
    obtain ⟨i2, prev2, name2, h2⟩ := scan_group ps j hcols
      ((js.flatMap fun j => [','] ++ groupChars ps j) ++ rest) i1 prev1 name (rebound ++ [','])
      names
    obtain ⟨i3, prev3, name3, h3⟩ := ih rest i2 prev2 name2
      (rebound ++ [','] ++ questionGroup ps.length)
      (names ++ ps.map fun p => paramName p (Int.ofNat j))
    refine ⟨i3, prev3, name3, ?_⟩
    have e1 : ((j :: js).flatMap fun j => [','] ++ groupChars ps j) ++ rest
        = [','] ++ (groupChars ps j ++ ((js.flatMap fun j => [','] ++ groupChars ps j) ++ rest)) := by
      simp [List.flatMap_cons]
    rw [e1, h1, h2, h3]
    simp [List.flatMap_cons]

theorem scan_joined (ps : List String)
    (hcols : ∀ c ∈ ps, ∀ ch ∈ c.data, ch.isAlphanum = true ∨ ch = '_')
    (pre : List Char) (hpre : ∀ ch ∈ pre, ch ≠ ':') (js : List Nat) :
    compileNamedQuery.loop (pre ++ joinChars [','] (js.map (groupChars ps))) 0 none false [] []
        []
      = Except.ok (pre ++ joinChars [','] (List.replicate js.length (questionGroup ps.length)),
          js.flatMap fun j => ps.map fun p => paramName p (Int.ofNat j)) := by
  obtain ⟨i1, prev1, h1⟩ := scan_copy pre hpre (joinChars [','] (js.map (groupChars ps))) 0 none
    [] [] []
  rw [h1]
  cases js with
  | nil => simp [joinChars, compileNamedQuery.loop]
  | cons j js =>
    obtain ⟨i2, prev2, name2, h2⟩ := scan_group ps j hcols
      ((js.flatMap fun j => [','] ++ groupChars ps j) ++ []) i1 prev1 [] ([] ++ pre) []
    obtain ⟨i3, prev3, name3, h3⟩ := scan_groups ps hcols js [] i2 prev2 name2
      ([] ++ pre ++ questionGroup ps.length)
      ([] ++ ps.map fun p => paramName p (Int.ofNat j))
    have e1 : joinChars [','] ((j :: js).map (groupChars ps))
        = groupChars ps j ++ ((js.flatMap fun j => [','] ++ groupChars ps j) ++ []) := by
      simp [joinChars, List.flatMap_map, Function.comp_def]
    rw [e1, h2, h3]
    simp only [compileNamedQuery.loop, List.nil_append, List.length_cons, List.replicate_succ,
      joinChars, List.flatMap_cons, List.append_assoc]
    rw [bind_const_replicate js (questionGroup ps.length) fun x => [','] ++ x]

theorem insertText_data (tableName : String) (ps : List String) (k : Nat) :
    (insertText tableName ps k).data
      = ("Insert into " ++ tableName ++ " (" ++ ",".intercalate ps ++ ") Values ").data
          ++ joinChars [','] ((List.range k).map (groupChars ps)) := by
  simp only [insertText, String.data_append, intercalate_data, List.map_map]
  congr 2
  apply List.map_congr_left
  intro j _
  exact groupText_data ps j

theorem stmtHead_no_colon (tableName : String) (ps : List String)
    (hcols : ∀ c ∈ ps, ∀ ch ∈ c.data, ch.isAlphanum = true ∨ ch = '_')
    (htable : ':' ∉ tableName.data) :
    ∀ ch ∈ ("Insert into " ++ tableName ++ " (" ++ ",".intercalate ps ++ ") Values ").data,
      ch ≠ ':' := by
  have hjoin : ∀ l : List String, (∀ c ∈ l, ':' ∉ c.data) →
      ':' ∉ joinChars [','] (l.map String.data) := by
    intro l hl
    cases l with
    | nil => simp [joinChars]
    | cons a as =>
      simp only [List.map_cons, joinChars, List.mem_append, List.mem_flatMap, List.mem_map,
        not_or, not_exists, not_and]
      refine ⟨hl a (List.mem_cons_self _ _), ?_⟩
      intro x hx
      obtain ⟨c, hc, rfl⟩ := hx
      exact ⟨by decide, hl c (List.mem_cons_of_mem _ hc)⟩
  have hps : ∀ c ∈ ps, ':' ∉ c.data := by
    intro c hc hmem
    rcases hcols c hc ':' hmem with h | h
    · exact absurd h (by decide)
    · exact absurd h (by decide)
  intro ch hch heq
  subst heq
  simp only [String.data_append, List.mem_append, intercalate_data] at hch
  rcases hch with (((h | h) | h) | h) | h
  · exact absurd h (by decide)
  · exact htable h
  · exact absurd h (by decide)
  · exact hjoin ps hps h
  · exact absurd h (by decide)

theorem compileNamedQuery_insertText (tableName : String) (ps : List String) (k : Nat)
    (hcols : ∀ c ∈ ps, ∀ ch ∈ c.data, ch.isAlphanum = true ∨ ch = '_')
    (htable : ':' ∉ tableName.data) :
    compileNamedQuery (insertText tableName ps k)
      = Except.ok ("Insert into " ++ tableName ++ " (" ++ ",".intercalate ps ++ ") Values "
            ++ ",".intercalate (List.replicate k
                ("(" ++ ",".intercalate (List.replicate ps.length "?") ++ ")")),
          (List.range k).flatMap fun j => ps.map fun p => paramName p (Int.ofNat j)) := by
  simp only [compileNamedQuery, insertText_data,
    scan_joined ps hcols _ (stmtHead_no_colon tableName ps hcols htable) (List.range k)]
  congr 2
  apply String.ext
  simp only [String.data_append, intercalate_data, List.map_replicate, List.length_range]
  rfl

/-! ### The bound arguments -/

theorem bindMapArgs_ok (m : GoMap) :
    ∀ (names : List String) (arglist : List GoVal),
      (∀ nm ∈ names, (mapGet m nm).isSome) →
      bindMapArgs m names arglist = (arglist ++ names.filterMap (mapGet m), none) := by
  intro names
  induction names with
  | nil => intro arglist _; simp [bindMapArgs]
  | cons nm rest ih =>
    intro arglist h
    obtain ⟨v, hv⟩ := Option.isSome_iff_exists.mp (h nm (List.mem_cons_self _ _))
    simp only [bindMapArgs, hv, ih _ (fun x hx => h x (List.mem_cons_of_mem _ hx)),
      List.filterMap_cons, List.append_assoc, List.singleton_append]

theorem filterMap_getElem? {α β : Type} (g : α → Option β) :
    ∀ (l : List α) (j : Nat) (hj : j < l.length), (∀ a ∈ l, (g a).isSome) →
      (l.filterMap g)[j]? = g l[j] := by
  intro l
  induction l with
  | nil => intro j hj; simp at hj
  | cons a l ih =>
    intro j hj h
    obtain ⟨b, hb⟩ := Option.isSome_iff_exists.mp (h a (List.mem_cons_self _ _))
    cases j with
    | zero => simp [List.filterMap_cons, hb]
    | succ j =>
      simp only [List.filterMap_cons, hb, List.getElem?_cons_succ, List.getElem_cons_succ]
      exact ih j (by simpa using hj) (fun x hx => h x (List.mem_cons_of_mem _ hx))

theorem flatMap_range_length {β : Type} (G : Nat → List β) (n : Nat) :
    ∀ k : Nat, (∀ i < k, (G i).length = n) → ((List.range k).flatMap G).length = k * n := by
  intro k
  induction k with
  | zero => intro _; simp
  | succ k ih =>
    intro h
    rw [List.range_succ, List.flatMap_append, List.length_append,
      ih (fun i hi => h i (by omega))]
    simp [h k (by omega), Nat.succ_mul]

theorem flatMap_range_getElem? {β : Type} (G : Nat → List β) (n : Nat) :
    ∀ k : Nat, (∀ i < k, (G i).length = n) → ∀ i j : Nat, i < k → j < n →
      ((List.range k).flatMap G)[i * n + j]? = (G i)[j]? := by
  intro k
  induction k with
  | zero => intro _ i j hi; omega
  | succ k ih =>
    intro h i j hi hj
    have hlen := flatMap_range_length G n k (fun i hi => h i (by omega))
    rw [List.range_succ, List.flatMap_append]
    by_cases hik : i < k
    · have hlt : i * n + j < k * n := by
        have : (i + 1) * n ≤ k * n := Nat.mul_le_mul_right n hik
        rw [Nat.succ_mul] at this
        omega
      rw [List.getElem?_append_left (by rw [hlen]; exact hlt)]
      exact ih (fun i hi => h i (by omega)) i j hik hj
    · have hik' : i = k := by omega
      subst hik'
      rw [List.getElem?_append_right (by rw [hlen]; omega), hlen]
      simp

theorem mapGet_map_append {α : Type} (f : α → String) (h : α → GoVal) (m : GoMap)
    (hinj : ∀ a b, f a = f b → a = b) :
    ∀ (l : List α) (c : α), c ∈ l →
      mapGet (l.map (fun p => (f p, h p)) ++ m) (f c) = some (h c) := by
  intro l
  induction l with
  | nil => intro c hc; simp at hc
  | cons a l ih =>
    intro c hc
    simp only [List.map_cons, List.cons_append, mapGet]
    by_cases hac : f a = f c
    · simp [hac, hinj a c hac]
    · simp only [hac, if_false]
      rcases List.mem_cons.mp hc with h1 | h1
      · exact absurd (by rw [h1]) hac
      · exact ih c h1

theorem filterMap_eq_map_getD {α β : Type} (g : α → Option β) (d : β) :
    ∀ l : List α, (∀ a ∈ l, (g a).isSome) → l.filterMap g = l.map fun a => (g a).getD d := by
  intro l
  induction l with
  | nil => intro _; rfl
  | cons a l ih =>
    intro h
    obtain ⟨b, hb⟩ := Option.isSome_iff_exists.mp (h a (List.mem_cons_self _ _))
    simp [List.filterMap_cons, hb, ih (fun x hx => h x (List.mem_cons_of_mem _ hx))]

theorem mapGet_registered (m : GoMap) (s : Nat) (ps : List String) (g : String → Option GoVal)
    (hall : ∀ c ∈ ps, (g c).isSome) (c : String) (hc : c ∈ ps) :
    mapGet (registered m (Int.ofNat s) ps (ps.filterMap g)) (paramName c (Int.ofNat s)) = g c := by
  obtain ⟨v, hv⟩ := Option.isSome_iff_exists.mp (hall c hc)
  rw [registered, filterMap_eq_map_getD g GoVal.nil ps hall, List.zip_map', ← List.map_reverse,
    mapGet_map_append (fun p => paramName p (Int.ofNat s)) (fun p => (g p).getD GoVal.nil) m
      (fun a b hab => (paramName_inj hab).1) ps.reverse c (List.mem_reverse.mpr hc), hv]
  rfl

theorem rowsResolve_isSome (ps : List String) :
    ∀ (rows : List (List Field)) (s : Nat) (m : GoMap), rowsResolve ps s rows m = true →
      ∀ (i : Nat) (hi : i < rows.length), ∀ c ∈ ps,
        (resolveColumn (mapAfterRows ps s (rows.take i) m) rows[i] c).isSome := by
  intro rows
  induction rows with
  | nil => intro s m _ i hi; simp at hi
  | cons row rest ih =>
    intro s m h i hi c hc
    simp only [rowsResolve, Bool.and_eq_true, List.all_eq_true] at h
    cases i with
    | zero => simpa [mapAfterRows] using h.1 c hc
    | succ i =>
      simp only [List.take_succ_cons, mapAfterRows, List.getElem_cons_succ]
      exact ih (s + 1) _ h.2 i (by simpa using hi) c hc

theorem mapGet_mapAfterRows (ps : List String) :
    ∀ (rows : List (List Field)) (s : Nat) (m : GoMap), rowsResolve ps s rows m = true →
      ∀ (i : Nat) (hi : i < rows.length), ∀ c ∈ ps,
        mapGet (mapAfterRows ps s rows m) (paramName c (Int.ofNat (s + i)))
          = resolveColumn (mapAfterRows ps s (rows.take i) m) rows[i] c := by
  intro rows
  induction rows with
  | nil => intro s m _ i hi; simp at hi
  | cons row rest ih =>
    intro s m h i hi c hc
    simp only [rowsResolve, Bool.and_eq_true, List.all_eq_true] at h
    cases i with
    | zero =>
      simp only [mapAfterRows, List.take_zero, List.getElem_cons_zero, Nat.add_zero]
      obtain ⟨l, hl, hk⟩ := mapAfterRows_extends ps rest (s + 1)
        (registered m (Int.ofNat s) ps (ps.filterMap (resolveColumn m row)))
      rw [hl, mapGet_of_extends, mapGet_registered m s ps _ h.1 c hc]
      intro kv hkv heq
      obtain ⟨c', _, j, hj, _, hcc⟩ := hk kv hkv
      rw [hcc] at heq
      have := (paramName_inj heq).2
      omega
    | succ i =>
      simp only [List.take_succ_cons, mapAfterRows, List.getElem_cons_succ]
      have := ih (s + 1) _ h.2 i (by simpa using hi) c hc
      rw [← this]
      congr 3
      omega

theorem namedInsert_of_build_ok (target : Target) (tableName : String) (ps : List String)
    (valueMapper : Option GoMap) (q : String) (m' : GoMap)
    (h : namedInsert.build target tableName ps (valueMapper.getD []) = (Except.ok q, m')) :
    namedInsert target tableName ps valueMapper
      = { query := (Named q m').1, args := (Named q m').2.1, err := (Named q m').2.2,
          valueMapper := valueMapper.map fun _ => m' } := by
  cases valueMapper with
  | none =>
    simp only [Option.getD_none] at h
    simp only [namedInsert, h]
  | some m =>
    simp only [Option.getD_some] at h
    simp only [namedInsert, h]

theorem namedInsert_err_of_no_rows (target : Target) (tableName : String) (ps : List String)
    (valueMapper : Option GoMap) (h : rowsOf target = some []) :
    (namedInsert target tableName ps valueMapper).err ≠ none := by
  have hnil : ∀ elems : List Target, rowsOfElems elems = some [] → elems = [] := by
    intro elems he
    have := rowsOfElems_length elems [] he
    exact List.length_eq_zero.mp this.symm
  cases target with
  | struct fields => simp [rowsOf] at h
  | other v => simp [rowsOf] at h
  | slice elems =>
    simp only [rowsOf] at h
    rw [hnil elems h]
    cases valueMapper <;> simp [namedInsert, namedInsert.build, namedInsertSlice]
  | ptr elem =>
    cases elem with
    | none => simp [rowsOf] at h
    | some v =>
      cases v with
      | slice elems =>
        simp only [rowsOf] at h
        rw [hnil elems h]
        cases valueMapper <;> simp [namedInsert, namedInsert.build, namedInsertSlice]
      | struct fields => simp [rowsOf] at h
      | other x => simp [rowsOf] at h
      | ptr e => simp [rowsOf] at h

theorem Named_insertText (tableName : String) (ps : List String) (rows : List (List Field))
    (m : GoMap) (hres : rowsResolve ps 0 rows m = true)
    (hcols : ∀ c ∈ ps, ∀ ch ∈ c.data, ch.isAlphanum = true ∨ ch = '_')
    (htable : ':' ∉ tableName.data) :
    Named (insertText tableName ps rows.length) (mapAfterRows ps 0 rows m)
      = ("Insert into " ++ tableName ++ " (" ++ ",".intercalate ps ++ ") Values "
            ++ ",".intercalate (List.replicate rows.length
                ("(" ++ ",".intercalate (List.replicate ps.length "?") ++ ")")),
          some ((List.range rows.length).flatMap fun i =>
            ps.filterMap fun c => mapGet (mapAfterRows ps 0 rows m) (paramName c (Int.ofNat i))),
          none) := by
  have hsome : ∀ nm ∈ (List.range rows.length).flatMap
      (fun j => ps.map fun p => paramName p (Int.ofNat j)),
      (mapGet (mapAfterRows ps 0 rows m) nm).isSome := by
    intro nm hnm
    obtain ⟨i, hi, hmem⟩ := List.mem_flatMap.mp hnm
    obtain ⟨c, hc, rfl⟩ := List.mem_map.mp hmem
    have hi' : i < rows.length := List.mem_range.mp hi
    have := mapGet_mapAfterRows ps rows 0 m hres i hi' c hc
    rw [Nat.zero_add] at this
    rw [this]
    exact rowsResolve_isSome ps rows 0 m hres i hi' c hc
  simp only [Named, compileNamedQuery_insertText tableName ps rows.length hcols htable,
    bindMapArgs_ok _ _ _ hsome, List.nil_append, List.filterMap_flatMap, List.filterMap_map]
  rfl

/-! ### The claims -/

/-- C1: for every row index `i` and all `params`, `values` with
`len(values) >= len(params)`, `BuildInsertParams(m, i, params, values)` returns
`(` followed by `:<p>_<i>` for each `p` of `params` in order, joined by `,`,
followed by `)`, with one leading `,` exactly when `i > 0`; afterwards the map
holds under `<p>_<i>` the value at the position of `p` (for a repeated column,
that of its last occurrence) and every other key is unchanged. -/
theorem BuildInsertParams_spec (m : GoMap) (i : Int) (params : List String)
    (values : List GoVal) (hlen : params.length ≤ values.length) :
    ∃ m', BuildInsertParams m i params values
        = some ((if i > 0 then "," else "") ++
            ("(" ++ ",".intercalate (params.map fun p => ":" ++ p ++ "_" ++ Itoa i) ++ ")"), m')
      ∧ (∀ j (hj : j < params.length),
          (∀ j' (hj' : j' < params.length), j < j' → params[j'] ≠ params[j]) →
          mapGet m' (params[j] ++ "_" ++ Itoa i)
            = some (values.get ⟨j, Nat.lt_of_lt_of_le hj hlen⟩))
      ∧ (∀ key, (∀ p ∈ params, key ≠ p ++ "_" ++ Itoa i) → mapGet m' key = mapGet m key) := by
  obtain ⟨m', out', hloop, _, hzero, hlast, hframe⟩ :=
    BuildInsertParams_loop_spec (Itoa i) values params 0 "(" m (by omega)
  have hfun : (fun p : String => ":" ++ p ++ "_" ++ Itoa i)
      = fun p => ":" ++ (p ++ ("_" ++ Itoa i)) := by
    funext p; simp [String.append_assoc]
  refine ⟨m', ?_, ?_, ?_⟩
  · simp only [BuildInsertParams, hloop, hzero rfl, hfun]
    by_cases hi : i > 0 <;> simp [hi]
  · intro j hj hlastj
    have := hlast j hj
      (fun j' h1 h2 => by
        simp only [List.getElem?_eq_getElem h2, List.getElem?_eq_getElem hj, ne_eq,
          Option.some.injEq]
        exact hlastj j' h2 h1)
      params[j] (List.getElem?_eq_getElem hj)
    rw [String.append_assoc, this]
    simp [List.getElem?_eq_getElem (Nat.lt_of_lt_of_le hj hlen)]
  · intro key hkey
    exact hframe key (fun p hp => by simpa [String.append_assoc] using hkey p hp)

theorem BuildInsertParams_spec_witness :
    ["a", "b", "a"].length ≤ [GoVal.int 1, GoVal.int 2, GoVal.int 3].length
      ∧ ∃ m', BuildInsertParams [("a_1", GoVal.int 9)] 1 ["a", "b", "a"]
            [GoVal.int 1, GoVal.int 2, GoVal.int 3]
          = some ((if (1 : Int) > 0 then "," else "") ++
              ("(" ++ ",".intercalate (["a", "b", "a"].map fun p => ":" ++ p ++ "_" ++ Itoa 1)
                ++ ")"), m')
        ∧ (∀ j (hj : j < ["a", "b", "a"].length),
            (∀ j' (hj' : j' < ["a", "b", "a"].length), j < j' →
              ["a", "b", "a"][j'] ≠ ["a", "b", "a"][j]) →
            mapGet m' (["a", "b", "a"][j] ++ "_" ++ Itoa 1)
              = some ([GoVal.int 1, GoVal.int 2, GoVal.int 3].get
                  ⟨j, Nat.lt_of_lt_of_le hj (by decide)⟩))
        ∧ (∀ key, (∀ p ∈ ["a", "b", "a"], key ≠ p ++ "_" ++ Itoa 1) →
            mapGet m' key = mapGet [("a_1", GoVal.int 9)] key) :=
  ⟨by decide, BuildInsertParams_spec [("a_1", GoVal.int 9)] 1 ["a", "b", "a"]
    [GoVal.int 1, GoVal.int 2, GoVal.int 3] (by decide)⟩

/-- C2: for a target that normalises to `k ≥ 1` rows (a record or a pointer to
a record is one row, a sequence or a pointer to a sequence one row per element,
elements being records or pointers to records) whose requested columns all
resolve, the statement text built before the rebind step is
`Insert into <table> (c1,...,cn) Values ` followed by the `k` groups
`(:c1_i,...,:cn_i)`, `i = 0..k-1`, joined by `,`, in row and column order. -/
theorem namedInsert_statement_before_rebind (target : Target) (tableName : String)
    (params : List String) (valueMapper : Option GoMap) (rows : List (List Field))
    (hrows : rowsOf target = some rows) (hk : 1 ≤ rows.length)
    (hres : ∀ row ∈ rows, ∀ c ∈ params,
      (mapGet (valueMapper.getD []) c).isSome ∨ (∃ f ∈ row, f.name = c)
        ∨ (∃ f ∈ row, f.tag = some c)) :
    (namedInsert.build target tableName params (valueMapper.getD [])).1
      = Except.ok ("Insert into " ++ tableName ++ " (" ++ ",".intercalate params ++ ") Values "
          ++ ",".intercalate ((List.range rows.length).map fun i =>
              "(" ++ ",".intercalate (params.map fun c => ":" ++ c ++ "_" ++ Itoa (Int.ofNat i))
                ++ ")")) := by
  have hne : rows ≠ [] := by
    intro h
    subst h
    simp at hk
  rw [namedInsert_build_ok target tableName params _ rows hrows hne
    (rowsResolve_of_static params rows 0 _
      (fun row hr c hc => (resolveColumn_isSome_iff _ row c).mpr (hres row hr c hc)))]
  simp [insertText, groupText_eq]

theorem namedInsert_statement_before_rebind_witness :
    rowsOf twoPersons = some twoRows
      ∧ 1 ≤ twoRows.length
      ∧ (∀ row ∈ twoRows, ∀ c ∈ ["name", "location"],
          (mapGet ((some [("location", GoVal.str "China")] : Option GoMap).getD []) c).isSome
            ∨ (∃ f ∈ row, f.name = c) ∨ (∃ f ∈ row, f.tag = some c))
      ∧ (namedInsert.build twoPersons "person" ["name", "location"]
            ((some [("location", GoVal.str "China")] : Option GoMap).getD [])).1
          = Except.ok ("Insert into " ++ "person" ++ " (" ++ ",".intercalate ["name", "location"]
              ++ ") Values "
              ++ ",".intercalate ((List.range twoRows.length).map fun i =>
                  "(" ++ ",".intercalate
                    (["name", "location"].map fun c => ":" ++ c ++ "_" ++ Itoa (Int.ofNat i))
                    ++ ")")) :=
  ⟨rfl, by decide, by decide,
    namedInsert_statement_before_rebind twoPersons "person" ["name", "location"]
      (some [("location", GoVal.str "China")]) twoRows rfl (by decide) (by decide)⟩

theorem namedInsert_rebound_args (target : Target) (tableName : String) (params : List String)
    (valueMapper : Option GoMap) (rows : List (List Field))
    (hrows : rowsOf target = some rows)
    (hok : (namedInsert target tableName params valueMapper).err = none)
    (hcols : ∀ c ∈ params, ∀ ch ∈ c.data, ch.isAlphanum = true ∨ ch = '_')
    (htable : ':' ∉ tableName.data) :
    (namedInsert target tableName params valueMapper).query
        = "Insert into " ++ tableName ++ " (" ++ ",".intercalate params ++ ") Values "
            ++ ",".intercalate (List.replicate rows.length
                ("(" ++ ",".intercalate (List.replicate params.length "?") ++ ")"))
      ∧ ∃ args, (namedInsert target tableName params valueMapper).args = some args
          ∧ args.length = rows.length * params.length
          ∧ ∀ (i j : Nat) (hi : i < rows.length) (hj : j < params.length),
              args[i * params.length + j]?
                = resolveColumn (mapAfterRows params 0 (rows.take i) (valueMapper.getD []))
                    rows[i] params[j] := by
  have hne : rows ≠ [] := by
    intro h
    subst h
    exact namedInsert_err_of_no_rows target tableName params valueMapper hrows hok
  have hres : rowsResolve params 0 rows (valueMapper.getD []) = true := by
    cases hr : rowsResolve params 0 rows (valueMapper.getD []) with
    | true => rfl
    | false =>
      obtain ⟨e, m', he⟩ := namedInsert_build_fail target tableName params _ rows hrows hr
      rw [namedInsert_of_build_error _ _ _ _ _ _ he] at hok
      cases hok
  have hbuild := namedInsert_build_ok target tableName params _ rows hrows hne hres
  rw [namedInsert_of_build_ok _ _ _ _ _ _ hbuild,
    Named_insertText tableName params rows _ hres hcols htable]
  refine ⟨rfl, _, rfl, ?_, ?_⟩
  · exact flatMap_range_length _ params.length rows.length (fun i hi =>
      filterMap_length_of_isSome _ params (fun c hc => by
        have := mapGet_mapAfterRows params rows 0 _ hres i hi c hc
        rw [Nat.zero_add] at this
        rw [this]
        exact rowsResolve_isSome params rows 0 _ hres i hi c hc))
  · intro i j hi hj
    have hsome : ∀ i < rows.length, ∀ c ∈ params,
        (mapGet (mapAfterRows params 0 rows (valueMapper.getD []))
          (paramName c (Int.ofNat i))).isSome := by
      intro i hi c hc
      have := mapGet_mapAfterRows params rows 0 _ hres i hi c hc
      rw [Nat.zero_add] at this
      rw [this]
      exact rowsResolve_isSome params rows 0 _ hres i hi c hc
    rw [flatMap_range_getElem? _ params.length rows.length
      (fun i hi => filterMap_length_of_isSome _ params (hsome i hi)) i j hi hj,
      filterMap_getElem? _ params j hj (hsome i hi)]
    have := mapGet_mapAfterRows params rows 0 _ hres i hi params[j] (List.getElem_mem hj)
    rw [Nat.zero_add] at this
    exact this

theorem resolveColumn_congr_map {m m2 : GoMap} (fields : List Field) (c : String)
    (h : mapGet m c = mapGet m2 c) : resolveColumn m fields c = resolveColumn m2 fields c := by
  simp only [resolveColumn, h]

theorem mapGet_mapAfterRows_fresh (ps : List String) (rows : List (List Field)) (s : Nat)
    (m : GoMap) (key : String)
    (h : ∀ c ∈ ps, ∀ j : Nat, s ≤ j → j < s + rows.length → key ≠ paramName c (Int.ofNat j)) :
    mapGet (mapAfterRows ps s rows m) key = mapGet m key := by
  obtain ⟨l, hl, hk⟩ := mapAfterRows_extends ps rows s m
  rw [hl]
  apply mapGet_of_extends
  intro kv hkv heq
  obtain ⟨c, hc, j, h1, h2, h3⟩ := hk kv hkv
  exact h c hc j h1 h2 (by rw [← heq, h3])

/-- C3, counterexample: three calls that succeed. With the table name
`:name_0`, one row and the column `name`, the placeholder in the table name is
rebound too: the statement is not `Insert into :name_0 (name) Values (?)` and
the argument list has two elements instead of `1 * 1`. With two rows and the
columns `score`, `score_0`, the argument at position `1 * 2 + 1` is 1, the
value registered as `score_0` for column `score` of row 0, where column
`score_0` of row 1 resolves to 20. With the column `a\u05d0`, whose second
character is the Hebrew letter alef, and the override keys `a` and `a\u05d0`,
the name read by the rebind step ends before the letter: the statement ends
with `(?\u05d0_0)` and the argument is the value of the key `a`, not the value 2
resolved for the column. -/
theorem namedInsert_not_rebound_as_claimed :
    ((namedInsert (person 1 "Alpha" "Australia" true) ":name_0" ["name"] none).err = none
      ∧ (namedInsert (person 1 "Alpha" "Australia" true) ":name_0" ["name"] none).query
          = "Insert into ? (name) Values (?)"
      ∧ (namedInsert (person 1 "Alpha" "Australia" true) ":name_0" ["name"] none).query
          ≠ "Insert into " ++ ":name_0" ++ " (" ++ ",".intercalate ["name"] ++ ") Values "
              ++ ",".intercalate (List.replicate 1
                  ("(" ++ ",".intercalate (List.replicate 1 "?") ++ ")"))
      ∧ (namedInsert (person 1 "Alpha" "Australia" true) ":name_0" ["name"] none).args
          = some [GoVal.str "Alpha", GoVal.str "Alpha"])
    ∧ ((namedInsert twoScores "t" ["score", "score_0"] none).err = none
      ∧ (namedInsert twoScores "t" ["score", "score_0"] none).query
          = "Insert into t (score,score_0) Values (?,?),(?,?)"
      ∧ (namedInsert twoScores "t" ["score", "score_0"] none).args
          = some [GoVal.int 1, GoVal.int 10, GoVal.int 2, GoVal.int 1]
      ∧ rowsOf twoScores = some [scoreFields 1 10, scoreFields 2 20]
      ∧ resolveColumn [] (scoreFields 2 20) "score_0" = some (GoVal.int 20))
    ∧ ((namedInsert (person 1 "Alpha" "Australia" true) "person" ["a\u05d0"]
          (some [("a", GoVal.int 1), ("a\u05d0", GoVal.int 2)])).err = none
      ∧ (namedInsert (person 1 "Alpha" "Australia" true) "person" ["a\u05d0"]
          (some [("a", GoVal.int 1), ("a\u05d0", GoVal.int 2)])).query
          = "Insert into person (a\u05d0) Values (?\u05d0_0)"
      ∧ (namedInsert (person 1 "Alpha" "Australia" true) "person" ["a\u05d0"]
          (some [("a", GoVal.int 1), ("a\u05d0", GoVal.int 2)])).args
          = some [GoVal.int 1]
      ∧ resolveColumn [("a", GoVal.int 1), ("a\u05d0", GoVal.int 2)]
          (personFields 1 "Alpha" "Australia" true) "a\u05d0" = some (GoVal.int 2)) := by
  decide

/-- C3, amended: for every successful `namedInsert` call on `k` rows and `n`
columns whose names consist of ASCII letters, digits and underscores, none of
them being the generated name `<c>_<i>` of a requested column `c` and a row `i`
that has a row after it, with a table name that contains no `:`, the returned
statement is `Insert into <table> (c1,...,cn) Values ` followed by `k`
comma-joined groups of `n` `?` placeholders, and the returned argument list has
length `k * n`, its element at position `i * n + j` being the value resolved
for column `j` of row `i`: the value of the caller's override map for the
column, else the value of the row's field of that name, else the value of the
row's field with that `db` tag. -/
theorem namedInsert_rebound (target : Target) (tableName : String) (params : List String)
    (valueMapper : Option GoMap) (rows : List (List Field))
    (hrows : rowsOf target = some rows)
    (hok : (namedInsert target tableName params valueMapper).err = none)
    (hcols : ∀ c ∈ params, ∀ ch ∈ c.data, ch.isAlphanum = true ∨ ch = '_')
    (hfresh : ∀ c ∈ params, ∀ c2 ∈ params, ∀ i : Nat, i + 1 < rows.length →
      c ≠ c2 ++ "_" ++ Itoa (Int.ofNat i))
    (htable : ':' ∉ tableName.data) :
    (namedInsert target tableName params valueMapper).query
        = "Insert into " ++ tableName ++ " (" ++ ",".intercalate params ++ ") Values "
            ++ ",".intercalate (List.replicate rows.length
                ("(" ++ ",".intercalate (List.replicate params.length "?") ++ ")"))
      ∧ ∃ args, (namedInsert target tableName params valueMapper).args = some args
          ∧ args.length = rows.length * params.length
          ∧ ∀ (i j : Nat) (hi : i < rows.length) (hj : j < params.length),
              args[i * params.length + j]?
                = resolveColumn (valueMapper.getD []) rows[i] params[j] := by
  obtain ⟨hq, args, hargs, hlen, hval⟩ :=
    namedInsert_rebound_args target tableName params valueMapper rows hrows hok hcols htable
  refine ⟨hq, args, hargs, hlen, ?_⟩
  intro i j hi hj
  rw [hval i j hi hj]
  apply resolveColumn_congr_map
  apply mapGet_mapAfterRows_fresh
  intro c hc r _ hr
  rw [paramName_eq]
  apply hfresh params[j] (List.getElem_mem hj) c hc r
  rw [List.length_take] at hr
  omega

theorem namedInsert_rebound_witness :
    rowsOf twoPersons = some twoRows
      ∧ (namedInsert twoPersons "person" ["name", "location"]
          (some [("location", GoVal.str "China")])).err = none
      ∧ (∀ c ∈ ["name", "location"], ∀ ch ∈ c.data, ch.isAlphanum = true ∨ ch = '_')
      ∧ (∀ c ∈ ["name", "location"], ∀ c2 ∈ ["name", "location"], ∀ i : Nat,
          i + 1 < twoRows.length → c ≠ c2 ++ "_" ++ Itoa (Int.ofNat i))
      ∧ ':' ∉ "person".data
      ∧ ((namedInsert twoPersons "person" ["name", "location"]
            (some [("location", GoVal.str "China")])).query
          = "Insert into " ++ "person" ++ " (" ++ ",".intercalate ["name", "location"]
              ++ ") Values "
              ++ ",".intercalate (List.replicate twoRows.length
                  ("(" ++ ",".intercalate (List.replicate ["name", "location"].length "?")
                    ++ ")"))
        ∧ ∃ args, (namedInsert twoPersons "person" ["name", "location"]
              (some [("location", GoVal.str "China")])).args = some args
            ∧ args.length = twoRows.length * ["name", "location"].length
            ∧ ∀ (i j : Nat) (hi : i < twoRows.length) (hj : j < ["name", "location"].length),
                args[i * ["name", "location"].length + j]?
                  = resolveColumn
                      ((some [("location", GoVal.str "China")] : Option GoMap).getD [])
                      twoRows[i] ["name", "location"][j]) :=
  ⟨rfl, by decide, by decide,
    fun c hc c2 hc2 i hi => by
      have h0 : i = 0 := by
        simp only [twoRows, List.length_cons, List.length_nil] at hi
        omega
      subst h0
      revert c c2
      decide,
    by decide,
    namedInsert_rebound twoPersons "person" ["name", "location"]
      (some [("location", GoVal.str "China")]) twoRows rfl (by decide) (by decide)
      (fun c hc c2 hc2 i hi => by
        have h0 : i = 0 := by
          simp only [twoRows, List.length_cons, List.length_nil] at hi
          omega
        subst h0
        revert c c2
        decide)
      (by decide)⟩

/-- C4, the code at the failing input: two rows `{Score: 1, Score0: 10}` and
`{Score: 2, Score0: 20}`, columns `score` and `score_0`, no override map. The
claim's order gives row 1 the value 20 of its own field tagged `score_0` (the
caller's map has no such key); the build binds 1, the value registered as
`score_0` for column `score` of row 0. -/
theorem namedInsert_reads_generated_param :
    namedInsert twoScores "t" ["score", "score_0"] none
        = { query := "Insert into t (score,score_0) Values (?,?),(?,?)",
            args := some [GoVal.int 1, GoVal.int 10, GoVal.int 2, GoVal.int 1],
            err := none, valueMapper := none }
      ∧ resolveColumn [] (scoreFields 2 20) "score_0" = some (GoVal.int 20) := by
  decide

/-- C5, the code at the failing input: the same two rows and columns with the
override map `{"score_0": "X"}`. Row 0 binds the override `"X"` for `score_0`;
registering column `score` of row 0 as `score_0` replaces the override, and row
1 binds 1 for `score_0` instead of `"X"`. -/
theorem namedInsert_override_replaced :
    (namedInsert twoScores "t" ["score", "score_0"]
        (some [("score_0", GoVal.str "X")])).args
      = some [GoVal.int 1, GoVal.str "X", GoVal.int 2, GoVal.int 1] := by
  decide

/-- C6: when the first row of the target is a non-nil record and some
requested column is neither a key of the override map, nor a field name of the
record, nor a `db` tag of one of its fields, `namedInsert` fails with the
`MissingParamErr` "param '<c>' not found" for the first such column `c` in
request order, with the empty statement and a nil argument list. -/
theorem namedInsert_missing_param (target : Target) (tableName : String)
    (pre post : List String) (c : String) (valueMapper : Option GoMap) (fields : List Field)
    (hfirst : firstRow target = some fields)
    (hpre : ∀ p ∈ pre, (mapGet (valueMapper.getD []) p).isSome ∨ (∃ f ∈ fields, f.name = p)
      ∨ (∃ f ∈ fields, f.tag = some p))
    (hc : mapGet (valueMapper.getD []) c = none ∧ (∀ f ∈ fields, f.name ≠ c)
      ∧ (∀ f ∈ fields, f.tag ≠ some c)) :
    namedInsert target tableName (pre ++ c :: post) valueMapper
      = { query := "", args := none,
          err := some (Failure.MissingParamErr ("param '" ++ c ++ "' not found")),
          valueMapper := valueMapper } := by
  rw [namedInsert_of_build_error target tableName _ valueMapper _ _
    (namedInsert_build_first_missing target tableName fields pre post c _ hfirst
      (fun p hp => (resolveColumn_isSome_iff _ fields p).mpr (hpre p hp))
      ((resolveColumn_eq_none_iff _ fields c).mpr hc)), map_const_getD]

theorem namedInsert_missing_param_witness :
    firstRow twoPersons = some (personFields 1 "Alpha" "Australia" true)
      ∧ (∀ p ∈ ["name", "location", "is_alive"],
          (mapGet ((some [] : Option GoMap).getD []) p).isSome
            ∨ (∃ f ∈ personFields 1 "Alpha" "Australia" true, f.name = p)
            ∨ (∃ f ∈ personFields 1 "Alpha" "Australia" true, f.tag = some p))
      ∧ (mapGet ((some [] : Option GoMap).getD []) "unknown_param" = none
          ∧ (∀ f ∈ personFields 1 "Alpha" "Australia" true, f.name ≠ "unknown_param")
          ∧ (∀ f ∈ personFields 1 "Alpha" "Australia" true, f.tag ≠ some "unknown_param"))
      ∧ namedInsert twoPersons "person"
            (["name", "location", "is_alive"] ++ "unknown_param" :: ["id"]) (some [])
          = { query := "", args := none,
              err := some
                (Failure.MissingParamErr ("param '" ++ "unknown_param" ++ "' not found")),
              valueMapper := some [] } :=
  ⟨rfl, by decide, by decide,
    namedInsert_missing_param twoPersons "person" ["name", "location", "is_alive"] ["id"]
      "unknown_param" (some []) (personFields 1 "Alpha" "Australia" true) rfl (by decide)
      (by decide)⟩

/-- C7: for a sequence target of length 0, passed directly or through a
non-nil pointer, and every table name, column list and override map,
`namedInsert` fails with `EmptySliceErr` ("target slice is empty") and returns
the empty statement text and a nil argument list. -/
theorem namedInsert_empty_slice (tableName : String) (params : List String)
    (valueMapper : Option GoMap) :
    namedInsert (Target.slice []) tableName params valueMapper
        = { query := "", args := none,
            err := some (Failure.EmptySliceErr "target slice is empty"),
            valueMapper := valueMapper }
      ∧ namedInsert (Target.ptr (some (Target.slice []))) tableName params valueMapper
        = { query := "", args := none,
            err := some (Failure.EmptySliceErr "target slice is empty"),
            valueMapper := valueMapper } := by
  cases valueMapper <;> exact ⟨rfl, rfl⟩

/-- C8: `namedInsert` fails with `NilPointerErr`, the empty statement and a nil
argument list when the target is a nil pointer, and when the target is a
sequence (passed directly or through a pointer) whose element at position
`j = pre.length` is a nil pointer while the rows before it all resolve. In the
sequence case no row after the nil one is processed: the outcome does not
depend on the elements `post` that follow it, and the map the build wrote to
differs from the map it started with only at parameter names `<c>_<i>` of rows
`i < j`. -/
theorem namedInsert_nil_pointer (tableName : String) (params : List String)
    (valueMapper : Option GoMap) (pre post : List Target) (rows : List (List Field))
    (hrows : rowsOfElems pre = some rows)
    (hres : ∀ row ∈ rows, ∀ c ∈ params,
      (mapGet (valueMapper.getD []) c).isSome ∨ (∃ f ∈ row, f.name = c)
        ∨ (∃ f ∈ row, f.tag = some c)) :
    namedInsert (Target.ptr none) tableName params valueMapper
        = { query := "", args := none,
            err := some (Failure.NilPointerErr "nil pointer passed to namedInsert target"),
            valueMapper := valueMapper }
      ∧ (∀ target, target = Target.slice (pre ++ Target.ptr none :: post)
            ∨ target = Target.ptr (some (Target.slice (pre ++ Target.ptr none :: post))) →
          ∃ m', namedInsert target tableName params valueMapper
              = { query := "", args := none,
                  err := some
                    (Failure.NilPointerErr "nil pointer passed to namedInsertSlice target"),
                  valueMapper := valueMapper.map fun _ => m' }
            ∧ namedInsert target tableName params valueMapper
              = namedInsert (Target.slice (pre ++ [Target.ptr none])) tableName params valueMapper
            ∧ ∀ key, (∀ c ∈ params, ∀ i < pre.length, key ≠ c ++ "_" ++ Itoa (Int.ofNat i)) →
                mapGet m' key = mapGet (valueMapper.getD []) key) := by
  have hdyn := rowsResolve_of_static params rows 0 (valueMapper.getD [])
    (fun row hr c hc => (resolveColumn_isSome_iff _ row c).mpr (hres row hr c hc))
  refine ⟨by cases valueMapper <;> rfl, ?_⟩
  intro target htarget
  have hb : ∀ tail : List Target,
      namedInsert.build (Target.slice (pre ++ Target.ptr none :: tail)) tableName params
          (valueMapper.getD [])
        = (Except.error (Failure.NilPointerErr "nil pointer passed to namedInsertSlice target"),
            mapAfterRows params 0 rows (valueMapper.getD [])) := by
    intro tail
    simp only [namedInsert.build,
      namedInsertSlice_nil_at params pre tail rows _ hrows hdyn]
  have hb' : namedInsert.build target tableName params (valueMapper.getD [])
        = (Except.error (Failure.NilPointerErr "nil pointer passed to namedInsertSlice target"),
            mapAfterRows params 0 rows (valueMapper.getD [])) := by
    rcases htarget with h | h
    · rw [h]; exact hb post
    · rw [h]
      simp only [namedInsert.build,
        namedInsertSlice_nil_at params pre post rows _ hrows hdyn]
  refine ⟨mapAfterRows params 0 rows (valueMapper.getD []), ?_, ?_, ?_⟩
  · exact namedInsert_of_build_error _ _ _ _ _ _ hb'
  · rw [namedInsert_of_build_error _ _ _ _ _ _ hb',
      namedInsert_of_build_error _ _ _ _ _ _ (hb [])]
  · intro key hkey
    obtain ⟨l, hl, hk⟩ := mapAfterRows_extends params rows 0 (valueMapper.getD [])
    rw [hl]
    apply mapGet_of_extends
    intro kv hkv heq
    obtain ⟨c, hc, j, _, hj, hcc⟩ := hk kv hkv
    rw [rowsOfElems_length pre rows hrows] at hj
    apply hkey c hc j (by omega)
    rw [← heq, hcc, paramName_eq]

theorem namedInsert_nil_pointer_witness :
    rowsOfElems [Target.ptr (some (person 1 "Alpha" "Australia" true))]
        = some [personFields 1 "Alpha" "Australia" true]
      ∧ (∀ row ∈ [personFields 1 "Alpha" "Australia" true], ∀ c ∈ ["name", "location"],
          (mapGet ((some [] : Option GoMap).getD []) c).isSome ∨ (∃ f ∈ row, f.name = c)
            ∨ (∃ f ∈ row, f.tag = some c))
      ∧ (namedInsert (Target.ptr none) "person" ["name", "location"] (some [])
          = { query := "", args := none,
              err := some (Failure.NilPointerErr "nil pointer passed to namedInsert target"),
              valueMapper := some [] }
        ∧ (∀ target,
            target = Target.slice
                ([Target.ptr (some (person 1 "Alpha" "Australia" true))] ++ Target.ptr none ::
                  [Target.ptr (some (person 2 "Beta" "France" false))])
              ∨ target = Target.ptr (some (Target.slice
                ([Target.ptr (some (person 1 "Alpha" "Australia" true))] ++ Target.ptr none ::
                  [Target.ptr (some (person 2 "Beta" "France" false))]))) →
            ∃ m', namedInsert target "person" ["name", "location"] (some [])
                = { query := "", args := none,
                    err := some
                      (Failure.NilPointerErr "nil pointer passed to namedInsertSlice target"),
                    valueMapper := (some ([] : GoMap)).map fun _ => m' }
              ∧ namedInsert target "person" ["name", "location"] (some [])
                = namedInsert (Target.slice
                    ([Target.ptr (some (person 1 "Alpha" "Australia" true))]
                      ++ [Target.ptr none]))
                    "person" ["name", "location"] (some [])
              ∧ ∀ key, (∀ c ∈ ["name", "location"],
                    ∀ i < [Target.ptr (some (person 1 "Alpha" "Australia" true))].length,
                      key ≠ c ++ "_" ++ Itoa (Int.ofNat i)) →
                  mapGet m' key = mapGet ((some ([] : GoMap)).getD []) key)) :=
  ⟨rfl, by decide,
    namedInsert_nil_pointer "person" ["name", "location"] (some [])
      [Target.ptr (some (person 1 "Alpha" "Australia" true))]
      [Target.ptr (some (person 2 "Beta" "France" false))]
      [personFields 1 "Alpha" "Australia" true] rfl (by decide)⟩

/-- C9: `namedInsert` fails with `WrongTypeErr`, the empty statement and a nil
argument list, (1) with the message "target type not accepted" for every target
that, one level of pointer indirection removed, is neither record-shaped nor
sequence-shaped, and (2) with the message "not a struct" for every non-empty
sequence (passed directly or through a pointer) whose first element, its
pointers removed, is not record-shaped. -/
theorem namedInsert_wrong_type (target : Target) (tableName : String) (params : List String)
    (valueMapper : Option GoMap) :
    (∀ v, indirect target = some v → isStruct v = false → isSlice v = false →
      namedInsert target tableName params valueMapper
        = { query := "", args := none,
            err := some (Failure.WrongTypeErr "target type not accepted"),
            valueMapper := valueMapper })
    ∧ (∀ first rest v,
        target = Target.slice (first :: rest)
          ∨ target = Target.ptr (some (Target.slice (first :: rest))) →
        elemValue first = some v → isStruct v = false →
        namedInsert target tableName params valueMapper
          = { query := "", args := none, err := some (Failure.WrongTypeErr "not a struct"),
              valueMapper := valueMapper }) := by
  constructor
  · intro v hv hs hl
    have hb : namedInsert.build target tableName params (valueMapper.getD [])
        = (Except.error (Failure.WrongTypeErr "target type not accepted"),
            valueMapper.getD []) := by
      cases target with
      | struct fields => simp [indirect] at hv; subst hv; simp [isStruct] at hs
      | slice elems => simp [indirect] at hv; subst hv; simp [isSlice] at hl
      | other x => rfl
      | ptr elem =>
        cases elem with
        | none => simp [indirect] at hv
        | some w =>
          simp only [indirect, Option.some.injEq] at hv
          subst hv
          cases w with
          | struct fields => simp [isStruct] at hs
          | slice elems => simp [isSlice] at hl
          | other x => rfl
          | ptr e => rfl
    rw [namedInsert_of_build_error _ _ _ _ _ _ hb, map_const_getD]
  · intro first rest v htarget hv hs
    have hitem : ∀ m : GoMap, namedInsertSlice (first :: rest) params m
        = (Except.error (Failure.WrongTypeErr "not a struct"), m) := by
      intro m
      simp only [namedInsertSlice, List.length_cons, Nat.add_one_ne_zero, if_false]
      cases first with
      | struct fields => simp [elemValue, indirect] at hv; subst hv; simp [isStruct] at hs
      | slice elems => rfl
      | other x => rfl
      | ptr elem =>
        cases elem with
        | none => simp [elemValue, indirect] at hv
        | some w =>
          cases w with
          | struct fields => simp [elemValue, indirect] at hv; subst hv; simp [isStruct] at hs
          | slice elems => rfl
          | other x => rfl
          | ptr e =>
            cases e with
            | none => simp [elemValue, indirect] at hv
            | some u =>
              simp only [elemValue, indirect, Option.some.injEq] at hv
              subst hv
              cases u with
              | struct fields => simp [isStruct] at hs
              | slice elems => rfl
              | other x => rfl
              | ptr e2 => rfl
    have hb : namedInsert.build target tableName params (valueMapper.getD [])
        = (Except.error (Failure.WrongTypeErr "not a struct"), valueMapper.getD []) := by
      rcases htarget with h | h <;> subst h <;> simp only [namedInsert.build, hitem]
    rw [namedInsert_of_build_error _ _ _ _ _ _ hb, map_const_getD]

theorem namedInsert_wrong_type_witness :
    namedInsert (Target.other (GoVal.str "data_1")) "person" ["name", "is_alive"] (some [])
        = { query := "", args := none,
            err := some (Failure.WrongTypeErr "target type not accepted"),
            valueMapper := some [] }
      ∧ namedInsert
          (Target.slice [Target.other (GoVal.str "data_1"), Target.other (GoVal.str "data_2")])
          "person" ["name", "is_alive"] (some [])
        = { query := "", args := none, err := some (Failure.WrongTypeErr "not a struct"),
            valueMapper := some [] } :=
  ⟨(namedInsert_wrong_type (Target.other (GoVal.str "data_1")) "person" ["name", "is_alive"]
      (some [])).1 (Target.other (GoVal.str "data_1")) rfl rfl rfl,
   (namedInsert_wrong_type
      (Target.slice [Target.other (GoVal.str "data_1"), Target.other (GoVal.str "data_2")])
      "person" ["name", "is_alive"] (some [])).2
      (Target.other (GoVal.str "data_1")) [Target.other (GoVal.str "data_2")]
      (Target.other (GoVal.str "data_1")) (Or.inl rfl) rfl rfl⟩

/-- C10, counterexample: called on one record with the column `name` and an
empty, non-nil override map, `namedInsert` leaves the key `name_0` in the
caller's map, which did not hold it before the call. -/
theorem namedInsert_writes_override_map :
    ((namedInsert (person 1 "Alpha" "Australia" true) "person" ["name"] (some [])).valueMapper.bind
        fun m' => mapGet m' "name_0") = some (GoVal.str "Alpha")
      ∧ mapGet ([] : GoMap) "name_0" = none := by
  decide

/-- C10, amended: a nil override map stays nil; a non-nil override map is the
map the build writes its generated parameters to, and after the call
(successful or failing) it still holds every key it held before, and every key
that is not a generated parameter name `<c>_<i>` (`c` a requested column, `i` a
row index) has the value it had before the call. -/
theorem namedInsert_override_map_frame (target : Target) (tableName : String)
    (params : List String) :
    (namedInsert target tableName params none).valueMapper = none
      ∧ ∀ m : GoMap, ∃ m',
          (namedInsert target tableName params (some m)).valueMapper = some m'
          ∧ (∀ key, (mapGet m key).isSome → (mapGet m' key).isSome)
          ∧ (∀ key, (∀ c ∈ params, ∀ i : Nat, key ≠ c ++ "_" ++ Itoa (Int.ofNat i)) →
              mapGet m' key = mapGet m key) := by
  constructor
  · simp only [namedInsert]
    cases namedInsert.build target tableName params [] with
    | mk r m' =>
      cases r with
      | error e => rfl
      | ok q => rfl
  · intro m
    cases hb : namedInsert.build target tableName params m with
    | mk r m' =>
      obtain ⟨l, hl, hk⟩ := namedInsert_build_extends target tableName params m m' r hb
      refine ⟨m', ?_, ?_, ?_⟩
      · simp only [namedInsert, hb]
        cases r with
        | error e => rfl
        | ok q => rfl
      · intro key hkey
        rw [hl]
        exact mapGet_isSome_of_extends l m key hkey
      · intro key hkey
        rw [hl]
        apply mapGet_of_extends
        intro kv hkv heq
        obtain ⟨c, hc, j, hcc⟩ := hk kv hkv
        apply hkey c hc j
        rw [← heq, hcc, paramName_eq]

theorem namedInsert_override_map_frame_witness :
    ∃ m', (namedInsert twoPersons "person" ["name"]
          (some [("location", GoVal.str "China")])).valueMapper = some m'
      ∧ mapGet m' "location" = some (GoVal.str "China") := by
  obtain ⟨m', h1, _, h3⟩ :=
    (namedInsert_override_map_frame twoPersons "person" ["name"]).2
      [("location", GoVal.str "China")]
  refine ⟨m', h1, ?_⟩
  rw [h3 "location" (by
    intro c hc i h
    simp only [List.mem_singleton] at hc
    subst hc
    have := congrArg String.data h
    simp [String.data_append] at this)]
  decide

/-! ### The names a build registers -/

theorem namedInsert_build_no_rows (target : Target) (tableName : String) (ps : List String)
    (m : GoMap) (h : rowsOf target = some []) :
    ∃ e m', namedInsert.build target tableName ps m = (Except.error e, m') := by
  have hnil : ∀ elems : List Target, rowsOfElems elems = some [] → elems = [] := by
    intro elems he
    have := rowsOfElems_length elems [] he
    exact List.length_eq_zero.mp this.symm
  cases target with
  | struct fields => simp [rowsOf] at h
  | other v => simp [rowsOf] at h
  | slice elems =>
    simp only [rowsOf] at h
    rw [hnil elems h]
    exact ⟨_, _, by simp only [namedInsert.build, namedInsertSlice]; rfl⟩
  | ptr elem =>
    cases elem with
    | none => simp [rowsOf] at h
    | some v =>
      cases v with
      | slice elems =>
        simp only [rowsOf] at h
        rw [hnil elems h]
        exact ⟨_, _, by simp only [namedInsert.build, namedInsertSlice]; rfl⟩
      | struct fields => simp [rowsOf] at h
      | other x => simp [rowsOf] at h
      | ptr e => simp [rowsOf] at h

theorem namedInsert_build_ok_inv (target : Target) (tableName : String) (ps : List String)
    (m : GoMap) (rows : List (List Field)) (q : String) (hrows : rowsOf target = some rows)
    (hok : (namedInsert.build target tableName ps m).1 = Except.ok q) :
    rows ≠ [] ∧ rowsResolve ps 0 rows m = true := by
  constructor
  · intro hnil
    subst hnil
    obtain ⟨e, m', he⟩ := namedInsert_build_no_rows target tableName ps m hrows
    rw [he] at hok
    cases hok
  · cases hres : rowsResolve ps 0 rows m with
    | true => rfl
    | false =>
      obtain ⟨e, m', he⟩ := namedInsert_build_fail target tableName ps m rows hrows hres
      rw [he] at hok
      cases hok

theorem mapAfterRows_writes (ps : List String) :
    ∀ (rows : List (List Field)) (s : Nat) (m : GoMap), rowsResolve ps s rows m = true →
      ∃ l, mapAfterRows ps s rows m = l ++ m ∧
        l.map Prod.fst = ((List.range' s rows.length).flatMap fun i =>
          ps.map fun c => paramName c (Int.ofNat i)).reverse := by
  intro rows
  induction rows with
  | nil => intro s m _; exact ⟨[], by simp [mapAfterRows], by simp⟩
  | cons row rest ih =>
    intro s m h
    simp only [rowsResolve, Bool.and_eq_true, List.all_eq_true] at h
    obtain ⟨l, hl, hk⟩ := ih (s + 1) _ h.2
    refine ⟨l ++ ((ps.map fun p => paramName p (Int.ofNat s)).zip
      (ps.filterMap (resolveColumn m row))).reverse, ?_, ?_⟩
    · rw [mapAfterRows, hl, registered, List.append_assoc]
    · have hlen : (ps.map fun p => paramName p (Int.ofNat s)).length
          ≤ (ps.filterMap (resolveColumn m row)).length := by
        rw [filterMap_length_of_isSome _ _ h.1, List.length_map]
      rw [List.map_append, hk, List.map_reverse, List.map_fst_zip _ _ hlen, List.length_cons,
        List.range'_succ, List.flatMap_cons, List.reverse_append]

theorem paramNames_nodup (ps : List String) (hnodup : ps.Nodup) (s k : Nat) :
    ((List.range' s k).flatMap fun i => ps.map fun c => paramName c (Int.ofNat i)).Nodup := by
  rw [List.nodup_flatMap]
  constructor
  · intro i _
    exact hnodup.map (fun a b hab => (paramName_inj hab).1)
  · refine (List.nodup_range' s k).pairwise_of_forall_ne ?_
    intro i _ j _ hij
    simp only [Function.onFun]
    rw [List.disjoint_left]
    intro name hi hj
    obtain ⟨c, _, hc⟩ := List.mem_map.mp hi
    obtain ⟨c', _, hc'⟩ := List.mem_map.mp hj
    exact hij (paramName_inj (hc.trans hc'.symm)).2

/-- C11: generated parameter names are unique. The name `<c>_<i>` determines
the column `c` and the row index `i >= 0`. A successful build for pairwise
distinct columns `params` over the rows `rows` of the target leaves the map it
was given with `rows.length * params.length` bindings written in front of it;
the names written are pairwise distinct (each is written once), and they are
exactly the names `<c>_<i>` with `c` a requested column and `i` the index of a
row. -/
theorem generated_param_names_unique (target : Target) (tableName : String)
    (params : List String) (m : GoMap) (rows : List (List Field)) (q : String)
    (hnodup : params.Nodup) (hrows : rowsOf target = some rows)
    (hok : (namedInsert.build target tableName params m).1 = Except.ok q) :
    (∀ (c1 c2 : String) (i j : Nat),
        c1 ++ "_" ++ Itoa (Int.ofNat i) = c2 ++ "_" ++ Itoa (Int.ofNat j) → c1 = c2 ∧ i = j)
    ∧ ∃ writes : GoMap,
        (namedInsert.build target tableName params m).2 = writes ++ m
        ∧ writes.length = rows.length * params.length
        ∧ (writes.map Prod.fst).Nodup
        ∧ ∀ name, name ∈ writes.map Prod.fst
            ↔ ∃ c ∈ params, ∃ i < rows.length, name = c ++ "_" ++ Itoa (Int.ofNat i) := by
  constructor
  · intro c1 c2 i j h
    rw [← paramName_eq, ← paramName_eq] at h
    exact paramName_inj h
  · obtain ⟨hne, hres⟩ := namedInsert_build_ok_inv target tableName params m rows q hrows hok
    obtain ⟨l, hl, hk⟩ := mapAfterRows_writes params rows 0 m hres
    refine ⟨l, ?_, ?_, ?_, ?_⟩
    · rw [namedInsert_build_ok target tableName params m rows hrows hne hres]
      exact hl
    · have := congrArg List.length hk
      rw [List.length_map, List.length_reverse, ← List.range_eq_range',
        flatMap_range_length _ params.length rows.length (fun i _ => by simp)] at this
      exact this
    · rw [hk, List.nodup_reverse]
      exact paramNames_nodup params hnodup 0 rows.length
    · intro name
      rw [hk, List.mem_reverse, List.mem_flatMap]
      constructor
      · rintro ⟨i, hi, hname⟩
        obtain ⟨c, hc, hcc⟩ := List.mem_map.mp hname
        rw [List.mem_range'_1] at hi
        exact ⟨c, hc, i, by omega, by rw [← hcc, paramName_eq]⟩
      · rintro ⟨c, hc, i, hi, hname⟩
        refine ⟨i, by rw [List.mem_range'_1]; omega, List.mem_map.mpr ⟨c, hc, ?_⟩⟩
        rw [hname, paramName_eq]

theorem generated_param_names_unique_witness :
    ["name", "location"].Nodup ∧ rowsOf twoPersons = some twoRows
      ∧ (namedInsert.build twoPersons "person" ["name", "location"] []).1
          = Except.ok (insertText "person" ["name", "location"] 2)
      ∧ ∃ writes : GoMap,
          (namedInsert.build twoPersons "person" ["name", "location"] []).2 = writes ++ []
          ∧ writes.length = twoRows.length * ["name", "location"].length
          ∧ (writes.map Prod.fst).Nodup
          ∧ ∀ name, name ∈ writes.map Prod.fst
              ↔ ∃ c ∈ ["name", "location"], ∃ i < twoRows.length,
                  name = c ++ "_" ++ Itoa (Int.ofNat i) :=
  ⟨by decide, by decide, rfl,
    (generated_param_names_unique twoPersons "person" ["name", "location"] [] twoRows
      (insertText "person" ["name", "location"] 2) (by decide) (by decide) rfl).2⟩

/-! ### The logging pipeline -/

theorem logMsg_eq (env : LogEnv) (tick : Nat) (logger : Logger) (level query : String)
    (execTime : Int) (err : Option String) (args : List GoVal) :
    logMsg env tick logger level query execTime err args
      = match env.marshalErr (parseQuery.record env tick level query execTime err args) with
        | some e => (some e, [])
        | none => (none, [(logger, parseQuery.record env tick level query execTime err args)]) := by
  simp only [logMsg, parseQuery]
  cases h : env.marshalErr (parseQuery.record env tick level query execTime err args) <;> rfl

theorem parseQuery_record_Level (env : LogEnv) (tick : Nat) (level query : String)
    (execTime : Int) (err : Option String) (args : List GoVal) :
    (parseQuery.record env tick level query execTime err args).Level = level := rfl

theorem parseQuery_record_Args (env : LogEnv) (tick : Nat) (level query : String)
    (execTime : Int) (err : Option String) (args : List GoVal) :
    (parseQuery.record env tick level query execTime err args).Args = args := rfl

theorem DBX_log_levels (env : LogEnv) (dbx : DBX) (query : String) (execTime : Int)
    (err : Option String) (args : List GoVal) (hskip : dbx.skipLog = false)
    (hok : (DBX.log env dbx query execTime err args).err = none) :
    (DBX.log env dbx query execTime err args).writes.map (fun w => (some w.1, w.2.Level))
      = (if err.isSome ∧ dbx.errorLog.isSome then [(dbx.errorLog, LevelError)] else [])
        ++ (if execTime ≥ dbx.slowLogMin ∧ dbx.slowLog.isSome
              then [(dbx.slowLog, LevelSlowQuery)] else [])
        ++ (if dbx.debugLog.isSome then [(dbx.debugLog, LevelDebug)] else []) := by
  revert hok
  simp only [DBX.log, hskip, logMsg_eq]
  cases err <;> cases dbx.errorLog <;> cases dbx.slowLog <;> cases dbx.debugLog <;>
    by_cases hd : execTime ≥ dbx.slowLogMin <;>
    simp only [hd, if_true, if_false, Bool.false_eq_true, List.length_nil, List.nil_append,
      Option.isSome_none, Option.isSome_some, and_true, and_false, and_self, true_and,
      false_and, List.append_nil, List.map_nil, List.length_cons, List.length_singleton,
      List.length_append, imp_self, implies_true] <;>
    (try (cases h1 : env.marshalErr _ <;>
      simp only [h1, List.length_nil, List.nil_append, List.length_cons, List.length_singleton,
        List.length_append, List.map_cons, List.map_nil, parseQuery_record_Level,
        List.cons_append, List.singleton_append, reduceCtorEq, false_implies, implies_true,
        imp_self] <;>
      (try (cases h2 : env.marshalErr _ <;>
        simp only [h2, List.length_nil, List.nil_append, List.length_cons,
          List.length_singleton, List.length_append, List.map_cons, List.map_nil,
          parseQuery_record_Level, List.cons_append, List.singleton_append, reduceCtorEq,
          false_implies, implies_true, imp_self] <;>
        (try (cases h3 : env.marshalErr _ <;>
          simp only [h3, List.length_nil, List.nil_append, List.length_cons,
            List.length_singleton, List.length_append, List.map_cons, List.map_nil,
            parseQuery_record_Level, List.cons_append, List.singleton_append, reduceCtorEq,
            false_implies, implies_true, imp_self]))))))

theorem Tx_log_levels (env : LogEnv) (tx : Tx) (query : String) (execTime : Int)
    (err : Option String) (args : List GoVal) (hskip : tx.skipLog = false)
    (hok : (Tx.log env tx query execTime err args).err = none) :
    (Tx.log env tx query execTime err args).writes.map (fun w => (some w.1, w.2.Level))
      = (if err.isSome ∧ tx.errorLog.isSome then [(tx.errorLog, LevelError)] else [])
        ++ (if execTime ≥ tx.slowLogMin ∧ tx.slowLog.isSome
              then [(tx.slowLog, LevelSlowQuery)] else [])
        ++ (if tx.debugLog.isSome then [(tx.debugLog, LevelDebug)] else []) := by
  revert hok
  simp only [Tx.log, hskip, logMsg_eq]
  cases err <;> cases tx.errorLog <;> cases tx.slowLog <;> cases tx.debugLog <;>
    by_cases hd : execTime ≥ tx.slowLogMin <;>
    simp only [hd, if_true, if_false, Bool.false_eq_true, List.length_nil, List.nil_append,
      Option.isSome_none, Option.isSome_some, and_true, and_false, and_self, true_and,
      false_and, List.append_nil, List.map_nil, List.length_cons, List.length_singleton,
      List.length_append, imp_self, implies_true] <;>
    (try (cases h1 : env.marshalErr _ <;>
      simp only [h1, List.length_nil, List.nil_append, List.length_cons, List.length_singleton,
        List.length_append, List.map_cons, List.map_nil, parseQuery_record_Level,
        List.cons_append, List.singleton_append, reduceCtorEq, false_implies, implies_true,
        imp_self] <;>
      (try (cases h2 : env.marshalErr _ <;>
        simp only [h2, List.length_nil, List.nil_append, List.length_cons,
          List.length_singleton, List.length_append, List.map_cons, List.map_nil,
          parseQuery_record_Level, List.cons_append, List.singleton_append, reduceCtorEq,
          false_implies, implies_true, imp_self] <;>
        (try (cases h3 : env.marshalErr _ <;>
          simp only [h3, List.length_nil, List.nil_append, List.length_cons,
            List.length_singleton, List.length_append, List.map_cons, List.map_nil,
            parseQuery_record_Level, List.cons_append, List.singleton_append, reduceCtorEq,
            false_implies, implies_true, imp_self]))))))

theorem mem_levels_iff (l : List (Option Logger × String)) (a b c : Option Logger)
    (p q r : Prop) [Decidable p] [Decidable q] [Decidable r]
    (h : l = (if p then [(a, LevelError)] else []) ++ (if q then [(b, LevelSlowQuery)] else [])
      ++ (if r then [(c, LevelDebug)] else [])) :
    ((∃ w ∈ l, w.2 = LevelError) ↔ p) ∧ ((∃ w ∈ l, w.2 = LevelSlowQuery) ↔ q)
      ∧ ((∃ w ∈ l, w.2 = LevelDebug) ↔ r) := by
  subst h
  by_cases hp : p <;> by_cases hq : q <;> by_cases hr : r <;>
    simp [hp, hq, hr, LevelError, LevelSlowQuery, LevelDebug]

theorem DBX_log_skip (env : LogEnv) (dbx : DBX) (query : String) (execTime : Int)
    (err : Option String) (args : List GoVal) :
    DBX.log env (DBX.SkipLog dbx) query execTime err args
      = { err := none, handle := { dbx with skipLog := false }, writes := [], spawned := [] } := by
  simp [DBX.log, DBX.SkipLog]

theorem Tx_log_skip (env : LogEnv) (tx : Tx) (query : String) (execTime : Int)
    (err : Option String) (args : List GoVal) :
    Tx.log env (Tx.SkipLog tx) query execTime err args
      = { err := none, handle := { tx with skipLog := false }, writes := [], spawned := [] } := by
  simp [Tx.log, Tx.SkipLog]

theorem DBX_log_handle (env : LogEnv) (dbx : DBX) (query : String) (execTime : Int)
    (err : Option String) (args : List GoVal) (hskip : dbx.skipLog = false) :
    (DBX.log env dbx query execTime err args).handle = dbx := by
  simp only [DBX.log, hskip]
  simp only [Bool.false_eq_true, if_false]
  repeat' split
  all_goals rfl

theorem Tx_log_handle (env : LogEnv) (tx : Tx) (query : String) (execTime : Int)
    (err : Option String) (args : List GoVal) (hskip : tx.skipLog = false) :
    (Tx.log env tx query execTime err args).handle = tx := by
  simp only [Tx.log, hskip]
  simp only [Bool.false_eq_true, if_false]
  repeat' split
  all_goals rfl

theorem DBX_logAll_clear (dbx : DBX) (hskip : dbx.skipLog = false) :
    ∀ calls : List (LogEnv × LogCall),
      DBX.logAll dbx calls
        = (dbx, calls.flatMap fun ec =>
            (DBX.log ec.1 dbx ec.2.query ec.2.execTime ec.2.err ec.2.args).writes) := by
  intro calls
  induction calls with
  | nil => rfl
  | cons ec rest ih =>
    obtain ⟨env, c⟩ := ec
    simp only [DBX.logAll, DBX_log_handle env dbx _ _ _ _ hskip, ih, List.flatMap_cons]

theorem Tx_logAll_clear (tx : Tx) (hskip : tx.skipLog = false) :
    ∀ calls : List (LogEnv × LogCall),
      Tx.logAll tx calls
        = (tx, calls.flatMap fun ec =>
            (Tx.log ec.1 tx ec.2.query ec.2.execTime ec.2.err ec.2.args).writes) := by
  intro calls
  induction calls with
  | nil => rfl
  | cons ec rest ih =>
    obtain ⟨env, c⟩ := ec
    simp only [Tx.logAll, Tx_log_handle env tx _ _ _ _ hskip, ih, List.flatMap_cons]

/-- C12: each of the five wrapped operations returns exactly what the driver
returned for the rebound query, whatever the logging pipeline `logQuery` of the
handle does and returns (a logging failure included). -/
theorem wrapped_operations_return_driver_outcome {σ Rows Row Result Dest : Type}
    (querier : dbxInternal σ Rows Row Result Dest) (h : σ) (timeStart timeEnd : Int)
    (dest : Dest) (query : String) (args : List GoVal) (arg : GoVal) :
    (queryX querier h timeStart timeEnd query args).1
        = querier.getDB.Queryx (querier.getDB.Rebind query) args
      ∧ (queryRowx querier h timeStart timeEnd query args).1
        = querier.getDB.QueryRowx (querier.getDB.Rebind query) args
      ∧ (selectX querier h timeStart timeEnd dest query args).1
        = querier.getDB.Select dest (querier.getDB.Rebind query) args
      ∧ (exec querier h timeStart timeEnd query args).1
        = querier.getDB.Exec (querier.getDB.Rebind query) args
      ∧ (namedExec querier h timeStart timeEnd query arg).1
        = querier.getDB.NamedExec (querier.getDB.Rebind query) arg :=
  ⟨rfl, rfl, rfl, rfl, rfl⟩

/-- C13: what each of the five wrapped operations leaves behind is what one
invocation of the handle's `logQuery` leaves behind, on the handle as it was
before the call, with the rebound query text (the text handed to the driver),
the elapsed time, the driver's error or nil, and the caller's arguments. -/
theorem wrapped_operations_log_once {σ Rows Row Result Dest : Type}
    (querier : dbxInternal σ Rows Row Result Dest) (h : σ) (timeStart timeEnd : Int)
    (dest : Dest) (query : String) (args : List GoVal) (arg : GoVal) :
    (queryX querier h timeStart timeEnd query args).2
        = querier.logQuery h (querier.getDB.Rebind query) (timeEnd - timeStart)
            (querier.getDB.Queryx (querier.getDB.Rebind query) args).2 args
      ∧ (queryRowx querier h timeStart timeEnd query args).2
        = querier.logQuery h (querier.getDB.Rebind query) (timeEnd - timeStart)
            (querier.getDB.rowErr (querier.getDB.QueryRowx (querier.getDB.Rebind query) args))
            args
      ∧ (selectX querier h timeStart timeEnd dest query args).2
        = querier.logQuery h (querier.getDB.Rebind query) (timeEnd - timeStart)
            (querier.getDB.Select dest (querier.getDB.Rebind query) args).2 args
      ∧ (exec querier h timeStart timeEnd query args).2
        = querier.logQuery h (querier.getDB.Rebind query) (timeEnd - timeStart)
            (querier.getDB.Exec (querier.getDB.Rebind query) args).2 args
      ∧ (namedExec querier h timeStart timeEnd query arg).2
        = querier.logQuery h (querier.getDB.Rebind query) (timeEnd - timeStart)
            (querier.getDB.NamedExec (querier.getDB.Rebind query) arg).2 [arg] :=
  ⟨rfl, rfl, rfl, rfl, rfl⟩

/-- C14: for a synchronous logging invocation on a `DBX` or a `Tx` handle with
the skip flag clear and no serialisation error, the lines printed are, in this
order and each at most once: an `ERROR` line on the error logger exactly when
the error is not nil and an error logger is attached; a `SLOW_QUERY` line on
the slow logger exactly when the elapsed time is at least the slow threshold
and a slow logger is attached; a `DEBUG` line on the debug logger exactly when
a debug logger is attached. -/
theorem log_channels (env : LogEnv) (query : String) (execTime : Int) (err : Option String)
    (args : List GoVal) :
    (∀ dbx : DBX, dbx.skipLog = false →
      (DBX.log env dbx query execTime err args).err = none →
      (DBX.log env dbx query execTime err args).writes.map (fun w => (some w.1, w.2.Level))
          = (if err.isSome ∧ dbx.errorLog.isSome then [(dbx.errorLog, LevelError)] else [])
            ++ (if execTime ≥ dbx.slowLogMin ∧ dbx.slowLog.isSome
                  then [(dbx.slowLog, LevelSlowQuery)] else [])
            ++ (if dbx.debugLog.isSome then [(dbx.debugLog, LevelDebug)] else [])
        ∧ ((∃ w ∈ (DBX.log env dbx query execTime err args).writes, w.2.Level = LevelError)
            ↔ err.isSome ∧ dbx.errorLog.isSome)
        ∧ ((∃ w ∈ (DBX.log env dbx query execTime err args).writes,
              w.2.Level = LevelSlowQuery)
            ↔ execTime ≥ dbx.slowLogMin ∧ dbx.slowLog.isSome)
        ∧ ((∃ w ∈ (DBX.log env dbx query execTime err args).writes, w.2.Level = LevelDebug)
            ↔ dbx.debugLog.isSome))
    ∧ (∀ tx : Tx, tx.skipLog = false →
      (Tx.log env tx query execTime err args).err = none →
      (Tx.log env tx query execTime err args).writes.map (fun w => (some w.1, w.2.Level))
          = (if err.isSome ∧ tx.errorLog.isSome then [(tx.errorLog, LevelError)] else [])
            ++ (if execTime ≥ tx.slowLogMin ∧ tx.slowLog.isSome
                  then [(tx.slowLog, LevelSlowQuery)] else [])
            ++ (if tx.debugLog.isSome then [(tx.debugLog, LevelDebug)] else [])
        ∧ ((∃ w ∈ (Tx.log env tx query execTime err args).writes, w.2.Level = LevelError)
            ↔ err.isSome ∧ tx.errorLog.isSome)
        ∧ ((∃ w ∈ (Tx.log env tx query execTime err args).writes, w.2.Level = LevelSlowQuery)
            ↔ execTime ≥ tx.slowLogMin ∧ tx.slowLog.isSome)
        ∧ ((∃ w ∈ (Tx.log env tx query execTime err args).writes, w.2.Level = LevelDebug)
            ↔ tx.debugLog.isSome)) := by
  constructor
  · intro dbx hskip hok
    have h1 := DBX_log_levels env dbx query execTime err args hskip hok
    have m1 := mem_levels_iff _ _ _ _ _ _ _ h1
    simp only [List.mem_map, exists_exists_and_eq_and] at m1
    exact ⟨h1, m1.1, m1.2.1, m1.2.2⟩
  · intro tx hskip hok
    have h2 := Tx_log_levels env tx query execTime err args hskip hok
    have m2 := mem_levels_iff _ _ _ _ _ _ _ h2
    simp only [List.mem_map, exists_exists_and_eq_and] at m2
    exact ⟨h2, m2.1, m2.2.1, m2.2.2⟩

theorem log_channels_witness :
    allSinks.skipLog = false ∧ (DBX.MustBegin allSinks).skipLog = false
      ∧ (DBX.log plainEnv allSinks "select 1" 20 (some "boom") []).err = none
      ∧ (Tx.log plainEnv (DBX.MustBegin allSinks) "select 1" 20 (some "boom") []).err = none
      ∧ (DBX.log plainEnv allSinks "select 1" 20 (some "boom") []).writes.map
          (fun w => (some w.1, w.2.Level))
        = [(some 1, LevelError), (some 2, LevelSlowQuery), (some 3, LevelDebug)]
      ∧ (Tx.log plainEnv (DBX.MustBegin allSinks) "select 1" 20 (some "boom") []).writes.map
          (fun w => (some w.1, w.2.Level))
        = [(some 1, LevelError), (some 2, LevelSlowQuery), (some 3, LevelDebug)] :=
  ⟨rfl, rfl, by decide, by decide,
    ((log_channels plainEnv "select 1" 20 (some "boom") []).1 allSinks rfl (by decide)).1,
    ((log_channels plainEnv "select 1" 20 (some "boom") []).2 (DBX.MustBegin allSinks) rfl
      (by decide)).1⟩

theorem DBX_logAll_levels (dbx : DBX) (hskip : dbx.skipLog = false)
    (calls : List (LogEnv × LogCall))
    (hok : ∀ ec ∈ calls,
      (DBX.log ec.1 dbx ec.2.query ec.2.execTime ec.2.err ec.2.args).err = none) :
    (DBX.logAll dbx calls).2.map (fun w => (some w.1, w.2.Level))
      = calls.flatMap fun ec =>
          (if ec.2.err.isSome ∧ dbx.errorLog.isSome then [(dbx.errorLog, LevelError)] else [])
            ++ (if ec.2.execTime ≥ dbx.slowLogMin ∧ dbx.slowLog.isSome
                  then [(dbx.slowLog, LevelSlowQuery)] else [])
            ++ (if dbx.debugLog.isSome then [(dbx.debugLog, LevelDebug)] else []) := by
  rw [DBX_logAll_clear dbx hskip, List.map_flatMap]
  exact List.flatMap_congr fun ec hec =>
    DBX_log_levels ec.1 dbx ec.2.query ec.2.execTime ec.2.err ec.2.args hskip (hok ec hec)

theorem Tx_logAll_levels (tx : Tx) (hskip : tx.skipLog = false)
    (calls : List (LogEnv × LogCall))
    (hok : ∀ ec ∈ calls,
      (Tx.log ec.1 tx ec.2.query ec.2.execTime ec.2.err ec.2.args).err = none) :
    (Tx.logAll tx calls).2.map (fun w => (some w.1, w.2.Level))
      = calls.flatMap fun ec =>
          (if ec.2.err.isSome ∧ tx.errorLog.isSome then [(tx.errorLog, LevelError)] else [])
            ++ (if ec.2.execTime ≥ tx.slowLogMin ∧ tx.slowLog.isSome
                  then [(tx.slowLog, LevelSlowQuery)] else [])
            ++ (if tx.debugLog.isSome then [(tx.debugLog, LevelDebug)] else []) := by
  rw [Tx_logAll_clear tx hskip, List.map_flatMap]
  exact List.flatMap_congr fun ec hec =>
    Tx_log_levels ec.1 tx ec.2.query ec.2.execTime ec.2.err ec.2.args hskip (hok ec hec)

/-- C15: the skip flag is one-shot, on a `DBX` and on a `Tx` handle. The first
synchronous logging invocation after `SkipLog` prints nothing, returns nil and
leaves the handle with the flag clear. In a run of invocations after `SkipLog`
the handle ends with the flag clear and the lines printed are those of the
invocations after the first, each logged by the channel rules when no
serialisation error occurs: an `ERROR` line on the error logger when its error
is not nil and an error logger is attached, then a `SLOW_QUERY` line on the slow
logger when its elapsed time is at least the slow threshold and a slow logger
is attached, then a `DEBUG` line on the debug logger when one is attached. An
invocation on a handle with the flag clear leaves the handle as it was. -/
theorem skip_flag_one_shot (dbx : DBX) (tx : Tx) (env : LogEnv) (c : LogCall)
    (rest : List (LogEnv × LogCall)) :
    (DBX.log env (DBX.SkipLog dbx) c.query c.execTime c.err c.args
        = { err := none, handle := { dbx with skipLog := false }, writes := [], spawned := [] }
      ∧ DBX.logAll (DBX.SkipLog dbx) ((env, c) :: rest)
        = ({ dbx with skipLog := false }, rest.flatMap fun ec =>
            (DBX.log ec.1 { dbx with skipLog := false } ec.2.query ec.2.execTime ec.2.err
              ec.2.args).writes)
      ∧ ((∀ ec ∈ rest,
            (DBX.log ec.1 { dbx with skipLog := false } ec.2.query ec.2.execTime ec.2.err
              ec.2.args).err = none) →
          (DBX.logAll (DBX.SkipLog dbx) ((env, c) :: rest)).2.map
              (fun w => (some w.1, w.2.Level))
            = rest.flatMap fun ec =>
                (if ec.2.err.isSome ∧ dbx.errorLog.isSome
                    then [(dbx.errorLog, LevelError)] else [])
                  ++ (if ec.2.execTime ≥ dbx.slowLogMin ∧ dbx.slowLog.isSome
                        then [(dbx.slowLog, LevelSlowQuery)] else [])
                  ++ (if dbx.debugLog.isSome then [(dbx.debugLog, LevelDebug)] else []))
      ∧ (DBX.log env { dbx with skipLog := false } c.query c.execTime c.err c.args).handle
        = { dbx with skipLog := false })
    ∧(Tx.log env (Tx.SkipLog tx) c.query c.execTime c.err c.args
        = { err := none, handle := { tx with skipLog := false }, writes := [], spawned := [] }
      ∧ Tx.logAll (Tx.SkipLog tx) ((env, c) :: rest)
        = ({ tx with skipLog := false }, rest.flatMap fun ec =>
            (Tx.log ec.1 { tx with skipLog := false } ec.2.query ec.2.execTime ec.2.err
              ec.2.args).writes)
      ∧ ((∀ ec ∈ rest,
            (Tx.log ec.1 { tx with skipLog := false } ec.2.query ec.2.execTime ec.2.err
              ec.2.args).err = none) →
          (Tx.logAll (Tx.SkipLog tx) ((env, c) :: rest)).2.map
              (fun w => (some w.1, w.2.Level))
            = rest.flatMap fun ec =>
                (if ec.2.err.isSome ∧ tx.errorLog.isSome
                    then [(tx.errorLog, LevelError)] else [])
                  ++ (if ec.2.execTime ≥ tx.slowLogMin ∧ tx.slowLog.isSome
                        then [(tx.slowLog, LevelSlowQuery)] else [])
                  ++ (if tx.debugLog.isSome then [(tx.debugLog, LevelDebug)] else []))
      ∧ (Tx.log env { tx with skipLog := false } c.query c.execTime c.err c.args).handle
        = { tx with skipLog := false }) := by
  have hD : DBX.logAll (DBX.SkipLog dbx) ((env, c) :: rest)
      = DBX.logAll { dbx with skipLog := false } rest := by
    rw [DBX.logAll, DBX_log_skip]
    simp only [List.nil_append]
  have hT : Tx.logAll (Tx.SkipLog tx) ((env, c) :: rest)
      = Tx.logAll { tx with skipLog := false } rest := by
    rw [Tx.logAll, Tx_log_skip]
    simp only [List.nil_append]
  refine ⟨⟨DBX_log_skip _ _ _ _ _ _, ?_, ?_, DBX_log_handle _ _ _ _ _ _ rfl⟩,
    ⟨Tx_log_skip _ _ _ _ _ _, ?_, ?_, Tx_log_handle _ _ _ _ _ _ rfl⟩⟩
  · rw [hD, DBX_logAll_clear _ rfl]
  · intro hok
    rw [hD]
    exact DBX_logAll_levels { dbx with skipLog := false } rfl rest hok
  · rw [hT, Tx_logAll_clear _ rfl]
  · intro hok
    rw [hT]
    exact Tx_logAll_levels { tx with skipLog := false } rfl rest hok

theorem skip_flag_one_shot_witness :
    (∀ ec ∈ [(plainEnv, failedCall), (plainEnv, failedCall)],
        (DBX.log ec.1 { allSinks with skipLog := false } ec.2.query ec.2.execTime ec.2.err
          ec.2.args).err = none)
      ∧ (DBX.log plainEnv allSinks failedCall.query failedCall.execTime failedCall.err
          failedCall.args).writes.length = 3
      ∧ (DBX.log plainEnv (DBX.SkipLog allSinks) failedCall.query failedCall.execTime
          failedCall.err failedCall.args).writes = []
      ∧ (DBX.logAll (DBX.SkipLog allSinks)
            [(plainEnv, failedCall), (plainEnv, failedCall), (plainEnv, failedCall)]).2.map
          (fun w => (some w.1, w.2.Level))
        = [(some 1, LevelError), (some 2, LevelSlowQuery), (some 3, LevelDebug),
           (some 1, LevelError), (some 2, LevelSlowQuery), (some 3, LevelDebug)] :=
  ⟨by decide, by decide, by decide,
    (skip_flag_one_shot allSinks (DBX.MustBegin allSinks) plainEnv failedCall
      [(plainEnv, failedCall), (plainEnv, failedCall)]).1.2.2.1 (by decide)⟩

/-- C16, evaluated: on a `Tx` handle with the three loggers attached, a failed
query logged with the argument `1` prints an `ERROR` record whose argument list
is empty, while the `SLOW_QUERY` and `DEBUG` records of the same invocation, and
all three records of the same invocation on a `DBX` handle, carry `[1]`. -/
theorem Tx_log_error_record_without_args :
    (Tx.log plainEnv (DBX.MustBegin allSinks) "select 1" 20 (some "boom")
        [GoVal.int 1]).writes.map (fun w => (w.2.Level, w.2.Args))
      = [("ERROR", []), ("SLOW_QUERY", [GoVal.int 1]), ("DEBUG", [GoVal.int 1])]
    ∧ (DBX.log plainEnv allSinks "select 1" 20 (some "boom")
        [GoVal.int 1]).writes.map (fun w => (w.2.Level, w.2.Args))
      = [("ERROR", [GoVal.int 1]), ("SLOW_QUERY", [GoVal.int 1]), ("DEBUG", [GoVal.int 1])] := by
  decide

/-- C17, evaluated: the query text `parseQuery` puts in the record keeps two
adjacent spaces where the query has a newline followed by more white space, and
where it has two newlines: `regSpaceTrim` matches a newline on its own, by its
first alternative. -/
theorem parseQuery_keeps_adjacent_spaces :
    (parseQuery.record plainEnv 0 LevelDebug "select *\n  from t" 0 none []).Query
      = "select *  from t"
    ∧ (parseQuery.record plainEnv 0 LevelDebug "a\n\nb" 0 none []).Query = "a  b"
    ∧ parseQuery plainEnv 0 LevelDebug "a\n\nb" 0 none []
      = Except.ok { Level := "DEBUG", Time := 100, Query := "a  b", ExecTime := 0, Error := "",
                    Trace := "", Args := [] } :=
  ⟨by decide, by decide, by
    simp only [parseQuery, plainEnv]
    exact congrArg Except.ok (by decide)⟩

/-! ### The matcher on the patterns of the sources -/

theorem run_cls_cons (p : Char → Bool) (c : Char) (r : List Char)
    (k : List Char → Option (List Char)) :
    (Regex.cls p).run (c :: r) k = if p c = true then k r else none := by
  simp [Regex.run]

theorem starLoop_cls (p : Char → Bool) (k : List Char → Option (List Char))
    (hk : ∀ c r, p c = true → k (c :: r) = none) :
    ∀ (n : Nat) (s : List Char), s.length ≤ n →
      Regex.starLoop (fun s' k' => (Regex.cls p).run s' k') n s k = k (s.dropWhile p) := by
  intro n
  induction n with
  | zero =>
    intro s hs
    have : s = [] := List.length_eq_zero.mp (by omega)
    subst this
    rfl
  | succ n ih =>
    intro s hs
    cases s with
    | nil => simp [Regex.starLoop, Regex.run]
    | cons c r =>
      rw [Regex.starLoop]
      by_cases hp : p c = true
      · have hr := ih r (by simpa using hs)
        simp only [run_cls_cons, hp, if_true, List.length_cons, Nat.lt_succ_self,
          List.dropWhile_cons]
        rw [hr]
        cases h : k (r.dropWhile p) with
        | some x => rfl
        | none => simp [hk c r hp]
      · simp [run_cls_cons, hp, List.dropWhile_cons]

theorem dropWhile_append_stop (p : Char → Bool) (l : List Char) (c : Char) (rest : List Char)
    (hl : ∀ x ∈ l, p x = true) (hc : p c = false) :
    (l ++ c :: rest).dropWhile p = c :: rest := by
  induction l with
  | nil => simp [List.dropWhile_cons, hc]
  | cons x l ih =>
    simp only [List.cons_append, List.dropWhile_cons, hl x (List.mem_cons_self _ _), if_true]
    exact ih (fun y hy => hl y (List.mem_cons_of_mem _ hy))

theorem dropWhile_eq_nil_of_all (p : Char → Bool) (l : List Char) (hl : ∀ x ∈ l, p x = true) :
    l.dropWhile p = [] := by
  induction l with
  | nil => rfl
  | cons x l ih =>
    simp only [List.dropWhile_cons, hl x (List.mem_cons_self _ _), if_true]
    exact ih (fun y hy => hl y (List.mem_cons_of_mem _ hy))

/-! ### The loop of `ReplaceAllString` -/

theorem replaceLoop_nil (re : Regex) (repl : List Char) (h : re.matchAt [] = none) (n : Nat)
    (f : Bool) : re.replaceLoop repl n f [] = [] := by
  cases n with
  | zero => rfl
  | succ n => simp [Regex.replaceLoop, h]

theorem replaceLoop_skip (re : Regex) (repl : List Char) (c : Char) (s : List Char)
    (h : re.matchAt (c :: s) = none) (n : Nat) (f : Bool) :
    re.replaceLoop repl (n + 1) f (c :: s) = c :: re.replaceLoop repl n false s := by
  simp [Regex.replaceLoop, h]

theorem replaceLoop_match (re : Regex) (repl s r : List Char) (h : re.matchAt s = some r)
    (hlt : r.length < s.length) (n : Nat) (f : Bool) :
    re.replaceLoop repl (n + 1) f s = repl ++ re.replaceLoop repl n true r := by
  simp [Regex.replaceLoop, h, hlt]

theorem replaceLoop_id (re : Regex) (repl : List Char) :
    ∀ (s : List Char), (∀ t, t <:+ s → re.matchAt t = none) →
      ∀ (n : Nat) (f : Bool), re.replaceLoop repl n f s = s := by
  intro s
  induction s with
  | nil => intro h n f; exact replaceLoop_nil re repl (h [] (List.suffix_refl _)) n f
  | cons c s ih =>
    intro h n f
    cases n with
    | zero => rfl
    | succ n =>
      rw [replaceLoop_skip re repl c s (h _ (List.suffix_refl _)),
        ih (fun t ht => h t (ht.trans (List.suffix_cons c s)))]

/-! ### `regEndSemiCol` -/

theorem matchAt_regEndSemiCol_semi (t : List Char) :
    regEndSemiCol.matchAt (';' :: t)
      = Regex.endText.run (t.dropWhile isSpace) some := by
  simp only [Regex.matchAt, regEndSemiCol, Regex.run, if_true]
  exact starLoop_cls isSpace _ (fun c r _ => rfl) _ t (le_refl _)

theorem matchAt_regEndSemiCol_spaces (w : List Char) (hw : ∀ c ∈ w, isSpace c = true) :
    regEndSemiCol.matchAt (';' :: w) = some [] := by
  rw [matchAt_regEndSemiCol_semi, dropWhile_eq_nil_of_all isSpace w hw]
  rfl

theorem matchAt_regEndSemiCol_some (s r : List Char) (h : regEndSemiCol.matchAt s = some r) :
    ∃ w, (∀ c ∈ w, isSpace c = true) ∧ s = ';' :: w := by
  cases s with
  | nil => simp [Regex.matchAt, regEndSemiCol, Regex.run] at h
  | cons c t =>
    by_cases hc : c = ';'
    · subst hc
      rw [matchAt_regEndSemiCol_semi] at h
      refine ⟨t, ?_, rfl⟩
      cases hd : t.dropWhile isSpace with
      | nil =>
        intro x hx
        by_contra hnot
        have hmem : x ∈ t.dropWhile isSpace := by
          clear h hd
          induction t with
          | nil => cases hx
          | cons y t ih =>
            rw [List.dropWhile_cons]
            rcases List.mem_cons.mp hx with hxy | hxt
            · subst hxy
              simp [hnot]
            · split
              · exact ih hxt
              · exact List.mem_cons_of_mem _ hxt
        rw [hd] at hmem
        cases hmem
      | cons y ys =>
        rw [hd] at h
        simp [Regex.run] at h
    · simp [Regex.matchAt, regEndSemiCol, Regex.run, hc] at h

theorem replaceLoop_regEndSemiCol_trailing (w : List Char) (hw : ∀ c ∈ w, isSpace c = true) :
    ∀ (p : List Char) (n : Nat) (f : Bool), (p ++ ';' :: w).length < n →
      regEndSemiCol.replaceLoop [] n f (p ++ ';' :: w) = p := by
  intro p
  induction p with
  | nil =>
    intro n f hn
    cases n with
    | zero => simp at hn
    | succ n =>
      rw [List.nil_append, replaceLoop_match regEndSemiCol [] _ []
        (matchAt_regEndSemiCol_spaces w hw) (by simp), List.nil_append,
        replaceLoop_nil regEndSemiCol [] rfl]
  | cons c p ih =>
    intro n f hn
    cases n with
    | zero => simp at hn
    | succ n =>
      have hnone : regEndSemiCol.matchAt (c :: (p ++ ';' :: w)) = none := by
        cases hm : regEndSemiCol.matchAt (c :: (p ++ ';' :: w)) with
        | none => rfl
        | some r =>
          obtain ⟨w2, hw2, heq⟩ := matchAt_regEndSemiCol_some _ r hm
          have hmem : ';' ∈ w2 := by
            have : p ++ ';' :: w = w2 := (List.cons.inj heq).2
            rw [← this]
            simp
          exact absurd (hw2 ';' hmem) (by decide)
      rw [List.cons_append, replaceLoop_skip regEndSemiCol [] c _ hnone,
        ih n false (by simpa using hn)]

theorem matchAt_regEndSemiCol_none_of_last (s : List Char)
    (h : s.reverse.find? (fun c => !isSpace c) ≠ some ';') :
    ∀ t, t <:+ s → regEndSemiCol.matchAt t = none := by
  intro t ht
  cases hm : regEndSemiCol.matchAt t with
  | none => rfl
  | some r =>
    exfalso
    obtain ⟨w, hw, heq⟩ := matchAt_regEndSemiCol_some t r hm
    obtain ⟨u, hu⟩ := ht
    apply h
    rw [← hu, heq, List.reverse_append, List.reverse_cons, List.append_assoc, List.find?_append,
      List.find?_append]
    have h1 : w.reverse.find? (fun c => !isSpace c) = none := by
      rw [List.find?_eq_none]
      intro x hx
      simp [hw x (List.mem_reverse.mp hx)]
    rw [h1]
    rfl

theorem replaceAll_regEndSemiCol_trailing (p w : List Char)
    (hw : ∀ c ∈ w, isSpace c = true) : regEndSemiCol.replaceAll [] (p ++ ';' :: w) = p :=
  replaceLoop_regEndSemiCol_trailing w hw p _ false (Nat.lt_succ_self _)

/-! ### `regCmts` -/

theorem matchAt_regCmts_dashes (t : List Char) :
    regCmts.matchAt ('-' :: '-' :: t)
      = (Regex.lit '\n').run (t.dropWhile notNewline) some := by
  simp only [Regex.matchAt, regCmts, Regex.run, if_true]
  refine starLoop_cls notNewline _ (fun c r hc => ?_) _ t (le_refl _)
  have hne : c ≠ '\n' := by simpa [notNewline] using hc
  simp [hne]

theorem matchAt_regCmts_comment (l rest : List Char) (hl : ∀ c ∈ l, c ≠ '\n') :
    regCmts.matchAt ('-' :: '-' :: (l ++ '\n' :: rest)) = some rest := by
  rw [matchAt_regCmts_dashes, dropWhile_append_stop notNewline l '\n' rest
    (fun x hx => by simpa [notNewline] using hl x hx) (by decide)]
  simp [Regex.run]

theorem matchAt_regCmts_some (s r : List Char) (h : regCmts.matchAt s = some r) :
    ∃ l, (∀ c ∈ l, c ≠ '\n') ∧ s = '-' :: '-' :: (l ++ '\n' :: r) := by
  cases s with
  | nil => simp [Regex.matchAt, regCmts, Regex.run] at h
  | cons c s =>
    by_cases hc : c = '-'
    · subst hc
      cases s with
      | nil => simp [Regex.matchAt, regCmts, Regex.run] at h
      | cons c' t =>
        by_cases hc' : c' = '-'
        · subst hc'
          rw [matchAt_regCmts_dashes] at h
          cases hd : t.dropWhile notNewline with
          | nil =>
            rw [hd] at h
            simp [Regex.run] at h
          | cons y ys =>
            rw [hd] at h
            simp only [Regex.run] at h
            split at h
            · rename_i hy
              simp only [Option.some.injEq] at h
              refine ⟨t.takeWhile notNewline, ?_, ?_⟩
              · intro x hx
                have := List.mem_takeWhile_imp hx
                simpa [notNewline] using this
              · have := List.takeWhile_append_dropWhile notNewline t
                rw [hd, hy, h] at this
                rw [this]
            · cases h
        · simp [Regex.matchAt, regCmts, Regex.run, hc'] at h
    · simp [Regex.matchAt, regCmts, Regex.run, hc] at h

theorem matchAt_regCmts_shorter (s r : List Char) (h : regCmts.matchAt s = some r) :
    r.length < s.length := by
  obtain ⟨l, _, hs⟩ := matchAt_regCmts_some s r h
  rw [hs]
  simp
  omega

theorem replaceLoop_regCmts_indep :
    ∀ (m : Nat) (s : List Char), s.length ≤ m → ∀ (n n' : Nat) (f f' : Bool),
      s.length < n → s.length < n' →
      regCmts.replaceLoop [] n f s = regCmts.replaceLoop [] n' f' s := by
  intro m
  induction m with
  | zero =>
    intro s hs n n' f f' _ _
    have : s = [] := List.length_eq_zero.mp (by omega)
    subst this
    rw [replaceLoop_nil regCmts [] rfl, replaceLoop_nil regCmts [] rfl]
  | succ m ih =>
    intro s hs n n' f f' hn hn'
    cases n with
    | zero => omega
    | succ n =>
      cases n' with
      | zero => omega
      | succ n' =>
        cases hm : regCmts.matchAt s with
        | some r =>
          have hlt := matchAt_regCmts_shorter s r hm
          rw [replaceLoop_match regCmts [] s r hm hlt, replaceLoop_match regCmts [] s r hm hlt]
          exact congrArg _ (ih r (by omega) n n' true true (by omega) (by omega))
        | none =>
          cases s with
          | nil => rw [replaceLoop_nil regCmts [] rfl, replaceLoop_nil regCmts [] rfl]
          | cons c t =>
            rw [replaceLoop_skip regCmts [] c t hm, replaceLoop_skip regCmts [] c t hm]
            simp only [List.length_cons] at hs hn hn'
            exact congrArg _ (ih t (by omega) n n' false false (by omega) (by omega))

theorem replaceAll_regCmts_skip (c : Char) (s : List Char)
    (h : regCmts.matchAt (c :: s) = none) :
    regCmts.replaceAll [] (c :: s) = c :: regCmts.replaceAll [] s := by
  simp only [Regex.replaceAll, List.length_cons]
  rw [replaceLoop_skip regCmts [] c s h]

theorem replaceAll_regCmts_match (s r : List Char) (h : regCmts.matchAt s = some r) :
    regCmts.replaceAll [] s = regCmts.replaceAll [] r := by
  have hlt := matchAt_regCmts_shorter s r h
  simp only [Regex.replaceAll]
  rw [replaceLoop_match regCmts [] s r h hlt, List.nil_append]
  exact replaceLoop_regCmts_indep r.length r (le_refl _) _ _ _ _ hlt (Nat.lt_succ_self _)

theorem replaceAll_regCmts_comment (t rest : List Char) (ht : ∀ c ∈ t, c ≠ '\n') :
    regCmts.replaceAll [] ('-' :: '-' :: (t ++ '\n' :: rest)) = regCmts.replaceAll [] rest :=
  replaceAll_regCmts_match _ rest (matchAt_regCmts_comment t rest ht)

theorem replaceAll_regCmts_line (rest : List Char) :
    ∀ line : List Char, (∀ u v, line ≠ u ++ '-' :: '-' :: v) →
      regCmts.replaceAll [] (line ++ '\n' :: rest) = line ++ '\n' :: regCmts.replaceAll [] rest := by
  intro line
  induction line with
  | nil =>
    intro _
    have hnone : regCmts.matchAt ('\n' :: rest) = none := by
      cases hm : regCmts.matchAt ('\n' :: rest) with
      | none => rfl
      | some r =>
        obtain ⟨l, _, hs⟩ := matchAt_regCmts_some _ r hm
        exact absurd (List.cons.inj hs).1 (by decide)
    rw [List.nil_append, replaceAll_regCmts_skip _ _ hnone, List.nil_append]
  | cons c l ih =>
    intro h
    have hnone : regCmts.matchAt (c :: (l ++ '\n' :: rest)) = none := by
      cases hm : regCmts.matchAt (c :: (l ++ '\n' :: rest)) with
      | none => rfl
      | some r =>
        exfalso
        obtain ⟨l', _, hs⟩ := matchAt_regCmts_some _ r hm
        obtain ⟨hc, htl⟩ := List.cons.inj hs
        cases l with
        | nil => exact absurd (List.cons.inj htl).1 (by decide)
        | cons c' l'' =>
          have hc' : c' = '-' := (List.cons.inj htl).1
          exact h [] l'' (by rw [hc, hc']; rfl)
    rw [List.cons_append, replaceAll_regCmts_skip _ _ hnone,
      ih (fun u v huv => h (c :: u) v (by rw [huv]; rfl)), List.cons_append]

theorem replaceAll_regCmts_before (t rest : List Char) (ht : ∀ c ∈ t, c ≠ '\n') :
    ∀ p : List Char, (∀ u v, p ++ ['-'] ≠ u ++ '-' :: '-' :: v) →
      regCmts.replaceAll [] (p ++ '-' :: '-' :: (t ++ '\n' :: rest))
        = p ++ regCmts.replaceAll [] rest := by
  intro p
  induction p with
  | nil => intro _; exact replaceAll_regCmts_comment t rest ht
  | cons c p ih =>
    intro h
    have hnone : regCmts.matchAt (c :: (p ++ '-' :: '-' :: (t ++ '\n' :: rest))) = none := by
      cases hm : regCmts.matchAt (c :: (p ++ '-' :: '-' :: (t ++ '\n' :: rest))) with
      | none => rfl
      | some r =>
        exfalso
        obtain ⟨l', _, hs⟩ := matchAt_regCmts_some _ r hm
        obtain ⟨hc, htl⟩ := List.cons.inj hs
        cases p with
        | nil => exact h [] [] (by rw [hc]; rfl)
        | cons c' p'' =>
          have hc' : c' = '-' := (List.cons.inj htl).1
          exact h [] (p'' ++ ['-']) (by rw [hc, hc']; rfl)
    rw [List.cons_append, replaceAll_regCmts_skip _ _ hnone,
      ih (fun u v huv => h (c :: u) v (by rw [List.cons_append, huv]; rfl)), List.cons_append]

theorem matchAt_regCmts_none_of_clean (s : List Char)
    (h : ∀ a b c, s ≠ a ++ '-' :: '-' :: (b ++ '\n' :: c)) :
    ∀ t, t <:+ s → regCmts.matchAt t = none := by
  intro t ht
  cases hm : regCmts.matchAt t with
  | none => rfl
  | some r =>
    exfalso
    obtain ⟨l, _, hs⟩ := matchAt_regCmts_some t r hm
    obtain ⟨u, hu⟩ := ht
    exact h u l r (by rw [← hu, hs])

theorem replaceAll_regCmts_of_clean (s : List Char)
    (h : ∀ a b c, s ≠ a ++ '-' :: '-' :: (b ++ '\n' :: c)) :
    regCmts.replaceAll [] s = s :=
  replaceLoop_id regCmts [] s (matchAt_regCmts_none_of_clean s h) _ _

theorem replaceAll_regCmts_head (s x : List Char) (h : regCmts.replaceAll [] s = '-' :: x) :
    ∃ s', s = '-' :: s' := by
  cases s with
  | nil => cases h
  | cons c s' =>
    cases hm : regCmts.matchAt (c :: s') with
    | none =>
      rw [replaceAll_regCmts_skip c s' hm] at h
      exact ⟨s', by rw [(List.cons.inj h).1]⟩
    | some r =>
      obtain ⟨l, _, hs⟩ := matchAt_regCmts_some _ r hm
      exact ⟨_, hs⟩

theorem dropWhile_notNewline_of_mem :
    ∀ t : List Char, '\n' ∈ t → ∃ l r, (∀ c ∈ l, c ≠ '\n') ∧ t = l ++ '\n' :: r := by
  intro t
  induction t with
  | nil => intro h; cases h
  | cons c t ih =>
    intro h
    by_cases hc : c = '\n'
    · exact ⟨[], t, by simp, by rw [hc]; rfl⟩
    · have hmem : '\n' ∈ t := by
        rcases List.mem_cons.mp h with h1 | h1
        · exact absurd h1.symm hc
        · exact h1
      obtain ⟨l, r, hl, ht⟩ := ih hmem
      refine ⟨c :: l, r, ?_, by rw [ht]; rfl⟩
      intro x hx
      rcases List.mem_cons.mp hx with h1 | h1
      · rw [h1]; exact hc
      · exact hl x h1

theorem replaceAll_regCmts_clean :
    ∀ (m : Nat) (s : List Char), s.length ≤ m →
      ∀ a b c, regCmts.replaceAll [] s ≠ a ++ '-' :: '-' :: (b ++ '\n' :: c) := by
  intro m
  induction m with
  | zero =>
    intro s hs a b c h
    have : s = [] := List.length_eq_zero.mp (by omega)
    subst this
    have h0 : regCmts.replaceAll [] [] = [] := rfl
    rw [h0] at h
    cases a <;> cases h
  | succ m ih =>
    intro s hs a b c h
    cases s with
    | nil =>
      have h0 : regCmts.replaceAll [] [] = [] := rfl
      rw [h0] at h
      cases a <;> cases h
    | cons x s' =>
      simp only [List.length_cons] at hs
      cases hm : regCmts.matchAt (x :: s') with
      | some r =>
        have hlt := matchAt_regCmts_shorter _ r hm
        simp only [List.length_cons] at hlt
        rw [replaceAll_regCmts_match _ r hm] at h
        exact ih r (by omega) a b c h
      | none =>
        rw [replaceAll_regCmts_skip x s' hm] at h
        cases a with
        | cons y a' =>
          exact ih s' (by omega) a' b c (List.cons.inj h).2
        | nil =>
          obtain ⟨hx, htl⟩ := List.cons.inj h
          obtain ⟨s'', hs''⟩ := replaceAll_regCmts_head s' _ htl
          subst hx
          subst hs''
          have hno : '\n' ∉ s'' := by
            intro hmem
            obtain ⟨l, r, hl, ht⟩ := dropWhile_notNewline_of_mem s'' hmem
            rw [ht, matchAt_regCmts_comment l r hl] at hm
            cases hm
          have hclean : ∀ a b c, ('-' :: s'') ≠ a ++ '-' :: '-' :: (b ++ '\n' :: c) := by
            intro a b c hh
            apply hno
            have : '\n' ∈ '-' :: s'' := by rw [hh]; simp
            rcases List.mem_cons.mp this with h1 | h1
            · exact absurd h1 (by decide)
            · exact h1
          rw [replaceAll_regCmts_of_clean _ hclean] at htl
          apply hno
          have : '\n' ∈ '-' :: s'' := by rw [htl]; simp
          rcases List.mem_cons.mp this with h1 | h1
          · exact absurd h1 (by decide)
          · exact h1

theorem no_dashes_of_no_occurrence (x : String) (h : ¬ ['-', '-'] <:+: x.data) :
    ∀ a b : String, x ≠ a ++ "--" ++ b := by
  intro a b hx
  apply h
  refine ⟨a.data, b.data, ?_⟩
  rw [hx]
  simp [String.data_append]

/-- The case of `Test_removeComments` (`common_test.go`) and two more: a
comment on the last line, without a newline after it, stays. -/
theorem test_removeComments :
    removeComments "select 1 -- comment\n" = "select 1 "
    ∧ removeComments "a -- x\nb\nc -- y" = "a b\nc -- y"
    ∧ removeComments "a---b\n-c\n" = "a-c\n" := by
  decide

/-- C18: `removeComments` deletes every line comment `-- ... <newline>` and
keeps all other text in order. A text `line` without `--` before a newline is
kept with its newline; where `--` occurs first after the text `p` (no `--`
starts in `p`) and `t` runs to the next newline, `p` is kept and the comment
with its newline is dropped; in both cases the rest is treated the same way.
The result holds no `--` with a newline anywhere after it, `removeComments` is
idempotent, a text without such a comment is returned unchanged, and
`select 1 -- comment\n` becomes `select 1 `. -/
theorem removeComments_spec (q : String) :
    (∀ a b c : String, removeComments q ≠ a ++ "--" ++ b ++ "\n" ++ c)
    ∧ removeComments (removeComments q) = removeComments q
    ∧ ((∀ a b c : String, q ≠ a ++ "--" ++ b ++ "\n" ++ c) → removeComments q = q)
    ∧ (∀ line rest : String, (∀ a b : String, line ≠ a ++ "--" ++ b) →
        removeComments (line ++ "\n" ++ rest) = line ++ "\n" ++ removeComments rest)
    ∧ (∀ p t rest : String, (∀ a b : String, p ++ "-" ≠ a ++ "--" ++ b) → '\n' ∉ t.data →
        removeComments (p ++ "--" ++ t ++ "\n" ++ rest) = p ++ removeComments rest)
    ∧ removeComments "select 1 -- comment\n" = "select 1 " := by
  have hdef : ∀ x : String, removeComments x = String.mk (regCmts.replaceAll [] x.data) :=
    fun _ => rfl
  have hclean : ∀ x : String, ∀ a b c : List Char,
      regCmts.replaceAll [] x.data ≠ a ++ '-' :: '-' :: (b ++ '\n' :: c) :=
    fun x => replaceAll_regCmts_clean _ x.data (le_refl _)
  refine ⟨?_, ?_, ?_, ?_, ?_, by decide⟩
  · intro a b c h
    apply hclean q a.data b.data c.data
    have := congrArg String.data h
    rw [hdef] at this
    simpa [String.data_append] using this
  · rw [hdef (removeComments q), hdef q]
    exact congrArg String.mk (replaceAll_regCmts_of_clean _ (hclean q))
  · intro h
    rw [hdef]
    apply String.ext
    apply replaceAll_regCmts_of_clean
    intro a b c hh
    apply h (String.mk a) (String.mk b) (String.mk c)
    apply String.ext
    simpa [String.data_append] using hh
  · intro line rest h
    rw [hdef, hdef]
    apply String.ext
    have hd : (line ++ "\n" ++ rest).data = line.data ++ '\n' :: rest.data := by
      simp [String.data_append]
    rw [hd, replaceAll_regCmts_line]
    · simp [String.data_append]
    · intro u v huv
      apply h (String.mk u) (String.mk v)
      apply String.ext
      simpa [String.data_append] using huv
  · intro p t rest h ht
    rw [hdef, hdef]
    apply String.ext
    have hd : (p ++ "--" ++ t ++ "\n" ++ rest).data
        = p.data ++ '-' :: '-' :: (t.data ++ '\n' :: rest.data) := by
      simp [String.data_append]
    rw [hd, replaceAll_regCmts_before t.data rest.data (fun c hc hcn => ht (hcn ▸ hc))]
    · simp [String.data_append]
    · intro u v huv
      apply h (String.mk u) (String.mk v)
      apply String.ext
      simpa [String.data_append] using huv

theorem removeComments_spec_witness :
    (∀ a b c : String, "a-\n-b" ≠ a ++ "--" ++ b ++ "\n" ++ c)
      ∧ removeComments "a-\n-b" = "a-\n-b"
      ∧ (∀ a b : String, "a-" ≠ a ++ "--" ++ b)
      ∧ removeComments ("a-" ++ "\n" ++ "--b\n-c") = "a-" ++ "\n" ++ removeComments "--b\n-c"
      ∧ (∀ a b : String, "a" ++ "-" ≠ a ++ "--" ++ b) ∧ '\n' ∉ "b".data
      ∧ removeComments ("a" ++ "--" ++ "b" ++ "\n" ++ "-c") = "a" ++ removeComments "-c" :=
  ⟨fun a b c => by
      rw [String.append_assoc, String.append_assoc]
      exact no_dashes_of_no_occurrence "a-\n-b" (by decide) a (b ++ ("\n" ++ c)),
    (removeComments_spec "a-\n-b").2.2.1 (fun a b c => by
      rw [String.append_assoc, String.append_assoc]
      exact no_dashes_of_no_occurrence "a-\n-b" (by decide) a (b ++ ("\n" ++ c))),
    no_dashes_of_no_occurrence "a-" (by decide),
    (removeComments_spec "").2.2.2.1 "a-" "--b\n-c" (no_dashes_of_no_occurrence "a-" (by decide)),
    no_dashes_of_no_occurrence ("a" ++ "-") (by decide), by decide,
    (removeComments_spec "").2.2.2.2.1 "a" "b" "-c"
      (no_dashes_of_no_occurrence ("a" ++ "-") (by decide)) (by decide)⟩

/-- The cases of `Test_trimSemilColumn` (`query_options_test.go`). -/
theorem test_trimSemiColumn :
    trimSemiColumn "select * from table_name;" = "select * from table_name"
    ∧ trimSemiColumn "select * from table_name;  " = "select * from table_name"
    ∧ trimSemiColumn "select * from table_name;\t" = "select * from table_name"
    ∧ trimSemiColumn "select * from table_name\t" = "select * from table_name\t"
    ∧ trimSemiColumn "select * from table_name  " = "select * from table_name  " := by
  decide

/-- C19: `trimSemiColumn` removes one trailing semicolon with the white space
after it, and nothing else. White space is the class `\s` of the pattern (tab,
newline, form feed, carriage return, space). For every text `p` and every text
`w` of white space only, `trimSemiColumn (p ++ ";" ++ w) = p`; and a query
whose last character that is not white space is not `;` (also a query of white
space only, and the empty query) is returned unchanged. -/
theorem trimSemiColumn_spec :
    (∀ p w : String, (∀ c ∈ w.data, isSpace c = true) → trimSemiColumn (p ++ ";" ++ w) = p)
    ∧ (∀ q : String, q.data.reverse.find? (fun c => !isSpace c) ≠ some ';' →
        trimSemiColumn q = q) := by
  constructor
  · intro p w hw
    have hd : (p ++ ";" ++ w).data = p.data ++ ';' :: w.data := by
      simp [String.data_append]
    show String.mk (regEndSemiCol.replaceAll [] (p ++ ";" ++ w).data) = p
    rw [hd, replaceAll_regEndSemiCol_trailing p.data w.data hw]
  · intro q hq
    show String.mk (regEndSemiCol.replaceAll [] q.data) = q
    rw [Regex.replaceAll, replaceLoop_id regEndSemiCol [] q.data
      (matchAt_regEndSemiCol_none_of_last q.data hq)]

theorem trimSemiColumn_spec_witness :
    (∀ c ∈ " \t\n".data, isSpace c = true)
      ∧ trimSemiColumn ("select 1;" ++ ";" ++ " \t\n") = "select 1;"
      ∧ "select 1; x \t".data.reverse.find? (fun c => !isSpace c) ≠ some ';'
      ∧ trimSemiColumn "select 1; x \t" = "select 1; x \t" :=
  ⟨by decide, trimSemiColumn_spec.1 "select 1;" " \t\n" (by decide), by decide,
    trimSemiColumn_spec.2 "select 1; x \t" (by decide)⟩

/-- C20, evaluated: page 2 with limit 10 gives offset 10, a multiple of the
limit, and offset 10 with limit 10 gives page 1; likewise page 3 gives offset
20 and back page 1, and page 2 with limit 25 gives offset 25 and back page 1.
Page 4 with limit 10 is mapped back to page 4. -/
theorem page_of_offset_of_page_two :
    getOffsetFromPageAndLimit 2 10 25 = 10
    ∧ getPageFromOffsetAndLimit (getOffsetFromPageAndLimit 2 10 25) 10 25 = some 1
    ∧ getPageFromOffsetAndLimit (getOffsetFromPageAndLimit 3 10 25) 10 25 = some 1
    ∧ getPageFromOffsetAndLimit (getOffsetFromPageAndLimit 2 25 25) 25 25 = some 1
    ∧ getPageFromOffsetAndLimit (getOffsetFromPageAndLimit 4 10 25) 10 25 = some 4 := by
  decide

/-! ### The page of an offset -/

theorem wrapInt_of_range (x : Int) (h1 : -2 ^ 63 ≤ x) (h2 : x < 2 ^ 63) : wrapInt x = x := by
  unfold wrapInt
  rw [Int.emod_eq_of_lt (by omega) (by omega)]
  omega

theorem getPageFromOffsetAndLimit_of_pos_limit (offset limit : Int) (hl : 1 ≤ limit)
    (hsum : offset + limit < 2 ^ 63) :
    ∃ page, getPageFromOffsetAndLimit offset limit 25 = some page ∧ 1 ≤ page := by
  unfold getPageFromOffsetAndLimit
  split
  · exact ⟨1, rfl, le_refl _⟩
  · rename_i hoff
    have hoff2 : 25 < offset := by omega
    rw [if_neg (by omega), wrapInt_of_range _ (by omega) hsum]
    have hnn : 0 ≤ offset + limit := by omega
    have hdiv : Int.tdiv (offset + limit) limit = (offset + limit) / limit :=
      Int.tdiv_eq_ediv hnn (by omega)
    have hge : 1 ≤ (offset + limit) / limit :=
      Int.le_ediv_of_mul_le (by omega) (by omega)
    have hle : (offset + limit) / limit ≤ offset + limit :=
      Int.ediv_le_self _ hnn
    rw [hdiv, wrapInt_of_range _ (by omega) (by omega)]
    exact ⟨_, rfl, hge⟩

/-- C21, evaluated: with offset 30 and limit 0 the division of
`getPageFromOffsetAndLimit` is a division by zero, so it and `NewOffsetOption`
panic instead of returning; with offset 30 and limit -10 the page is -2, with
limit -40 it is 0, and with limit 1 and the largest offset the sum wraps and
the page is the smallest `int`. -/
theorem NewOffsetOption_zero_limit :
    getPageFromOffsetAndLimit 30 0 25 = none
    ∧ NewOffsetOption 30 0 = none
    ∧ getPageFromOffsetAndLimit 30 (-10) 25 = some (-2)
    ∧ NewOffsetOption 30 (-10)
      = some { qType := qTypePage, page := -2, limit := -10, offset := 30 }
    ∧ getPageFromOffsetAndLimit 30 (-40) 25 = some 0
    ∧ getPageFromOffsetAndLimit (2 ^ 63 - 1) 1 25 = some (-2 ^ 63) := by
  decide

end Dbx
